import Mathlib

/-!
# iplc-sim: pipeline and instruction-cache simulator

A shallow embedding of `src/iplc-sim.c`.  The C globals become the fields of one
record `State`, every C function becomes a function on `State`, and every `for`
loop becomes a recursion on the number of iterations that are left.

Conventions for machine integers:
* `unsigned int` values are `Nat` and every arithmetic result is taken `% 2^32`;
* `int` and `long` values are `Int`; signed overflow is undefined in C, so the
  model adds without wrapping, except in `iplc_sim_init`, whose size computation
  is wrapped to 32 bits the way the usual compilers do it;
* shift counts are `Nat` (a negative or too large shift count is undefined in C).
-/

namespace IplcSim

/-! ## Constants -/

/-- The constant `MAX_CACHE_SIZE`. -/
def MAX_CACHE_SIZE : Nat := 10240

/-- The constant `CACHE_MISS_DELAY`: the cache miss penalty, in cycles. -/
def CACHE_MISS_DELAY : Nat := 10

/-- The constant `MAX_STAGES`. -/
def MAX_STAGES : Nat := 5

/-- Two to the thirty-two: the modulus of `unsigned int` arithmetic. -/
def U32 : Nat := 4294967296

/-- Conversion of an integer to `int` (two's complement, 32 bits). -/
def toInt32 (x : Int) : Int :=
  let r := x % 4294967296
  if r < 2147483648 then r else r - 4294967296

/-- Conversion of an `int` to `unsigned long` (64 bits). -/
def toUInt64 (x : Int) : Nat := (x % 18446744073709551616).toNat

/-! ## Data -/

/-- The struct `cache_line_t`: one cache set, as three parallel arrays that hold
one entry per line of the set.  `valid_bit` is a `char` that the program sets to
0 (by `calloc`) or 1. -/
structure cache_line_t where
  valid_bit : List Nat
  tag : List Int
  age : List Int
  deriving DecidableEq

/-- The struct `inst_stats_t`. -/
structure inst_stats_t where
  rtype : Int
  lw : Int
  sw : Int
  branch : Int
  jump : Int
  syscall : Int
  nop : Int
  deriving DecidableEq

/-- The enum `instruction_type`. -/
inductive instruction_type where
  | NOP | RTYPE | LW | SW | BRANCH | JUMP | JAL | SYSCALL
  deriving DecidableEq

/-- The struct `rtype_t`. -/
structure rtype_t where
  instruction : String
  reg1 : Int
  reg2_or_constant : Int
  dest_reg : Int
  deriving DecidableEq

/-- The struct `lw_t`. -/
structure lw_t where
  data_address : Nat
  dest_reg : Int
  base_reg : Int
  deriving DecidableEq

/-- The struct `sw_t`. -/
structure sw_t where
  data_address : Nat
  src_reg : Int
  base_reg : Int
  deriving DecidableEq

/-- The struct `branch_t`. -/
structure branch_t where
  reg1 : Int
  reg2 : Int
  deriving DecidableEq

/-- The struct `jump_t`. -/
structure jump_t where
  instruction : String
  deriving DecidableEq

/-- The struct `pipeline_t`: one pipeline slot.  The C union `stage` is kept as
one field per member: the program reads a member only under the `itype` that
wrote it, and only after `bzero` cleared the whole slot, so the overlap of the
members in memory is never observed. -/
structure pipeline_t where
  itype : instruction_type
  instruction_address : Nat
  rtype : rtype_t
  lw : lw_t
  sw : sw_t
  branch : branch_t
  jump : jump_t
  deriving DecidableEq

/-- The array `pipeline[MAX_STAGES]`, one field per value of the enum
`pipeline_stages`. -/
structure pipeline_bank where
  FETCH : pipeline_t
  DECODE : pipeline_t
  ALU : pipeline_t
  MEM : pipeline_t
  WRITEBACK : pipeline_t
  deriving DecidableEq

/-- The global variables of the program. -/
structure State where
  inst_stats : inst_stats_t
  cache : List cache_line_t
  cache_index : Nat
  cache_blocksize : Nat
  cache_blockoffsetbits : Nat
  cache_assoc : Nat
  cache_miss : Int
  cache_access : Int
  cache_hit : Int
  instruction_address : Nat
  pipeline_cycles : Nat
  instruction_count : Nat
  branch_predict_taken : Nat
  branch_count : Nat
  correct_branch_predictions : Nat
  pipeline : pipeline_bank
  deriving DecidableEq

/-- A slot after `bzero`: kind `NOP`, address 0, every operand 0. -/
def zero_slot : pipeline_t :=
  { itype := instruction_type.NOP, instruction_address := 0,
    rtype := { instruction := "", reg1 := 0, reg2_or_constant := 0, dest_reg := 0 },
    lw := { data_address := 0, dest_reg := 0, base_reg := 0 },
    sw := { data_address := 0, src_reg := 0, base_reg := 0 },
    branch := { reg1 := 0, reg2 := 0 },
    jump := { instruction := "" } }

/-- A cache set with no line: what reading `cache[index]` gives in the model
when `index` is not an index of the array (undefined in C). -/
def empty_set : cache_line_t := { valid_bit := [], tag := [], age := [] }

/-- The set `cache[index]`. -/
def cache_set (s : State) (index : Nat) : cache_line_t := s.cache.getD index empty_set

/-- The value `cache[index].valid_bit[i]`. -/
def valid_at (c : cache_line_t) (i : Nat) : Nat := c.valid_bit.getD i 0

/-- The value `cache[index].tag[i]`. -/
def tag_at (c : cache_line_t) (i : Nat) : Int := c.tag.getD i 0

/-- The value `cache[index].age[i]`. -/
def age_at (c : cache_line_t) (i : Nat) : Int := c.age.getD i 0

/-! ## Cache functions -/

/-- The loop of `iplc_sim_LRU_update_on_hit`: for `i` up to `cache_assoc`, a line
whose valid bit is 1 gets `age[i] += 1`.  `n` is the number of iterations left. -/
def update_loop : Nat → Nat → cache_line_t → cache_line_t
  | 0, _, c => c
  | n + 1, i, c =>
    if valid_at c i = 1 then
      update_loop n (i + 1) { c with age := c.age.set i (age_at c i + 1) }
    else
      update_loop n (i + 1) c

/-- The function `iplc_sim_LRU_update_on_hit`: set the age of line `assoc_entry`
to 0, then run the loop over every line of the set. -/
def iplc_sim_LRU_update_on_hit (s : State) (index assoc_entry : Nat) : State :=
  let c := cache_set s index
  let c1 : cache_line_t := { c with age := c.age.set assoc_entry 0 }
  { s with cache := s.cache.set index (update_loop s.cache_assoc 0 c1) }

/-- The search loop of `iplc_sim_LRU_replace_on_miss`; the result is the value
of `target_line` when the loop ends.  `n` is the number of iterations left. -/
def replace_loop (c : cache_line_t) : Nat → Nat → Int → Nat → Nat
  | 0, _, _, target_line => target_line
  | n + 1, i, oldest_age, target_line =>
    if valid_at c i = 0 then i
    else if age_at c i > oldest_age then replace_loop c n (i + 1) (age_at c i) i
    else replace_loop c n (i + 1) oldest_age target_line

/-- The line that `iplc_sim_LRU_replace_on_miss` picks in set `index`. -/
def target_of (s : State) (index : Nat) : Nat :=
  replace_loop (cache_set s index) s.cache_assoc 0 0 0

/-- The function `iplc_sim_LRU_replace_on_miss`. -/
def iplc_sim_LRU_replace_on_miss (s : State) (index : Nat) (tag : Int) : State :=
  let target_line := target_of s index
  let c := cache_set s index
  let c1 : cache_line_t := { c with tag := c.tag.set target_line tag }
  let c2 : cache_line_t := { c1 with valid_bit := c1.valid_bit.set target_line 1 }
  iplc_sim_LRU_update_on_hit { s with cache := s.cache.set index c2 } index target_line

/-- The local `index` of `iplc_sim_trap_address`:
`(1 << cache_index - 1) & (address >> cache_blockoffsetbits)`.  In C the
subtraction binds tighter than the shift, so the mask is `1 << (cache_index - 1)`.
(For `cache_index = 0` the shift count is negative, which is undefined in C; the
model then shifts by 0.) -/
def trap_index (s : State) (address : Nat) : Nat :=
  (1 <<< (s.cache_index - 1)) &&& (address >>> s.cache_blockoffsetbits)

/-- The local `tag` of `iplc_sim_trap_address`:
`address >> (cache_index + cache_blockoffsetbits)`, converted to `int`. -/
def trap_tag (s : State) (address : Nat) : Int :=
  toInt32 ((address >>> (s.cache_index + s.cache_blockoffsetbits) : Nat) : Int)

/-- The search loop of `iplc_sim_trap_address`: the first line `i` of the set
with valid bit 1 and the wanted tag, if there is one below `i + n`. -/
def trap_loop (c : cache_line_t) (tag : Int) : Nat → Nat → Option Nat
  | 0, _ => none
  | n + 1, i =>
    if valid_at c i = 1 ∧ tag_at c i = tag then some i
    else trap_loop c tag n (i + 1)

/-- The function `iplc_sim_trap_address`: the returned `hit` and the new state. -/
def iplc_sim_trap_address (s : State) (address : Nat) : Int × State :=
  let index := trap_index s address
  let tag := trap_tag s address
  match trap_loop (cache_set s index) tag s.cache_assoc 0 with
  | some i =>
    let s1 := iplc_sim_LRU_update_on_hit { s with cache_hit := s.cache_hit + 1 } index i
    (1, { s1 with cache_access := s1.cache_access + 1 })
  | none =>
    let s1 := iplc_sim_LRU_replace_on_miss { s with cache_miss := s.cache_miss + 1 } index tag
    (0, { s1 with cache_access := s1.cache_access + 1 })

/-! ## Initialisation -/

/-- The value of `cache_blockoffsetbits` in `iplc_sim_init`:
`(int) ceil((blocksize * 4) / 2)`.  The division is the integer division of C,
so `ceil` receives a whole number and returns it. -/
def init_blockoffsetbits (blocksize : Int) : Int :=
  Int.tdiv (toInt32 (blocksize * 4)) 2

/-- The last factor of `cache_size` in `iplc_sim_init`:
`(32 * blocksize) + 33 - index - cache_blockoffsetbits`, in `int` arithmetic. -/
def init_line_size (index blocksize : Int) : Int :=
  toInt32 (toInt32 (toInt32 (toInt32 (32 * blocksize) + 33) - index)
    - init_blockoffsetbits blocksize)

/-- The value of `cache_size` in `iplc_sim_init`:
`assoc * (1 << index) * line_size`, computed in `int` and stored in an
`unsigned long`. -/
def init_cache_size (index blocksize assoc : Int) : Nat :=
  toUInt64 (toInt32 (toInt32 (assoc * toInt32 ((1 <<< index.toNat : Nat) : Int))
    * init_line_size index blocksize))

/-- One freshly allocated set: `calloc` clears the valid bits and the ages, the
tags come from `malloc` and hold whatever the heap held (`heap i`, for line `i`). -/
def fresh_set (heap : Nat → Int) (assoc : Nat) : cache_line_t :=
  { valid_bit := List.replicate assoc 0,
    tag := (List.range assoc).map heap,
    age := List.replicate assoc 0 }

/-- The function `iplc_sim_init`; `none` stands for `exit(-1)`.  `heap j i` is
the content of the uninitialised memory that becomes `cache[j].tag[i]`.  The
counters are not touched. -/
def iplc_sim_init (s : State) (heap : Nat → Nat → Int) (index blocksize assoc : Int) :
    Option State :=
  if init_cache_size index blocksize assoc > MAX_CACHE_SIZE then none
  else
    some { s with
      cache_index := index.toNat,
      cache_blocksize := blocksize.toNat,
      cache_assoc := assoc.toNat,
      cache_blockoffsetbits := (init_blockoffsetbits blocksize).toNat,
      cache := (List.range (1 <<< index.toNat)).map (fun j => fresh_set (heap j) assoc.toNat),
      pipeline := { FETCH := zero_slot, DECODE := zero_slot, ALU := zero_slot,
                    MEM := zero_slot, WRITEBACK := zero_slot } }

/-- The arrays `index_inputs`, `blocksize_inputs` and `assoclvl_inputs` of
`run_pa`, as the list of the 18 triples. -/
def sweep_inputs : List (Int × Int × Int) :=
  [(7,1,1), (6,1,2), (6,2,1), (6,4,1), (5,1,4), (5,2,2), (5,4,2), (4,2,4), (4,4,4),
   (7,1,1), (6,1,2), (6,2,1), (6,4,1), (5,1,4), (5,2,2), (5,4,2), (4,2,4), (4,4,4)]

/-! ## Pipeline functions -/

/-- Step 1 of `iplc_sim_push_pipeline_stage`: count the instruction in WRITEBACK
as retired when its address is not 0. -/
def push_retire (s : State) : State :=
  if s.pipeline.WRITEBACK.instruction_address ≠ 0 then
    { s with instruction_count := (s.instruction_count + 1) % U32 }
  else s

/-- The local `branch_taken` of step 2: 1 when the address in FETCH is not the
address in DECODE plus 4 (in `unsigned int` arithmetic), else 0. -/
def branch_taken (s : State) : Nat :=
  if s.pipeline.FETCH.instruction_address ≠ (s.pipeline.DECODE.instruction_address + 4) % U32
  then 1 else 0

/-- Step 2 of `iplc_sim_push_pipeline_stage`: the branch check.  The result is
the new state and the value of `stall` after the step (`stall` is 0 before). -/
def push_branch (s : State) : State × Nat :=
  if s.pipeline.DECODE.itype = instruction_type.BRANCH then
    let s1 := { s with branch_count := (s.branch_count + 1) % U32 }
    if s.branch_predict_taken ≠ 0 then
      if branch_taken s ≠ 0 then
        ({ s1 with correct_branch_predictions := (s1.correct_branch_predictions + 1) % U32 }, 0)
      else (s1, 1)
    else
      if ¬ (branch_taken s ≠ 0) then
        ({ s1 with correct_branch_predictions := (s1.correct_branch_predictions + 1) % U32 }, 0)
      else (s1, 1)
  else (s, 0)

/-- Step 3 of `iplc_sim_push_pipeline_stage`: the load check; the result is the
new value of `stall`. -/
def push_lw (s : State) (stall : Nat) : Nat :=
  if s.pipeline.MEM.itype = instruction_type.LW then
    if s.pipeline.ALU.itype = instruction_type.RTYPE then
      if s.pipeline.ALU.rtype.reg1 = s.pipeline.MEM.lw.dest_reg
          ∨ s.pipeline.ALU.rtype.reg2_or_constant = s.pipeline.MEM.lw.dest_reg then
        stall + 1
      else stall
    else stall
  else stall

/-- Step 4 of `iplc_sim_push_pipeline_stage`: the store check; the result is the
new value of `stall`. -/
def push_sw (s : State) (stall : Nat) : Nat :=
  if s.pipeline.MEM.itype = instruction_type.SW then
    if s.pipeline.ALU.itype = instruction_type.RTYPE then
      if s.pipeline.ALU.rtype.dest_reg = s.pipeline.MEM.sw.base_reg then stall + 1
      else stall
    else stall
  else stall

/-- Steps 2 to 4 of `iplc_sim_push_pipeline_stage`: the state after the branch
check and the value of `stall` when step 5 starts. -/
def push_hazards (s : State) : State × Nat :=
  let r := push_branch s
  (r.1, push_sw r.1 (push_lw r.1 r.2))

/-- Steps 5 to 7 of `iplc_sim_push_pipeline_stage`: one more cycle, the four
`memcpy` calls and the `bzero` of FETCH. -/
def push_shift (s : State) : State :=
  { s with
    pipeline_cycles := (s.pipeline_cycles + 1) % U32,
    pipeline := { WRITEBACK := s.pipeline.MEM, MEM := s.pipeline.ALU,
                  ALU := s.pipeline.DECODE, DECODE := s.pipeline.FETCH,
                  FETCH := zero_slot } }

/-- The function `iplc_sim_push_pipeline_stage`, with a bound on the depth of
its recursion: `none` when the bound is used up.  The function calls itself once
when `stall` is not 0, on the state after the shift. -/
def push_fuel : Nat → State → Option State
  | 0, _ => none
  | fuel + 1, s =>
    let r := push_hazards (push_retire s)
    let s1 := push_shift r.1
    if r.2 ≠ 0 then push_fuel fuel s1 else some s1

/-- The function `iplc_sim_push_pipeline_stage`.  Three levels of calls are
enough from every state (`push_fuel_enough`), so the bound 3 never runs out. -/
def iplc_sim_push_pipeline_stage (s : State) : State := (push_fuel 3 s).getD s

/-! ## States and specification-side definitions used in the statements -/

/-- The values the C globals have when the program starts. -/
def initial_state : State :=
  { inst_stats := { rtype := 0, lw := 0, sw := 0, branch := 0, jump := 0, syscall := 0, nop := 0 },
    cache := [], cache_index := 0, cache_blocksize := 0, cache_blockoffsetbits := 0,
    cache_assoc := 0, cache_miss := 0, cache_access := 0, cache_hit := 0,
    instruction_address := 0, pipeline_cycles := 0, instruction_count := 0,
    branch_predict_taken := 0, branch_count := 0, correct_branch_predictions := 0,
    pipeline := { FETCH := zero_slot, DECODE := zero_slot, ALU := zero_slot,
                  MEM := zero_slot, WRITEBACK := zero_slot } }

/-- A heap whose uninitialised words all hold 0. -/
def zero_heap : Nat → Nat → Int := fun _ _ => 0

/-- The set index as the specification words it:
`(address >> block_offset_bits) & (2^index_bits - 1)`. -/
def spec_index (index_bits block_offset_bits address : Nat) : Nat :=
  (address >>> block_offset_bits) &&& (2 ^ index_bits - 1)

/-- The recombination of the decoder outputs that the specification asks to give
the address back:
`(tag << (index_bits + block_offset_bits)) | (index << block_offset_bits)
 | (address mod 2^block_offset_bits)`, on the `index` and `tag` that
`iplc_sim_trap_address` computes. -/
def recombine (s : State) (address : Nat) : Nat :=
  ((trap_tag s address).toNat <<< (s.cache_index + s.cache_blockoffsetbits))
    ||| (trap_index s address <<< s.cache_blockoffsetbits)
    ||| (address % 2 ^ s.cache_blockoffsetbits)

/-- The state after the lookups of the addresses of `addrs`, in order. -/
def run_trap (s : State) (addrs : List Nat) : State :=
  addrs.foldl (fun st a => (iplc_sim_trap_address st a).2) s

/-- The line of the set that a lookup accesses: the line that hits, or on a miss
the line that `iplc_sim_LRU_replace_on_miss` fills. -/
def accessed_line (s : State) (address : Nat) : Nat :=
  match trap_loop (cache_set s (trap_index s address)) (trap_tag s address) s.cache_assoc 0 with
  | some i => i
  | none => target_of s (trap_index s address)

/-- The three arrays of a set have `assoc` entries each. -/
def set_wf (assoc : Nat) (c : cache_line_t) : Prop :=
  c.valid_bit.length = assoc ∧ c.tag.length = assoc ∧ c.age.length = assoc

instance (assoc : Nat) (c : cache_line_t) : Decidable (set_wf assoc c) := by
  unfold set_wf; infer_instance

/-! ## Sample states -/

/-- The state after `iplc_sim_init` with `index = 1`, `blocksize = 1`, `assoc = 2`
on the initial globals: two sets of two lines, three index-and-offset bits. -/
def sample_init : State :=
  (iplc_sim_init initial_state zero_heap 1 1 2).getD initial_state

/-- The state after the lookup of address 56 (set 0, tag 7): set 0 holds one
valid line and one invalid line. -/
def sample_half : State := run_trap sample_init [56]

/-- The state after the lookups of addresses 56 and 40 (set 0, tags 7 and 5):
both lines of set 0 are valid. -/
def sample_full : State := run_trap sample_init [56, 40]

/-- A state of the pipeline with a BRANCH at address `0x400100` in DECODE and an
RTYPE at address `0x400104` in FETCH; `branch_predict_taken` is 0. -/
def sample_branch : State :=
  { initial_state with
    pipeline :=
      { FETCH := { zero_slot with
                   itype := instruction_type.RTYPE, instruction_address := 4194564,
                   rtype := { instruction := "add", reg1 := 2, reg2_or_constant := 3,
                              dest_reg := 1 } },
        DECODE := { zero_slot with
                    itype := instruction_type.BRANCH, instruction_address := 4194560,
                    branch := { reg1 := -1, reg2 := -1 } },
        ALU := zero_slot, MEM := zero_slot, WRITEBACK := zero_slot } }

/-! ## Per-opcode dispatch -/

/-- The function `iplc_sim_process_pipeline_rtype`. -/
def iplc_sim_process_pipeline_rtype (s : State) (instruction : String)
    (dest_reg reg1 reg2_or_constant : Int) : State :=
  let s1 := iplc_sim_push_pipeline_stage s
  { s1 with pipeline := { s1.pipeline with FETCH := { s1.pipeline.FETCH with
      itype := instruction_type.RTYPE,
      instruction_address := s1.instruction_address,
      rtype := { instruction := instruction, reg1 := reg1,
                 reg2_or_constant := reg2_or_constant, dest_reg := dest_reg } } } }

/-- The function `iplc_sim_process_pipeline_lw`. -/
def iplc_sim_process_pipeline_lw (s : State) (dest_reg base_reg : Int) (data_address : Nat) :
    State :=
  let s1 := iplc_sim_push_pipeline_stage s
  { s1 with pipeline := { s1.pipeline with FETCH := { s1.pipeline.FETCH with
      itype := instruction_type.LW,
      instruction_address := s1.instruction_address,
      lw := { data_address := data_address, dest_reg := dest_reg, base_reg := base_reg } } } }

/-- The function `iplc_sim_process_pipeline_sw`. -/
def iplc_sim_process_pipeline_sw (s : State) (src_reg base_reg : Int) (data_address : Nat) :
    State :=
  let s1 := iplc_sim_push_pipeline_stage s
  { s1 with pipeline := { s1.pipeline with FETCH := { s1.pipeline.FETCH with
      itype := instruction_type.SW,
      instruction_address := s1.instruction_address,
      sw := { data_address := data_address, src_reg := src_reg, base_reg := base_reg } } } }

/-- The function `iplc_sim_process_pipeline_branch`. -/
def iplc_sim_process_pipeline_branch (s : State) (reg1 reg2 : Int) : State :=
  let s1 := iplc_sim_push_pipeline_stage s
  { s1 with pipeline := { s1.pipeline with FETCH := { s1.pipeline.FETCH with
      itype := instruction_type.BRANCH,
      instruction_address := s1.instruction_address,
      branch := { reg1 := reg1, reg2 := reg2 } } } }

/-- The function `iplc_sim_process_pipeline_jump`. -/
def iplc_sim_process_pipeline_jump (s : State) (instruction : String) : State :=
  let s1 := iplc_sim_push_pipeline_stage s
  { s1 with pipeline := { s1.pipeline with FETCH := { s1.pipeline.FETCH with
      itype := instruction_type.JUMP,
      instruction_address := s1.instruction_address,
      jump := { instruction := instruction } } } }

/-- The function `iplc_sim_process_pipeline_syscall`. -/
def iplc_sim_process_pipeline_syscall (s : State) : State :=
  let s1 := iplc_sim_push_pipeline_stage s
  { s1 with pipeline := { s1.pipeline with FETCH := { s1.pipeline.FETCH with
      itype := instruction_type.SYSCALL,
      instruction_address := s1.instruction_address } } }

/-- The function `iplc_sim_process_pipeline_nop`. -/
def iplc_sim_process_pipeline_nop (s : State) : State :=
  let s1 := iplc_sim_push_pipeline_stage s
  { s1 with pipeline := { s1.pipeline with FETCH := { s1.pipeline.FETCH with
      itype := instruction_type.NOP,
      instruction_address := s1.instruction_address } } }

/-- One call of a `process_*` function with its arguments: what a trace line is
once `iplc_sim_parse_instruction` has read its tokens. -/
inductive process_call where
  | rtype (instruction : String) (dest_reg reg1 reg2_or_constant : Int)
  | lw (dest_reg base_reg : Int) (data_address : Nat)
  | sw (src_reg base_reg : Int) (data_address : Nat)
  | branch (reg1 reg2 : Int)
  | jump (instruction : String)
  | syscall
  | nop
  deriving DecidableEq

/-- The kind that a call writes into FETCH. -/
def process_call.kind : process_call → instruction_type
  | process_call.rtype _ _ _ _ => instruction_type.RTYPE
  | process_call.lw _ _ _ => instruction_type.LW
  | process_call.sw _ _ _ => instruction_type.SW
  | process_call.branch _ _ => instruction_type.BRANCH
  | process_call.jump _ => instruction_type.JUMP
  | process_call.syscall => instruction_type.SYSCALL
  | process_call.nop => instruction_type.NOP

/-- The last part of `iplc_sim_parse_instruction`: the call of the `process_*`
function of the instruction. -/
def dispatch (s : State) : process_call → State
  | process_call.rtype instruction dest_reg reg1 reg2_or_constant =>
    iplc_sim_process_pipeline_rtype s instruction dest_reg reg1 reg2_or_constant
  | process_call.lw dest_reg base_reg data_address =>
    iplc_sim_process_pipeline_lw s dest_reg base_reg data_address
  | process_call.sw src_reg base_reg data_address =>
    iplc_sim_process_pipeline_sw s src_reg base_reg data_address
  | process_call.branch reg1 reg2 => iplc_sim_process_pipeline_branch s reg1 reg2
  | process_call.jump instruction => iplc_sim_process_pipeline_jump s instruction
  | process_call.syscall => iplc_sim_process_pipeline_syscall s
  | process_call.nop => iplc_sim_process_pipeline_nop s

/-! ## Fetch-side miss penalty -/

/-- The loop `for (i = pipeline_cycles, j = pipeline_cycles;
i < j + CACHE_MISS_DELAY - 1; i++) iplc_sim_push_pipeline_stage();` of
`iplc_sim_parse_instruction`, from the value `i` of the loop variable.  The
result is the list of the states after each call that the loop makes; `fuel`
bounds the number of iterations.  `i` and `j` are `int`; the sum
`j + CACHE_MISS_DELAY - 1` is taken without overflow (undefined in C). -/
def burn_loop (j : Int) : Nat → Int → State → List State
  | 0, _, _ => []
  | fuel + 1, i, s =>
    if i < j + (CACHE_MISS_DELAY : Int) - 1 then
      iplc_sim_push_pipeline_stage s
        :: burn_loop j fuel (i + 1) (iplc_sim_push_pipeline_stage s)
    else []

/-- The states after each call of the miss loop, started with
`i = j = pipeline_cycles` (converted to `int`).  The bound `CACHE_MISS_DELAY` is
more than the loop needs (`burn_loop_fuel`). -/
def miss_burn_trace (s : State) : List State :=
  burn_loop (toInt32 s.pipeline_cycles) CACHE_MISS_DELAY (toInt32 s.pipeline_cycles) s

/-- The state after the miss loop. -/
def miss_burn (s : State) : State := (miss_burn_trace s).getLastD s

/-- The function `iplc_sim_parse_instruction` on a trace line whose tokens are
read: the address goes to the global `instruction_address`, the cache is
consulted, a miss runs the miss loop, then the instruction is dispatched. -/
def iplc_sim_parse_instruction (s : State) (address : Nat) (c : process_call) : State :=
  let r := iplc_sim_trap_address { s with instruction_address := address } address
  if r.1 = 0 then dispatch (miss_burn r.2) c else dispatch r.2 c

/-! ## Drain and statistics -/

/-- The condition of the `while` loop of `iplc_sim_finalize`: some slot has a
kind other than `NOP`. -/
def drain_cond (s : State) : Prop :=
  s.pipeline.FETCH.itype ≠ instruction_type.NOP
    ∨ s.pipeline.DECODE.itype ≠ instruction_type.NOP
    ∨ s.pipeline.ALU.itype ≠ instruction_type.NOP
    ∨ s.pipeline.MEM.itype ≠ instruction_type.NOP
    ∨ s.pipeline.WRITEBACK.itype ≠ instruction_type.NOP

instance (s : State) : Decidable (drain_cond s) := by
  unfold drain_cond; infer_instance

/-- The `while` loop of `iplc_sim_finalize`: the list of the states after each
call that the loop makes, `none` when `fuel` iterations do not end the loop. -/
def finalize_loop : Nat → State → Option (List State)
  | 0, s => if drain_cond s then none else some []
  | fuel + 1, s =>
    if drain_cond s then
      (finalize_loop fuel (iplc_sim_push_pipeline_stage s)).map
        (fun rest => iplc_sim_push_pipeline_stage s :: rest)
    else some []

/-- The function `iplc_sim_finalize` (the state after its loop; the rest of the
function prints).  Five iterations end the loop from every state
(`finalize_loop_enough`). -/
def iplc_sim_finalize (s : State) : State :=
  ((finalize_loop 5 s).getD []).getLastD s

/-- The value `cpi_outputs[i]` of `run_pa`:
`(instruction_count == 0) ? 0 : (pipeline_cycles / instruction_count)`, a
division of `unsigned int`; the conversion to `double` keeps the whole number. -/
def run_pa_cpi (s : State) : Nat :=
  if s.instruction_count = 0 then 0 else s.pipeline_cycles / s.instruction_count

/-- The value `cmr_outputs[i]` of `run_pa`:
`(cache_access == 0) ? 0 : (cache_miss / cache_access)`, a division of `long`;
the conversion to `double` keeps the whole number. -/
def run_pa_cmr (s : State) : Int :=
  if s.cache_access = 0 then 0 else Int.tdiv s.cache_miss s.cache_access

/-- The array `brnchpred_inputs` of `run_pa`. -/
def brnchpred_inputs : List Nat := [0,0,0,0,0,0,0,0,0, 1,1,1,1,1,1,1,1,1]

/-- The start of iteration `i` of the sweep in `run_pa`:
`branch_predict_taken = brnchpred_inputs[i]` and the call of `iplc_sim_init` on
the inputs of the iteration. -/
def run_pa_start (s : State) (heap : Nat → Nat → Int) (i : Nat) : Option State :=
  iplc_sim_init { s with branch_predict_taken := brnchpred_inputs.getD i 0 } heap
    (sweep_inputs.getD i (0, 0, 0)).1 (sweep_inputs.getD i (0, 0, 0)).2.1
    (sweep_inputs.getD i (0, 0, 0)).2.2

/-- The state after a list of trace lines (address and call), in order. -/
def run_trace (s : State) (lines : List (Nat × process_call)) : State :=
  lines.foldl (fun st l => iplc_sim_parse_instruction st l.1 l.2) s

/-- The state after a list of `process_*` calls, each made with the global
`instruction_address` set to the address that comes with it. -/
def run_calls (s : State) (calls : List (Nat × process_call)) : State :=
  calls.foldl (fun st l => dispatch { st with instruction_address := l.1 } l.2) s

/-! ## Definitions used in the statements on the pipeline -/

/-- Steps 1 to 7 of one call of `iplc_sim_push_pipeline_stage`: retirement,
hazard detection, one more cycle, the shift and the clearing of FETCH. -/
def push_round (s : State) : State := push_shift (push_hazards (push_retire s)).1

/-- The value of `stall` that a call of `iplc_sim_push_pipeline_stage` on `s`
has when it reaches `if (stall)`. -/
def push_stall (s : State) : Nat := (push_hazards (push_retire s)).2

/-- The first `k` slots of the bank, counted from FETCH, are cleared slots. -/
def cleared_upto (k : Nat) (p : pipeline_bank) : Prop :=
  (1 ≤ k → p.FETCH = zero_slot) ∧ (2 ≤ k → p.DECODE = zero_slot)
    ∧ (3 ≤ k → p.ALU = zero_slot) ∧ (4 ≤ k → p.MEM = zero_slot)
    ∧ (5 ≤ k → p.WRITEBACK = zero_slot)

/-- The empty bank: five cleared slots. -/
def empty_bank : pipeline_bank :=
  { FETCH := zero_slot, DECODE := zero_slot, ALU := zero_slot, MEM := zero_slot,
    WRITEBACK := zero_slot }

/-- 1 when the slot has a nonzero `instruction_address`, else 0. -/
def slot_counts (p : pipeline_t) : Nat := if p.instruction_address ≠ 0 then 1 else 0

/-- The number of slots of the bank with a nonzero `instruction_address`: the
instructions in flight that the retirement step will count. -/
def in_flight (p : pipeline_bank) : Nat :=
  slot_counts p.FETCH + slot_counts p.DECODE + slot_counts p.ALU + slot_counts p.MEM
    + slot_counts p.WRITEBACK

/-- The number of calls of the list that are made at a nonzero address. -/
def inserted_nonzero (calls : List (Nat × process_call)) : Nat :=
  (calls.filter (fun l => l.1 ≠ 0)).length

/-- Every slot with a nonzero address has a kind other than `NOP`. -/
def no_nop_in_flight (p : pipeline_bank) : Prop :=
  (p.FETCH.instruction_address ≠ 0 → p.FETCH.itype ≠ instruction_type.NOP)
    ∧ (p.DECODE.instruction_address ≠ 0 → p.DECODE.itype ≠ instruction_type.NOP)
    ∧ (p.ALU.instruction_address ≠ 0 → p.ALU.itype ≠ instruction_type.NOP)
    ∧ (p.MEM.instruction_address ≠ 0 → p.MEM.itype ≠ instruction_type.NOP)
    ∧ (p.WRITEBACK.instruction_address ≠ 0 → p.WRITEBACK.itype ≠ instruction_type.NOP)

/-! ## Sample states of the pipeline -/

/-- The pipeline after the calls for `lw $8` at `0x400138`, `add $1, $8, $3` at
`0x40013c`, `beq` at `0x400140` and `add $2, $3, $4` at `0x400168` (the branch
is taken), with `branch_predict_taken = 0`: MEM holds the LW, ALU the dependent
RTYPE, DECODE the BRANCH, FETCH its target. -/
def sample_stall_two : State :=
  run_calls initial_state
    [(4194616, process_call.lw 8 (-1) 268500992),
     (4194620, process_call.rtype "add" 1 8 3),
     (4194624, process_call.branch (-1) (-1)),
     (4194664, process_call.rtype "add" 2 3 4)]

/-- The pipeline after the call for `beq` at `0x400140` on the initial state,
with `branch_predict_taken = 0`: FETCH holds the BRANCH. -/
def sample_branch_fetched : State :=
  run_calls initial_state [(4194624, process_call.branch (-1) (-1))]

/-! ## The lookup on one set -/

/-- The set `cache[index]` after a lookup of `tag` in it, as
`iplc_sim_trap_address` and the two LRU functions leave it
(`trap_address_on_set`). -/
def lookup_set (c : cache_line_t) (tag : Int) (assoc : Nat) : cache_line_t :=
  match trap_loop c tag assoc 0 with
  | some i => update_loop assoc 0 { c with age := c.age.set i 0 }
  | none =>
    update_loop assoc 0
      { valid_bit := c.valid_bit.set (replace_loop c assoc 0 0 0) 1,
        tag := c.tag.set (replace_loop c assoc 0 0 0) tag,
        age := c.age.set (replace_loop c assoc 0 0 0) 0 }

/-- The value that `iplc_sim_trap_address` returns for a lookup of `tag` in the
set `c`. -/
def lookup_hit (c : cache_line_t) (tag : Int) (assoc : Nat) : Int :=
  match trap_loop c tag assoc 0 with
  | some _ => 1
  | none => 0

/-! ## The load-use scenario -/

/-- The slot that `iplc_sim_process_pipeline_lw` leaves in FETCH. -/
def lw_slot (address : Nat) (dest_reg base_reg : Int) (data_address : Nat) : pipeline_t :=
  { zero_slot with
    itype := instruction_type.LW, instruction_address := address,
    lw := { data_address := data_address, dest_reg := dest_reg, base_reg := base_reg } }

/-- The slot that `iplc_sim_process_pipeline_rtype` leaves in FETCH. -/
def rtype_slot (address : Nat) (instruction : String) (dest_reg reg1 reg2_or_constant : Int) :
    pipeline_t :=
  { zero_slot with
    itype := instruction_type.RTYPE, instruction_address := address,
    rtype := { instruction := instruction, reg1 := reg1,
               reg2_or_constant := reg2_or_constant, dest_reg := dest_reg } }

/-- The state after the call for a LW at address `a1` and the call for an RTYPE
at address `a2`, in this order, from state `s`. -/
def lw_then_rtype (s : State) (a1 a2 : Nat) (dest base : Int) (data_address : Nat)
    (instruction : String) (d r1 r2 : Int) : State :=
  iplc_sim_process_pipeline_rtype
    { iplc_sim_process_pipeline_lw { s with instruction_address := a1 } dest base data_address
      with instruction_address := a2 }
    instruction d r1 r2

/-! ## Sample states of the sweep -/

/-- The state at the start of the first configuration of the sweep (`index = 7`,
`blocksize = 1`, `assoc = 1`, prediction not taken), from the initial globals. -/
def sample_sweep_start : State := (run_pa_start initial_state zero_heap 0).getD initial_state

/-- The state after `iplc_sim_init` with `index = 2`, `blocksize = 1`,
`assoc = 1` on the initial globals: the direct-mapped configuration. -/
def sample_direct : State := (iplc_sim_init initial_state zero_heap 2 1 1).getD initial_state

/-! ## Definitions used in the statements on the insertion and on the branches -/

/-- The state `t` with `slot` written into FETCH and nothing else changed. -/
def with_fetch (t : State) (slot : pipeline_t) : State :=
  { t with pipeline := { t.pipeline with FETCH := slot } }

/-- The slot that `iplc_sim_process_pipeline_sw` leaves in FETCH. -/
def sw_slot (address : Nat) (src_reg base_reg : Int) (data_address : Nat) : pipeline_t :=
  { zero_slot with
    itype := instruction_type.SW, instruction_address := address,
    sw := { data_address := data_address, src_reg := src_reg, base_reg := base_reg } }

/-- The slot that `iplc_sim_process_pipeline_branch` leaves in FETCH. -/
def branch_slot (address : Nat) (reg1 reg2 : Int) : pipeline_t :=
  { zero_slot with
    itype := instruction_type.BRANCH, instruction_address := address,
    branch := { reg1 := reg1, reg2 := reg2 } }

/-- The slot that `iplc_sim_process_pipeline_jump` leaves in FETCH. -/
def jump_slot (address : Nat) (instruction : String) : pipeline_t :=
  { zero_slot with
    itype := instruction_type.JUMP, instruction_address := address,
    jump := { instruction := instruction } }

/-- The slot that `iplc_sim_process_pipeline_syscall` leaves in FETCH. -/
def syscall_slot (address : Nat) : pipeline_t :=
  { zero_slot with itype := instruction_type.SYSCALL, instruction_address := address }

/-- The slot that `iplc_sim_process_pipeline_nop` leaves in FETCH. -/
def nop_slot (address : Nat) : pipeline_t :=
  { zero_slot with itype := instruction_type.NOP, instruction_address := address }

/-- The state after the trace lines `beq` at `0x400140` and `beq` at `0x400148`
in the first configuration of the sweep (prediction not taken): the lookup of
the second line hits, DECODE holds the first BRANCH and FETCH the second, which
is not at the address of the first plus 4; ALU and MEM are empty. -/
def sample_two_branches : State :=
  run_trace sample_sweep_start
    [(4194624, process_call.branch (-1) (-1)), (4194632, process_call.branch (-1) (-1))]

/-! ## Definitions used in the statements on the replacement policy -/

/-- The block of an address: `address >> cache_blockoffsetbits`. -/
def block_of (s : State) (address : Nat) : Nat := address >>> s.cache_blockoffsetbits

/-- The tags of the lookups of `addrs` that go to set `k`, the most recent
first, in front of the earlier ones `hist`. -/
def set_history (s : State) (k : Nat) (hist : List Int) (addrs : List Nat) : List Int :=
  addrs.foldl (fun h a => if trap_index s a = k then trap_tag s a :: h else h) hist

/-- The number of lookups of the history (most recent first) from the last
lookup of `tag` on, that lookup included.  (For a tag that is not in the history
the value is the length of the history.) -/
def lookups_since : List Int → Int → Nat
  | [], _ => 0
  | t :: rest, tag => if t = tag then 1 else lookups_since rest tag + 1

/-- Some valid line of the first `assoc` lines of the set holds `tag`. -/
def resident (c : cache_line_t) (assoc : Nat) (tag : Int) : Prop :=
  ∃ i, i < assoc ∧ valid_at c i = 1 ∧ tag_at c i = tag

instance (c : cache_line_t) (assoc : Nat) (tag : Int) : Decidable (resident c assoc tag) := by
  unfold resident; infer_instance

/-- The relation between a set and the history of the lookups that went to it:
the arrays have `assoc` entries, every valid bit is 0 or 1, the age of a valid
line is the number of lookups since the last lookup of its tag, and no two valid
lines hold the same tag. -/
def lru_inv (assoc : Nat) (c : cache_line_t) (hist : List Int) : Prop :=
  set_wf assoc c
    ∧ (∀ i, i < assoc → valid_at c i = 0 ∨ valid_at c i = 1)
    ∧ (∀ i, i < assoc → valid_at c i = 1 →
        tag_at c i ∈ hist ∧ age_at c i = (lookups_since hist (tag_at c i) : Int))
    ∧ (∀ i, i < assoc → ∀ j, j < assoc → valid_at c i = 1 → valid_at c j = 1 →
        tag_at c i = tag_at c j → i = j)

instance (assoc : Nat) (c : cache_line_t) (hist : List Int) : Decidable (lru_inv assoc c hist) :=
  @instDecidableAnd _ _ inferInstance
    (@instDecidableAnd _ _ inferInstance (@instDecidableAnd _ _ inferInstance inferInstance))

/-! ## The executions of the pipeline function during the miss loop -/

theorem getD_set_eq {α : Type} (l : List α) (i j : Nat) (a d : α) :
    (l.set i a).getD j d = if i = j ∧ i < l.length then a else l.getD j d := by
  simp only [List.getD_eq_getElem?_getD, List.getElem?_set]
  by_cases h : i = j
  · subst h
    by_cases h2 : i < l.length
    · simp [h2]
    · have : l[i]? = none := List.getElem?_eq_none (by omega)
      simp [h2, this]
  · simp [h]

theorem cache_set_set (s : State) (index k : Nat) (c : cache_line_t) (cache : List cache_line_t)
    (h : cache = s.cache.set index c) :
    cache.getD k empty_set
      = if index = k ∧ index < s.cache.length then c else cache_set s k := by
  subst h
  exact getD_set_eq s.cache index k c empty_set

/-! ## Lemmas on the loops of the cache functions -/

theorem update_loop_valid (n i : Nat) (c : cache_line_t) :
    (update_loop n i c).valid_bit = c.valid_bit := by
  induction n generalizing i c with
  | zero => rfl
  | succ n ih =>
    unfold update_loop
    split
    · rw [ih]
    · rw [ih]

theorem update_loop_tag (n i : Nat) (c : cache_line_t) :
    (update_loop n i c).tag = c.tag := by
  induction n generalizing i c with
  | zero => rfl
  | succ n ih =>
    unfold update_loop
    split
    · rw [ih]
    · rw [ih]

theorem update_loop_age_length (n i : Nat) (c : cache_line_t) :
    (update_loop n i c).age.length = c.age.length := by
  induction n generalizing i c with
  | zero => rfl
  | succ n ih =>
    unfold update_loop
    split
    · rw [ih]; simp
    · rw [ih]

theorem update_loop_age_at (n i j : Nat) (c : cache_line_t) (hj : j < c.age.length) :
    age_at (update_loop n i c) j
      = if i ≤ j ∧ j < i + n ∧ valid_at c j = 1 then age_at c j + 1 else age_at c j := by
  induction n generalizing i c with
  | zero =>
    have h0 : ¬ (i ≤ j ∧ j < i + 0 ∧ valid_at c j = 1) := by omega
    rw [if_neg h0]
    rfl
  | succ n ih =>
    have h4 : (i + 1 ≤ j ∧ j < i + 1 + n ∧ valid_at c j = 1)
        ↔ (i ≠ j ∧ i ≤ j ∧ j < i + (n + 1) ∧ valid_at c j = 1) := by
      constructor
      · intro h; exact ⟨by omega, by omega, by omega, h.2.2⟩
      · intro h; exact ⟨by omega, by omega, h.2.2.2⟩
    unfold update_loop
    split
    · rename_i hv
      have hlen : j < ({ c with age := c.age.set i (age_at c i + 1) } : cache_line_t).age.length := by
        simpa using hj
      rw [ih _ _ hlen]
      have hva : valid_at ({ c with age := c.age.set i (age_at c i + 1) } : cache_line_t) j
          = valid_at c j := rfl
      have hage : age_at ({ c with age := c.age.set i (age_at c i + 1) } : cache_line_t) j
          = if i = j ∧ i < c.age.length then age_at c i + 1 else age_at c j :=
        getD_set_eq c.age i j _ 0
      rw [hva]
      by_cases hij : i = j
      · subst hij
        have hage2 : age_at ({ c with age := c.age.set i (age_at c i + 1) } : cache_line_t) i
            = age_at c i + 1 := by rw [hage, if_pos ⟨rfl, hj⟩]
        have h6 : ¬ (i + 1 ≤ i ∧ i < i + 1 + n ∧ valid_at c i = 1) := fun h => (h4.mp h).1 rfl
        have h7 : i ≤ i ∧ i < i + (n + 1) ∧ valid_at c i = 1 := ⟨le_refl _, by omega, hv⟩
        rw [if_neg h6, if_pos h7, hage2]
      · have h8 : ¬ (i = j ∧ i < c.age.length) := fun h => hij h.1
        have hage2 : age_at ({ c with age := c.age.set i (age_at c i + 1) } : cache_line_t) j
            = age_at c j := by rw [hage, if_neg h8]
        rw [hage2]
        by_cases h5 : (i ≤ j ∧ j < i + (n + 1) ∧ valid_at c j = 1)
        · rw [if_pos (h4.mpr ⟨hij, h5⟩), if_pos h5]
        · have h9 : ¬ (i + 1 ≤ j ∧ j < i + 1 + n ∧ valid_at c j = 1) := fun h => h5 (h4.mp h).2
          rw [if_neg h9, if_neg h5]
    · rename_i hv
      rw [ih _ _ hj]
      by_cases hij : i = j
      · subst hij
        have h6 : ¬ (i + 1 ≤ i ∧ i < i + 1 + n ∧ valid_at c i = 1) := fun h => (h4.mp h).1 rfl
        have h7 : ¬ (i ≤ i ∧ i < i + (n + 1) ∧ valid_at c i = 1) := fun h => hv h.2.2
        rw [if_neg h6, if_neg h7]
      · by_cases h5 : (i ≤ j ∧ j < i + (n + 1) ∧ valid_at c j = 1)
        · rw [if_pos (h4.mpr ⟨hij, h5⟩), if_pos h5]
        · have h9 : ¬ (i + 1 ≤ j ∧ j < i + 1 + n ∧ valid_at c j = 1) := fun h => h5 (h4.mp h).2
          rw [if_neg h9, if_neg h5]

theorem trap_loop_some (c : cache_line_t) (tag : Int) (n i k : Nat)
    (h : trap_loop c tag n i = some k) :
    i ≤ k ∧ k < i + n ∧ valid_at c k = 1 ∧ tag_at c k = tag
      ∧ ∀ j, i ≤ j → j < k → ¬ (valid_at c j = 1 ∧ tag_at c j = tag) := by
  induction n generalizing i with
  | zero => simp [trap_loop] at h
  | succ n ih =>
    unfold trap_loop at h
    split at h
    · rename_i hv
      injection h with h
      subst h
      exact ⟨le_refl _, by omega, hv.1, hv.2, fun j h1 h2 => by omega⟩
    · rename_i hv
      obtain ⟨h1, h2, h3, h4, h5⟩ := ih (i + 1) h
      refine ⟨by omega, by omega, h3, h4, ?_⟩
      intro j hj1 hj2
      by_cases hij : j = i
      · subst hij; exact hv
      · exact h5 j (by omega) hj2

theorem trap_loop_none (c : cache_line_t) (tag : Int) (n i : Nat)
    (h : trap_loop c tag n i = none) :
    ∀ j, i ≤ j → j < i + n → ¬ (valid_at c j = 1 ∧ tag_at c j = tag) := by
  induction n generalizing i with
  | zero => intro j h1 h2; omega
  | succ n ih =>
    unfold trap_loop at h
    split at h
    · simp at h
    · rename_i hv
      intro j h1 h2
      by_cases hij : j = i
      · subst hij; exact hv
      · exact ih (i + 1) h j (by omega) (by omega)

/-! ## The two outcomes of a lookup -/

theorem trap_address_hit (s : State) (address k : Nat)
    (h : trap_loop (cache_set s (trap_index s address)) (trap_tag s address) s.cache_assoc 0
      = some k) :
    iplc_sim_trap_address s address
      = (1, { iplc_sim_LRU_update_on_hit { s with cache_hit := s.cache_hit + 1 }
                (trap_index s address) k with cache_access := s.cache_access + 1 }) := by
  unfold iplc_sim_trap_address
  simp only [h]
  rfl

theorem trap_address_miss (s : State) (address : Nat)
    (h : trap_loop (cache_set s (trap_index s address)) (trap_tag s address) s.cache_assoc 0
      = none) :
    iplc_sim_trap_address s address
      = (0, { iplc_sim_LRU_replace_on_miss { s with cache_miss := s.cache_miss + 1 }
                (trap_index s address) (trap_tag s address) with
              cache_access := s.cache_access + 1 }) := by
  unfold iplc_sim_trap_address
  simp only [h]
  rfl

/-- C1 (failing input): in the first configuration of the sweep, `index = 7`,
`blocksize = 1`, `assoc = 1` (2 block-offset bits), the lookup of address 4
computes the set index 0, where `(address >> block_offset_bits) & (2^index_bits - 1)`
is 1: the mask of the code is the single bit `1 << (cache_index - 1)`. -/
theorem trap_index_single_bit_mask :
    (iplc_sim_init initial_state zero_heap 7 1 1).map
        (fun s => (s.cache_index, s.cache_blockoffsetbits, trap_index s 4)) = some (7, 2, 0)
      ∧ spec_index 7 2 4 = 1 := by
  decide

/-- C2: `iplc_sim_trap_address` returns 1 exactly when some line of the decoded
set has valid bit 1 and holds the decoded tag, and 0 otherwise; `cache_access`
grows by 1; on a 1 only `cache_hit` grows by 1, on a 0 only `cache_miss` grows
by 1; so `cache_access = cache_hit + cache_miss` is preserved.  It holds for
every associativity. -/
theorem trap_address_result_and_counters (s : State) (address : Nat) :
    ((iplc_sim_trap_address s address).1 = 1 ↔
        ∃ i, i < s.cache_assoc
          ∧ valid_at (cache_set s (trap_index s address)) i = 1
          ∧ tag_at (cache_set s (trap_index s address)) i = trap_tag s address)
    ∧ ((iplc_sim_trap_address s address).1 = 0 ↔
        ¬ ∃ i, i < s.cache_assoc
          ∧ valid_at (cache_set s (trap_index s address)) i = 1
          ∧ tag_at (cache_set s (trap_index s address)) i = trap_tag s address)
    ∧ (iplc_sim_trap_address s address).2.cache_access = s.cache_access + 1
    ∧ ((iplc_sim_trap_address s address).1 = 1 →
        (iplc_sim_trap_address s address).2.cache_hit = s.cache_hit + 1
          ∧ (iplc_sim_trap_address s address).2.cache_miss = s.cache_miss)
    ∧ ((iplc_sim_trap_address s address).1 = 0 →
        (iplc_sim_trap_address s address).2.cache_miss = s.cache_miss + 1
          ∧ (iplc_sim_trap_address s address).2.cache_hit = s.cache_hit)
    ∧ (s.cache_access = s.cache_hit + s.cache_miss →
        (iplc_sim_trap_address s address).2.cache_access
          = (iplc_sim_trap_address s address).2.cache_hit
            + (iplc_sim_trap_address s address).2.cache_miss) := by
  cases h : trap_loop (cache_set s (trap_index s address)) (trap_tag s address) s.cache_assoc 0 with
  | none =>
    have hn := trap_loop_none _ _ _ _ h
    have hno : ¬ ∃ i, i < s.cache_assoc
          ∧ valid_at (cache_set s (trap_index s address)) i = 1
          ∧ tag_at (cache_set s (trap_index s address)) i = trap_tag s address := by
      rintro ⟨i, hi, hv, ht⟩
      exact hn i (Nat.zero_le _) (by omega) ⟨hv, ht⟩
    rw [trap_address_miss s address h]
    refine ⟨?_, ?_, rfl, ?_, ?_, ?_⟩
    · constructor
      · intro h1; exact absurd h1 (show ¬ ((0 : Int) = 1) by decide)
      · intro h1; exact absurd h1 hno
    · constructor
      · intro _; exact hno
      · intro _; rfl
    · intro h1; exact absurd h1 (show ¬ ((0 : Int) = 1) by decide)
    · intro _; exact ⟨rfl, rfl⟩
    · intro h1; show s.cache_access + 1 = s.cache_hit + (s.cache_miss + 1); omega
  | some k =>
    obtain ⟨_, h2, h3, h4, _⟩ := trap_loop_some _ _ _ _ _ h
    have hyes : ∃ i, i < s.cache_assoc
          ∧ valid_at (cache_set s (trap_index s address)) i = 1
          ∧ tag_at (cache_set s (trap_index s address)) i = trap_tag s address :=
      ⟨k, by omega, h3, h4⟩
    rw [trap_address_hit s address k h]
    refine ⟨?_, ?_, rfl, ?_, ?_, ?_⟩
    · constructor
      · intro _; exact hyes
      · intro _; rfl
    · constructor
      · intro h1; exact absurd h1 (show ¬ ((1 : Int) = 0) by decide)
      · intro h1; exact absurd hyes h1
    · intro _; exact ⟨rfl, rfl⟩
    · intro h1; exact absurd h1 (show ¬ ((1 : Int) = 0) by decide)
    · intro h1; show s.cache_access + 1 = s.cache_hit + 1 + s.cache_miss; omega

/-- C7 (failing input): in the first configuration of the sweep, `index = 7`,
`blocksize = 1`, `assoc = 1`, the decoder outputs for address 4 are index 0 and
tag 0, and their recombination with the block-offset bits is 0, not 4: address
bit 2 is lost. -/
theorem recombine_loses_bit :
    (iplc_sim_init initial_state zero_heap 7 1 1).map
        (fun s => (trap_index s 4, trap_tag s 4, recombine s 4)) = some (0, 0, 0) := by
  decide

/-! ## The set after the two LRU functions -/

theorem cache_set_update_on_hit (s : State) (index a k : Nat) :
    cache_set (iplc_sim_LRU_update_on_hit s index a) k
      = if index = k ∧ index < s.cache.length then
          update_loop s.cache_assoc 0
            { (cache_set s index) with age := (cache_set s index).age.set a 0 }
        else cache_set s k := by
  unfold iplc_sim_LRU_update_on_hit
  exact getD_set_eq s.cache index k _ empty_set

theorem cache_set_write_then_update (s : State) (index t k : Nat) (c2 : cache_line_t) :
    cache_set (iplc_sim_LRU_update_on_hit { s with cache := s.cache.set index c2 } index t) k
      = if index = k ∧ index < s.cache.length then
          update_loop s.cache_assoc 0 { c2 with age := c2.age.set t 0 }
        else cache_set s k := by
  rw [cache_set_update_on_hit]
  have hlen : (s.cache.set index c2).length = s.cache.length := List.length_set _ _ _
  by_cases h : index = k ∧ index < s.cache.length
  · have h2 : index = k ∧ index < (s.cache.set index c2).length := by rw [hlen]; exact h
    have h3 : (s.cache.set index c2).getD index empty_set = c2 := by
      rw [getD_set_eq, if_pos ⟨rfl, h.2⟩]
    rw [if_pos h, if_pos h2]
    show update_loop s.cache_assoc 0
        { ((s.cache.set index c2).getD index empty_set) with
          age := ((s.cache.set index c2).getD index empty_set).age.set t 0 } = _
    rw [h3]
  · have h2 : ¬ (index = k ∧ index < (s.cache.set index c2).length) := by rw [hlen]; exact h
    rw [if_neg h, if_neg h2]
    show (s.cache.set index c2).getD k empty_set = _
    rw [getD_set_eq, if_neg h]
    rfl

theorem cache_set_replace_on_miss (s : State) (index k : Nat) (tag : Int) :
    cache_set (iplc_sim_LRU_replace_on_miss s index tag) k
      = if index = k ∧ index < s.cache.length then
          update_loop s.cache_assoc 0
            { valid_bit := (cache_set s index).valid_bit.set (target_of s index) 1,
              tag := (cache_set s index).tag.set (target_of s index) tag,
              age := (cache_set s index).age.set (target_of s index) 0 }
        else cache_set s k :=
  cache_set_write_then_update s index (target_of s index) k _

/-! ## The search loop of the replacement -/

theorem replace_loop_first_invalid (c : cache_line_t) (n i k : Nat) (oldest_age : Int)
    (target_line : Nat) (h1 : i ≤ k) (h2 : k < i + n) (hk : valid_at c k = 0)
    (hfirst : ∀ j, i ≤ j → j < k → valid_at c j ≠ 0) :
    replace_loop c n i oldest_age target_line = k := by
  induction n generalizing i oldest_age target_line with
  | zero => omega
  | succ n ih =>
    unfold replace_loop
    by_cases hik : i = k
    · subst hik
      rw [if_pos hk]
    · have hvi : valid_at c i ≠ 0 := hfirst i (le_refl _) (by omega)
      rw [if_neg hvi]
      have hf : ∀ j, i + 1 ≤ j → j < k → valid_at c j ≠ 0 :=
        fun j hj1 hj2 => hfirst j (by omega) hj2
      split
      · exact ih (i + 1) _ _ (by omega) (by omega) hf
      · exact ih (i + 1) _ _ (by omega) (by omega) hf

theorem replace_loop_oldest (c : cache_line_t) (n i : Nat) (oldest_age : Int)
    (target_line : Nat) (hpos : 0 < i + n)
    (hvalid : ∀ j, i ≤ j → j < i + n → valid_at c j ≠ 0)
    (hage : ∀ j, i ≤ j → j < i + n → 0 ≤ age_at c j)
    (hinv : if i = 0 then oldest_age = 0 ∧ target_line = 0
            else target_line < i ∧ age_at c target_line = oldest_age
              ∧ (∀ j, j < i → age_at c j ≤ oldest_age)
              ∧ ∀ j, j < target_line → age_at c j < oldest_age) :
    replace_loop c n i oldest_age target_line < i + n
      ∧ (∀ j, j < i + n → age_at c j ≤ age_at c (replace_loop c n i oldest_age target_line))
      ∧ ∀ j, j < replace_loop c n i oldest_age target_line →
          age_at c j < age_at c (replace_loop c n i oldest_age target_line) := by
  induction n generalizing i oldest_age target_line with
  | zero =>
    have hi : i ≠ 0 := by omega
    rw [if_neg hi] at hinv
    obtain ⟨h1, h2, h3, h4⟩ := hinv
    unfold replace_loop
    refine ⟨by omega, ?_, ?_⟩
    · intro j hj; rw [h2]; exact h3 j (by omega)
    · intro j hj; rw [h2]; exact h4 j hj
  | succ n ih =>
    unfold replace_loop
    have hvi : valid_at c i ≠ 0 := hvalid i (le_refl _) (by omega)
    have hai : 0 ≤ age_at c i := hage i (le_refl _) (by omega)
    rw [if_neg hvi]
    have hv2 : ∀ j, i + 1 ≤ j → j < i + 1 + n → valid_at c j ≠ 0 :=
      fun j hj1 hj2 => hvalid j (by omega) (by omega)
    have ha2 : ∀ j, i + 1 ≤ j → j < i + 1 + n → 0 ≤ age_at c j :=
      fun j hj1 hj2 => hage j (by omega) (by omega)
    have hrw : i + (n + 1) = i + 1 + n := by omega
    rw [hrw]
    split
    · rename_i hgt
      apply ih (i + 1) _ _ (by omega) hv2 ha2
      rw [if_neg (by omega)]
      by_cases hi : i = 0
      · subst hi
        refine ⟨by omega, rfl, ?_, ?_⟩
        · intro j hj
          have : j = 0 := by omega
          subst this; exact le_refl _
        · intro j hj; omega
      · rw [if_neg hi] at hinv
        obtain ⟨h1, h2, h3, h4⟩ := hinv
        refine ⟨by omega, rfl, ?_, ?_⟩
        · intro j hj
          by_cases hji : j = i
          · subst hji; exact le_refl _
          · have := h3 j (by omega); omega
        · intro j hj
          have := h3 j hj; omega
    · rename_i hle
      apply ih (i + 1) _ _ (by omega) hv2 ha2
      rw [if_neg (by omega)]
      by_cases hi : i = 0
      · subst hi
        rw [if_pos rfl] at hinv
        obtain ⟨h1, h2⟩ := hinv
        subst h1 h2
        have h0 : age_at c 0 = 0 := by omega
        refine ⟨by omega, h0, ?_, ?_⟩
        · intro j hj
          have : j = 0 := by omega
          subst this; omega
        · intro j hj; omega
      · rw [if_neg hi] at hinv
        obtain ⟨h1, h2, h3, h4⟩ := hinv
        refine ⟨by omega, h2, ?_, h4⟩
        intro j hj
        by_cases hji : j = i
        · subst hji; omega
        · exact h3 j (by omega)

theorem valid_at_update_loop (n i j : Nat) (c : cache_line_t) :
    valid_at (update_loop n i c) j = valid_at c j := by
  unfold valid_at; rw [update_loop_valid]

theorem tag_at_update_loop (n i j : Nat) (c : cache_line_t) :
    tag_at (update_loop n i c) j = tag_at c j := by
  unfold tag_at; rw [update_loop_tag]

/-- The tags and valid bits of set `index` after `iplc_sim_LRU_replace_on_miss`:
line `target_of s index` holds the new tag and is valid, the other lines are as
before. -/
theorem replace_on_miss_lines (s : State) (index : Nat) (tag : Int)
    (hidx : index < s.cache.length) (hwf : set_wf s.cache_assoc (cache_set s index))
    (ht : target_of s index < s.cache_assoc) :
    tag_at (cache_set (iplc_sim_LRU_replace_on_miss s index tag) index) (target_of s index) = tag
      ∧ valid_at (cache_set (iplc_sim_LRU_replace_on_miss s index tag) index) (target_of s index) = 1
      ∧ ∀ j, j ≠ target_of s index →
          tag_at (cache_set (iplc_sim_LRU_replace_on_miss s index tag) index) j
              = tag_at (cache_set s index) j
            ∧ valid_at (cache_set (iplc_sim_LRU_replace_on_miss s index tag) index) j
              = valid_at (cache_set s index) j := by
  obtain ⟨hv, htg, _⟩ := hwf
  rw [cache_set_replace_on_miss, if_pos ⟨rfl, hidx⟩]
  simp only [valid_at_update_loop, tag_at_update_loop]
  simp only [valid_at, tag_at, getD_set_eq]
  refine ⟨?_, ?_, ?_⟩
  · rw [if_pos ⟨trivial, by omega⟩]
  · rw [if_pos ⟨trivial, by omega⟩]
  · intro j hj
    have h1 : ¬ (target_of s index = j ∧ target_of s index < (cache_set s index).tag.length) :=
      fun h => hj h.1.symm
    have h2 : ¬ (target_of s index = j
        ∧ target_of s index < (cache_set s index).valid_bit.length) :=
      fun h => hj h.1.symm
    rw [if_neg h1, if_neg h2]
    exact ⟨rfl, rfl⟩

/-- C3: on a miss in a set whose lines are all valid, with non-negative ages,
`iplc_sim_LRU_replace_on_miss` writes the new tag into a line whose age is the
maximum of the set, the lowest-indexed one among the lines of maximum age; every
other line keeps its tag and stays valid. -/
theorem replace_on_miss_evicts_first_oldest (s : State) (index : Nat) (tag : Int)
    (hidx : index < s.cache.length) (hwf : set_wf s.cache_assoc (cache_set s index))
    (hassoc : 1 ≤ s.cache_assoc)
    (hvalid : ∀ i, i < s.cache_assoc → valid_at (cache_set s index) i = 1)
    (hage : ∀ i, i < s.cache_assoc → 0 ≤ age_at (cache_set s index) i) :
    target_of s index < s.cache_assoc
      ∧ (∀ j, j < s.cache_assoc →
          age_at (cache_set s index) j ≤ age_at (cache_set s index) (target_of s index))
      ∧ (∀ j, j < target_of s index →
          age_at (cache_set s index) j < age_at (cache_set s index) (target_of s index))
      ∧ tag_at (cache_set (iplc_sim_LRU_replace_on_miss s index tag) index) (target_of s index)
          = tag
      ∧ valid_at (cache_set (iplc_sim_LRU_replace_on_miss s index tag) index) (target_of s index)
          = 1
      ∧ ∀ j, j < s.cache_assoc → j ≠ target_of s index →
          tag_at (cache_set (iplc_sim_LRU_replace_on_miss s index tag) index) j
              = tag_at (cache_set s index) j
            ∧ valid_at (cache_set (iplc_sim_LRU_replace_on_miss s index tag) index) j = 1 := by
  have hloop := replace_loop_oldest (cache_set s index) s.cache_assoc 0 0 0 (by omega)
    (fun j _ hj => by rw [hvalid j (by omega)]; decide)
    (fun j _ hj => hage j (by omega))
    (by rw [if_pos rfl]; exact ⟨rfl, rfl⟩)
  simp only [Nat.zero_add] at hloop
  obtain ⟨h1, h2, h3⟩ := hloop
  have ht : target_of s index < s.cache_assoc := h1
  obtain ⟨h4, h5, h6⟩ := replace_on_miss_lines s index tag hidx hwf ht
  refine ⟨ht, h2, h3, h4, h5, ?_⟩
  intro j hj hne
  obtain ⟨h7, h8⟩ := h6 j hne
  exact ⟨h7, by rw [h8]; exact hvalid j hj⟩

/-- C5: on a miss in a set that has an invalid line, `iplc_sim_LRU_replace_on_miss`
stores the new tag in the lowest-indexed invalid line and makes it valid; the tag
and the valid bit of every other line are unchanged, so no valid line is evicted. -/
theorem replace_on_miss_fills_first_invalid (s : State) (index : Nat) (tag : Int)
    (hidx : index < s.cache.length) (hwf : set_wf s.cache_assoc (cache_set s index))
    (hinv : ∃ i, i < s.cache_assoc ∧ valid_at (cache_set s index) i = 0) :
    target_of s index < s.cache_assoc
      ∧ valid_at (cache_set s index) (target_of s index) = 0
      ∧ (∀ j, j < target_of s index → valid_at (cache_set s index) j ≠ 0)
      ∧ tag_at (cache_set (iplc_sim_LRU_replace_on_miss s index tag) index) (target_of s index)
          = tag
      ∧ valid_at (cache_set (iplc_sim_LRU_replace_on_miss s index tag) index) (target_of s index)
          = 1
      ∧ ∀ j, j ≠ target_of s index →
          tag_at (cache_set (iplc_sim_LRU_replace_on_miss s index tag) index) j
              = tag_at (cache_set s index) j
            ∧ valid_at (cache_set (iplc_sim_LRU_replace_on_miss s index tag) index) j
              = valid_at (cache_set s index) j := by
  classical
  have hex : ∃ i, i < s.cache_assoc ∧ valid_at (cache_set s index) i = 0 := hinv
  have hk := Nat.find_spec hex
  have hmin : ∀ j, j < Nat.find hex → valid_at (cache_set s index) j ≠ 0 := by
    intro j hj h0
    exact Nat.find_min hex hj ⟨by omega, h0⟩
  have ht : target_of s index = Nat.find hex :=
    replace_loop_first_invalid (cache_set s index) s.cache_assoc 0 (Nat.find hex) 0 0
      (Nat.zero_le _) (by omega) hk.2 (fun j _ hj => hmin j hj)
  have ht2 : target_of s index < s.cache_assoc := by rw [ht]; exact hk.1
  obtain ⟨h4, h5, h6⟩ := replace_on_miss_lines s index tag hidx hwf ht2
  refine ⟨ht2, by rw [ht]; exact hk.2, by rw [ht]; exact hmin, h4, h5, h6⟩

theorem replace_loop_lt (c : cache_line_t) (n i : Nat) (oldest_age : Int) (target_line : Nat)
    (h : target_line < i + n) : replace_loop c n i oldest_age target_line < i + n := by
  induction n generalizing i oldest_age target_line with
  | zero => exact h
  | succ n ih =>
    unfold replace_loop
    split
    · omega
    · have hrw : i + (n + 1) = i + 1 + n := by omega
      rw [hrw]
      split
      · exact ih (i + 1) _ _ (by omega)
      · exact ih (i + 1) _ _ (by omega)

theorem target_of_lt (s : State) (index : Nat) (hassoc : 1 ≤ s.cache_assoc) :
    target_of s index < s.cache_assoc := by
  have h := replace_loop_lt (cache_set s index) s.cache_assoc 0 0 0 (by omega)
  simpa using h

/-- The ages, tags and valid bits of a set after the recency update that both
outcomes of a lookup run: `c1` is the set with the accessed line `a` made valid,
`c` the set before. -/
theorem recency_update_lines (assoc a : Nat) (c1 : cache_line_t)
    (hwf : set_wf assoc c1) (ha : a < assoc) (hva : valid_at c1 a = 1) :
    age_at (update_loop assoc 0 { c1 with age := c1.age.set a 0 }) a = 1
      ∧ ∀ j, j < assoc → j ≠ a →
          (valid_at c1 j = 1 →
            age_at (update_loop assoc 0 { c1 with age := c1.age.set a 0 }) j = age_at c1 j + 1)
          ∧ (valid_at c1 j ≠ 1 →
            age_at (update_loop assoc 0 { c1 with age := c1.age.set a 0 }) j = age_at c1 j) := by
  obtain ⟨_, _, hlen⟩ := hwf
  have hlen2 : ∀ j, j < assoc →
      j < ({ c1 with age := c1.age.set a 0 } : cache_line_t).age.length := by
    intro j hj
    show j < (c1.age.set a 0).length
    rw [List.length_set]; omega
  have hvalid : ∀ j, valid_at ({ c1 with age := c1.age.set a 0 } : cache_line_t) j
      = valid_at c1 j := fun _ => rfl
  have hage : ∀ j, age_at ({ c1 with age := c1.age.set a 0 } : cache_line_t) j
      = if a = j ∧ a < c1.age.length then 0 else age_at c1 j :=
    fun j => getD_set_eq c1.age a j 0 0
  refine ⟨?_, ?_⟩
  · rw [update_loop_age_at _ _ _ _ (hlen2 a ha), hvalid, hage,
      if_pos ⟨Nat.zero_le _, by omega, hva⟩, if_pos ⟨rfl, by omega⟩]
    rfl
  · intro j hj hne
    have hne2 : ¬ (a = j ∧ a < c1.age.length) := fun h => hne h.1.symm
    rw [update_loop_age_at _ _ _ _ (hlen2 j hj), hvalid, hage, if_neg hne2]
    constructor
    · intro hv
      rw [if_pos ⟨Nat.zero_le _, by omega, hv⟩]
    · intro hv
      rw [if_neg (fun h => hv h.2.2)]

theorem cache_set_trap_hit (s : State) (address a k : Nat)
    (h : trap_loop (cache_set s (trap_index s address)) (trap_tag s address) s.cache_assoc 0
      = some a) :
    cache_set (iplc_sim_trap_address s address).2 k
      = if trap_index s address = k ∧ trap_index s address < s.cache.length then
          update_loop s.cache_assoc 0
            { (cache_set s (trap_index s address)) with
              age := (cache_set s (trap_index s address)).age.set a 0 }
        else cache_set s k := by
  rw [trap_address_hit s address a h]
  exact cache_set_update_on_hit (State.mk s.inst_stats s.cache s.cache_index s.cache_blocksize
    s.cache_blockoffsetbits s.cache_assoc s.cache_miss s.cache_access (s.cache_hit + 1)
    s.instruction_address s.pipeline_cycles s.instruction_count s.branch_predict_taken
    s.branch_count s.correct_branch_predictions s.pipeline) (trap_index s address) a k

theorem cache_set_trap_miss (s : State) (address k : Nat)
    (h : trap_loop (cache_set s (trap_index s address)) (trap_tag s address) s.cache_assoc 0
      = none) :
    cache_set (iplc_sim_trap_address s address).2 k
      = if trap_index s address = k ∧ trap_index s address < s.cache.length then
          update_loop s.cache_assoc 0
            { valid_bit := (cache_set s (trap_index s address)).valid_bit.set
                (target_of s (trap_index s address)) 1,
              tag := (cache_set s (trap_index s address)).tag.set
                (target_of s (trap_index s address)) (trap_tag s address),
              age := (cache_set s (trap_index s address)).age.set
                (target_of s (trap_index s address)) 0 }
        else cache_set s k := by
  rw [trap_address_miss s address h]
  exact cache_set_replace_on_miss (State.mk s.inst_stats s.cache s.cache_index s.cache_blocksize
    s.cache_blockoffsetbits s.cache_assoc (s.cache_miss + 1) s.cache_access s.cache_hit
    s.instruction_address s.pipeline_cycles s.instruction_count s.branch_predict_taken
    s.branch_count s.correct_branch_predictions s.pipeline) (trap_index s address) k
    (trap_tag s address)

/-- The set with line `t` filled: valid bit 1 and the new tag. -/
theorem filled_lines (c : cache_line_t) (t : Nat) (tag : Int) (age : List Int) (j : Nat) :
    valid_at { valid_bit := c.valid_bit.set t 1, tag := c.tag.set t tag, age := age } j
        = (if t = j ∧ t < c.valid_bit.length then 1 else valid_at c j)
      ∧ tag_at { valid_bit := c.valid_bit.set t 1, tag := c.tag.set t tag, age := age } j
        = (if t = j ∧ t < c.tag.length then tag else tag_at c j) :=
  ⟨getD_set_eq c.valid_bit t j 1 0, getD_set_eq c.tag t j tag 0⟩

/-- C4 (counterexample): after a miss on address 0 in a fresh cache and a second
lookup of address 0, which hits line 0 of set 0, the age of that line is 1 and
not 0. -/
theorem hit_age_not_zero :
    (iplc_sim_init initial_state zero_heap 1 1 2).map
        (fun s =>
          ((iplc_sim_trap_address (run_trap s [0]) 0).1,
           accessed_line (run_trap s [0]) 0,
           age_at (cache_set (iplc_sim_trap_address (run_trap s [0]) 0).2 0) 0))
      = some (1, 0, 1) := by
  decide

/-- C4 (amended): after a lookup, hit or miss, the accessed line is valid and its
age is 1; every other line of that set keeps its tag and valid bit, its age is 1
more than before when it is valid and unchanged when it is not; all other sets
are unchanged.  When no valid line of the set had a negative age before, no
valid line of the set has a smaller age than the accessed line afterwards; when
every valid line of the set had an age of at least 1 before, the age of the
accessed line is strictly the smallest. -/
theorem trap_address_ages (s : State) (address : Nat)
    (hidx : trap_index s address < s.cache.length)
    (hwf : set_wf s.cache_assoc (cache_set s (trap_index s address)))
    (hassoc : 1 ≤ s.cache_assoc) :
    accessed_line s address < s.cache_assoc
      ∧ valid_at (cache_set (iplc_sim_trap_address s address).2 (trap_index s address))
          (accessed_line s address) = 1
      ∧ age_at (cache_set (iplc_sim_trap_address s address).2 (trap_index s address))
          (accessed_line s address) = 1
      ∧ (∀ j, j < s.cache_assoc → j ≠ accessed_line s address →
          valid_at (cache_set (iplc_sim_trap_address s address).2 (trap_index s address)) j
              = valid_at (cache_set s (trap_index s address)) j
            ∧ tag_at (cache_set (iplc_sim_trap_address s address).2 (trap_index s address)) j
              = tag_at (cache_set s (trap_index s address)) j
            ∧ (valid_at (cache_set s (trap_index s address)) j = 1 →
                age_at (cache_set (iplc_sim_trap_address s address).2 (trap_index s address)) j
                  = age_at (cache_set s (trap_index s address)) j + 1)
            ∧ (valid_at (cache_set s (trap_index s address)) j ≠ 1 →
                age_at (cache_set (iplc_sim_trap_address s address).2 (trap_index s address)) j
                  = age_at (cache_set s (trap_index s address)) j))
      ∧ (∀ k, k ≠ trap_index s address →
          cache_set (iplc_sim_trap_address s address).2 k = cache_set s k)
      ∧ ((∀ j, j < s.cache_assoc → valid_at (cache_set s (trap_index s address)) j = 1 →
            0 ≤ age_at (cache_set s (trap_index s address)) j) →
          ∀ j, j < s.cache_assoc →
            valid_at (cache_set (iplc_sim_trap_address s address).2 (trap_index s address)) j = 1 →
            age_at (cache_set (iplc_sim_trap_address s address).2 (trap_index s address))
                (accessed_line s address)
              ≤ age_at (cache_set (iplc_sim_trap_address s address).2 (trap_index s address)) j)
      ∧ ((∀ j, j < s.cache_assoc → valid_at (cache_set s (trap_index s address)) j = 1 →
            1 ≤ age_at (cache_set s (trap_index s address)) j) →
          ∀ j, j < s.cache_assoc → j ≠ accessed_line s address →
            valid_at (cache_set (iplc_sim_trap_address s address).2 (trap_index s address)) j = 1 →
            age_at (cache_set (iplc_sim_trap_address s address).2 (trap_index s address))
                (accessed_line s address)
              < age_at (cache_set (iplc_sim_trap_address s address).2 (trap_index s address)) j) := by
  have main :
      accessed_line s address < s.cache_assoc
        ∧ valid_at (cache_set (iplc_sim_trap_address s address).2 (trap_index s address))
            (accessed_line s address) = 1
        ∧ age_at (cache_set (iplc_sim_trap_address s address).2 (trap_index s address))
            (accessed_line s address) = 1
        ∧ (∀ j, j < s.cache_assoc → j ≠ accessed_line s address →
            valid_at (cache_set (iplc_sim_trap_address s address).2 (trap_index s address)) j
                = valid_at (cache_set s (trap_index s address)) j
              ∧ tag_at (cache_set (iplc_sim_trap_address s address).2 (trap_index s address)) j
                = tag_at (cache_set s (trap_index s address)) j
              ∧ (valid_at (cache_set s (trap_index s address)) j = 1 →
                  age_at (cache_set (iplc_sim_trap_address s address).2 (trap_index s address)) j
                    = age_at (cache_set s (trap_index s address)) j + 1)
              ∧ (valid_at (cache_set s (trap_index s address)) j ≠ 1 →
                  age_at (cache_set (iplc_sim_trap_address s address).2 (trap_index s address)) j
                    = age_at (cache_set s (trap_index s address)) j))
        ∧ ∀ k, k ≠ trap_index s address →
            cache_set (iplc_sim_trap_address s address).2 k = cache_set s k := by
    obtain ⟨hl1, hl2, hl3⟩ := hwf
    cases h : trap_loop (cache_set s (trap_index s address)) (trap_tag s address) s.cache_assoc 0 with
    | some a =>
      obtain ⟨_, ha, hva, _, _⟩ := trap_loop_some _ _ _ _ _ h
      have hacc : accessed_line s address = a := by
        unfold accessed_line; rw [h]
      have hmain := cache_set_trap_hit s address a (trap_index s address) h
      rw [if_pos ⟨rfl, hidx⟩] at hmain
      rw [hacc, hmain]
      have hrec := recency_update_lines s.cache_assoc a (cache_set s (trap_index s address))
        ⟨hl1, hl2, hl3⟩ (by omega) hva
      refine ⟨by omega, ?_, hrec.1, ?_, ?_⟩
      · rw [valid_at_update_loop]; exact hva
      · intro j hj hne
        refine ⟨?_, ?_, (hrec.2 j hj hne).1, (hrec.2 j hj hne).2⟩
        · rw [valid_at_update_loop]; rfl
        · rw [tag_at_update_loop]; rfl
      · intro k hk
        rw [cache_set_trap_hit s address a k h, if_neg (fun h => hk h.1.symm)]
    | none =>
      have hacc : accessed_line s address = target_of s (trap_index s address) := by
        unfold accessed_line; rw [h]
      have ht : target_of s (trap_index s address) < s.cache_assoc := target_of_lt s _ hassoc
      have hmain := cache_set_trap_miss s address (trap_index s address) h
      rw [if_pos ⟨rfl, hidx⟩] at hmain
      rw [hacc, hmain]
      have hfl := filled_lines (cache_set s (trap_index s address))
        (target_of s (trap_index s address)) (trap_tag s address)
        (cache_set s (trap_index s address)).age
      have hc1 : set_wf s.cache_assoc
          { valid_bit := (cache_set s (trap_index s address)).valid_bit.set
              (target_of s (trap_index s address)) 1,
            tag := (cache_set s (trap_index s address)).tag.set
              (target_of s (trap_index s address)) (trap_tag s address),
            age := (cache_set s (trap_index s address)).age } := by
        refine ⟨?_, ?_, hl3⟩
        · show (List.set _ _ _).length = _
          rw [List.length_set]; exact hl1
        · show (List.set _ _ _).length = _
          rw [List.length_set]; exact hl2
      have hvt := (hfl (target_of s (trap_index s address))).1
      rw [if_pos ⟨rfl, by omega⟩] at hvt
      have hrec := recency_update_lines s.cache_assoc (target_of s (trap_index s address)) _
        hc1 ht hvt
      refine ⟨ht, ?_, hrec.1, ?_, ?_⟩
      · rw [valid_at_update_loop]; exact hvt
      · intro j hj hne
        have hvj := (hfl j).1
        rw [if_neg (fun h => hne h.1.symm)] at hvj
        have htj := (hfl j).2
        rw [if_neg (fun h => hne h.1.symm)] at htj
        refine ⟨?_, ?_, ?_, ?_⟩
        · rw [valid_at_update_loop]; exact hvj
        · rw [tag_at_update_loop]; exact htj
        · intro hv
          exact (hrec.2 j hj hne).1 (by rw [hvj]; exact hv)
        · intro hv
          exact (hrec.2 j hj hne).2 (by rw [hvj]; exact hv)
      · intro k hk
        rw [cache_set_trap_miss s address k h, if_neg (fun h => hk h.1.symm)]
  obtain ⟨m1, m2, m3, m4, m5⟩ := main
  refine ⟨m1, m2, m3, m4, m5, ?_, ?_⟩
  · intro hage j hj hvj
    by_cases e : j = accessed_line s address
    · rw [e]
    · obtain ⟨hv, _, hinc, _⟩ := m4 j hj e
      rw [hv] at hvj
      rw [m3, hinc hvj]
      have := hage j hj hvj
      omega
  · intro hage j hj e hvj
    obtain ⟨hv, _, hinc, _⟩ := m4 j hj e
    rw [hv] at hvj
    rw [m3, hinc hvj]
    have := hage j hj hvj
    omega

/-! ## The cache invariant -/

theorem trap_address_assoc (s : State) (address : Nat) :
    (iplc_sim_trap_address s address).2.cache_assoc = s.cache_assoc := by
  cases h : trap_loop (cache_set s (trap_index s address)) (trap_tag s address) s.cache_assoc 0 with
  | some a => rw [trap_address_hit s address a h]; rfl
  | none => rw [trap_address_miss s address h]; rfl

theorem trap_address_length (s : State) (address : Nat) :
    (iplc_sim_trap_address s address).2.cache.length = s.cache.length := by
  cases h : trap_loop (cache_set s (trap_index s address)) (trap_tag s address) s.cache_assoc 0 with
  | some a =>
    rw [trap_address_hit s address a h]
    show (List.set _ _ _).length = _
    rw [List.length_set]
  | none =>
    rw [trap_address_miss s address h]
    show (List.set _ _ _).length = _
    rw [List.length_set]
    show (List.set _ _ _).length = _
    rw [List.length_set]

theorem set_wf_update_loop (assoc n i : Nat) (c : cache_line_t) (h : set_wf assoc c) :
    set_wf assoc (update_loop n i c) := by
  obtain ⟨h1, h2, h3⟩ := h
  refine ⟨?_, ?_, ?_⟩
  · rw [update_loop_valid]; exact h1
  · rw [update_loop_tag]; exact h2
  · rw [update_loop_age_length]; exact h3

/-- One lookup keeps the invariant of a set: its three arrays have `cache_assoc`
entries and no two lines with valid bit 1 hold the same tag. -/
theorem trap_address_keeps_invariant (s : State) (address k : Nat)
    (hwf : set_wf s.cache_assoc (cache_set s k))
    (hdup : ∀ i j, i < s.cache_assoc → j < s.cache_assoc →
      valid_at (cache_set s k) i = 1 → valid_at (cache_set s k) j = 1 →
      tag_at (cache_set s k) i = tag_at (cache_set s k) j → i = j) :
    set_wf s.cache_assoc (cache_set (iplc_sim_trap_address s address).2 k)
      ∧ ∀ i j, i < s.cache_assoc → j < s.cache_assoc →
          valid_at (cache_set (iplc_sim_trap_address s address).2 k) i = 1 →
          valid_at (cache_set (iplc_sim_trap_address s address).2 k) j = 1 →
          tag_at (cache_set (iplc_sim_trap_address s address).2 k) i
            = tag_at (cache_set (iplc_sim_trap_address s address).2 k) j → i = j := by
  cases h : trap_loop (cache_set s (trap_index s address)) (trap_tag s address) s.cache_assoc 0 with
  | some a =>
    rw [cache_set_trap_hit s address a k h]
    split
    · rename_i hk
      obtain ⟨hk1, _⟩ := hk
      subst hk1
      refine ⟨set_wf_update_loop _ _ _ _ ⟨hwf.1, hwf.2.1, ?_⟩, ?_⟩
      · show (List.set _ _ _).length = _
        rw [List.length_set]; exact hwf.2.2
      · intro i j hi hj
        simp only [valid_at_update_loop, tag_at_update_loop]
        exact hdup i j hi hj
    · exact ⟨hwf, hdup⟩
  | none =>
    have hn := trap_loop_none _ _ _ _ h
    rw [cache_set_trap_miss s address k h]
    split
    · rename_i hk
      obtain ⟨hk1, _⟩ := hk
      subst hk1
      have hfl := filled_lines (cache_set s (trap_index s address))
        (target_of s (trap_index s address)) (trap_tag s address)
        ((cache_set s (trap_index s address)).age.set (target_of s (trap_index s address)) 0)
      refine ⟨set_wf_update_loop _ _ _ _ ⟨?_, ?_, ?_⟩, ?_⟩
      · show (List.set _ _ _).length = _
        rw [List.length_set]; exact hwf.1
      · show (List.set _ _ _).length = _
        rw [List.length_set]; exact hwf.2.1
      · show (List.set _ _ _).length = _
        rw [List.length_set]; exact hwf.2.2
      · intro i j hi hj
        simp only [valid_at_update_loop, tag_at_update_loop]
        rw [(hfl i).1, (hfl i).2, (hfl j).1, (hfl j).2]
        intro hvi hvj htag
        have hl1 := hwf.1
        have hl2 := hwf.2.1
        by_cases hti : target_of s (trap_index s address) = i
        · by_cases htj : target_of s (trap_index s address) = j
          · omega
          · exfalso
            rw [if_neg (fun h => htj h.1)] at hvj
            rw [if_pos ⟨hti, by omega⟩, if_neg (fun h => htj h.1)] at htag
            exact hn j (Nat.zero_le _) (by omega) ⟨hvj, htag.symm⟩
        · by_cases htj : target_of s (trap_index s address) = j
          · exfalso
            rw [if_neg (fun h => hti h.1)] at hvi
            rw [if_neg (fun h => hti h.1), if_pos ⟨htj, by omega⟩] at htag
            exact hn i (Nat.zero_le _) (by omega) ⟨hvi, htag⟩
          · rw [if_neg (fun h => hti h.1)] at hvi
            rw [if_neg (fun h => htj h.1)] at hvj
            rw [if_neg (fun h => hti h.1), if_neg (fun h => htj h.1)] at htag
            exact hdup i j hi hj hvi hvj htag
    · exact ⟨hwf, hdup⟩

theorem run_trap_assoc (s : State) (addrs : List Nat) :
    (run_trap s addrs).cache_assoc = s.cache_assoc := by
  induction addrs generalizing s with
  | nil => rfl
  | cons a rest ih =>
    show (run_trap (iplc_sim_trap_address s a).2 rest).cache_assoc = _
    rw [ih, trap_address_assoc]

theorem run_trap_length (s : State) (addrs : List Nat) :
    (run_trap s addrs).cache.length = s.cache.length := by
  induction addrs generalizing s with
  | nil => rfl
  | cons a rest ih =>
    show (run_trap (iplc_sim_trap_address s a).2 rest).cache.length = _
    rw [ih, trap_address_length]

theorem run_trap_keeps_invariant (s : State) (addrs : List Nat) (k : Nat)
    (hwf : set_wf s.cache_assoc (cache_set s k))
    (hdup : ∀ i j, i < s.cache_assoc → j < s.cache_assoc →
      valid_at (cache_set s k) i = 1 → valid_at (cache_set s k) j = 1 →
      tag_at (cache_set s k) i = tag_at (cache_set s k) j → i = j) :
    set_wf s.cache_assoc (cache_set (run_trap s addrs) k)
      ∧ ∀ i j, i < s.cache_assoc → j < s.cache_assoc →
          valid_at (cache_set (run_trap s addrs) k) i = 1 →
          valid_at (cache_set (run_trap s addrs) k) j = 1 →
          tag_at (cache_set (run_trap s addrs) k) i
            = tag_at (cache_set (run_trap s addrs) k) j → i = j := by
  induction addrs generalizing s with
  | nil => exact ⟨hwf, hdup⟩
  | cons a rest ih =>
    have hstep := trap_address_keeps_invariant s a k hwf hdup
    have hassoc := trap_address_assoc s a
    show set_wf s.cache_assoc (cache_set (run_trap (iplc_sim_trap_address s a).2 rest) k) ∧ _
    rw [← hassoc]
    rw [← hassoc] at hstep
    exact ih (iplc_sim_trap_address s a).2 hstep.1 hstep.2

/-- The cache that `iplc_sim_init` builds: `2^index` sets of `assoc` lines, every
valid bit 0 and every age 0. -/
theorem init_cache (s0 s : State) (heap : Nat → Nat → Int) (index blocksize assoc : Int)
    (h : iplc_sim_init s0 heap index blocksize assoc = some s) :
    s.cache_assoc = assoc.toNat ∧ s.cache_index = index.toNat
      ∧ s.cache_blockoffsetbits = (init_blockoffsetbits blocksize).toNat
      ∧ s.cache.length = 2 ^ index.toNat
      ∧ ∀ k, k < s.cache.length →
          cache_set s k = fresh_set (heap k) assoc.toNat := by
  unfold iplc_sim_init at h
  split at h
  · exact absurd h (by simp)
  · injection h with h
    subst h
    refine ⟨rfl, rfl, rfl, ?_, ?_⟩
    · simp [Nat.shiftLeft_eq]
    · intro k hk
      simp only [List.length_map, List.length_range] at hk
      simp only [cache_set, List.getD_eq_getElem?_getD]
      rw [List.getElem?_map, List.getElem?_range hk]
      rfl

theorem fresh_set_valid (heap : Nat → Int) (assoc i : Nat) :
    valid_at (fresh_set heap assoc) i = 0 := by
  simp only [valid_at, fresh_set, List.getD_eq_getElem?_getD, List.getElem?_replicate]
  split <;> rfl

theorem fresh_set_wf (heap : Nat → Int) (assoc : Nat) : set_wf assoc (fresh_set heap assoc) := by
  simp [set_wf, fresh_set]

/-- C6: from the cache that `iplc_sim_init` builds, after the lookups of any
finite list of addresses every set has at most `associativity` lines with valid
bit 1, and no two valid lines of one set hold the same tag. -/
theorem cache_invariant (s0 s : State) (heap : Nat → Nat → Int) (index blocksize assoc : Int)
    (hinit : iplc_sim_init s0 heap index blocksize assoc = some s) (addrs : List Nat) :
    (run_trap s addrs).cache.length = 2 ^ index.toNat
      ∧ ∀ k, k < (run_trap s addrs).cache.length →
          (cache_set (run_trap s addrs) k).valid_bit.count 1 ≤ assoc.toNat
          ∧ ∀ i j, i < assoc.toNat → j < assoc.toNat →
              valid_at (cache_set (run_trap s addrs) k) i = 1 →
              valid_at (cache_set (run_trap s addrs) k) j = 1 →
              tag_at (cache_set (run_trap s addrs) k) i
                = tag_at (cache_set (run_trap s addrs) k) j → i = j := by
  obtain ⟨h1, _, _, h4, h5⟩ := init_cache s0 s heap index blocksize assoc hinit
  refine ⟨by rw [run_trap_length, h4], ?_⟩
  intro k hk
  rw [run_trap_length] at hk
  have hwf : set_wf s.cache_assoc (cache_set s k) := by
    rw [h5 k hk, h1]; exact fresh_set_wf _ _
  have hdup : ∀ i j, i < s.cache_assoc → j < s.cache_assoc →
      valid_at (cache_set s k) i = 1 → valid_at (cache_set s k) j = 1 →
      tag_at (cache_set s k) i = tag_at (cache_set s k) j → i = j := by
    intro i j _ _ hvi
    rw [h5 k hk, fresh_set_valid] at hvi
    exact absurd hvi (by decide)
  obtain ⟨hw, hd⟩ := run_trap_keeps_invariant s addrs k hwf hdup
  rw [h1] at hw hd
  refine ⟨?_, hd⟩
  have := List.count_le_length 1 (cache_set (run_trap s addrs) k).valid_bit
  rw [hw.1] at this
  exact this

/-- The set index that a lookup computes is an index of the cache array when the
array has `2^cache_index` sets and `cache_index` is at least 1. -/
theorem trap_index_in_range (s : State) (address : Nat)
    (hlen : s.cache.length = 2 ^ s.cache_index) (hidx : 1 ≤ s.cache_index) :
    trap_index s address < s.cache.length := by
  unfold trap_index
  have h1 : (1 <<< (s.cache_index - 1)) &&& (address >>> s.cache_blockoffsetbits)
      ≤ 1 <<< (s.cache_index - 1) := Nat.and_le_left
  have h2 : (1 <<< (s.cache_index - 1) : Nat) = 2 ^ (s.cache_index - 1) := by
    rw [Nat.shiftLeft_eq, Nat.one_mul]
  have h3 : 2 ^ (s.cache_index - 1) < 2 ^ s.cache_index :=
    Nat.pow_lt_pow_right (by norm_num) (by omega)
  rw [hlen]
  omega

/-! ## Initialisation -/

theorem toInt32_of_range (x : Int) (h1 : -2147483648 ≤ x) (h2 : x < 2147483648) :
    toInt32 x = x := by
  unfold toInt32
  simp only []
  split
  · omega
  · omega

theorem toUInt64_of_range (x : Int) (h1 : 0 ≤ x) (h2 : x < 2147483648) :
    toUInt64 x = x.toNat := by
  unfold toUInt64
  congr 1
  omega

theorem init_blockoffsetbits_eq (blocksize : Int) (hb : 0 ≤ blocksize)
    (hb32 : 32 * blocksize + 33 < 2 ^ 31) : init_blockoffsetbits blocksize = 2 * blocksize := by
  unfold init_blockoffsetbits
  rw [toInt32_of_range _ (by omega) (by omega)]
  rw [Int.tdiv_eq_ediv (by omega) (by norm_num)]
  omega

theorem ceil_half_four (blocksize : Int) :
    ⌈(((blocksize * 4 : Int) : ℚ)) / 2⌉ = 2 * blocksize := by
  have h : (((blocksize * 4 : Int) : ℚ)) / 2 = (((2 * blocksize : Int)) : ℚ) := by
    push_cast; ring
  rw [h, Int.ceil_intCast]

theorem init_line_size_eq (index blocksize : Int) (hi : 0 ≤ index) (hi30 : index ≤ 30)
    (hb : 0 ≤ blocksize) (hb32 : 32 * blocksize + 33 < 2 ^ 31) :
    init_line_size index blocksize = 32 * blocksize + 33 - index - 2 * blocksize := by
  unfold init_line_size
  rw [init_blockoffsetbits_eq blocksize hb hb32]
  rw [toInt32_of_range (32 * blocksize) (by omega) (by omega)]
  rw [toInt32_of_range (32 * blocksize + 33) (by omega) (by omega)]
  rw [toInt32_of_range (32 * blocksize + 33 - index) (by omega) (by omega)]
  rw [toInt32_of_range _ (by omega) (by omega)]

theorem init_cache_size_eq (index blocksize assoc : Int)
    (hi : 0 ≤ index) (hb : 0 ≤ blocksize) (ha : 0 ≤ assoc)
    (hi30 : index ≤ 30) (hb32 : 32 * blocksize + 33 < 2 ^ 31)
    (hsize : assoc * 2 ^ index.toNat * (32 * blocksize + 33 - index - 2 * blocksize) < 2 ^ 31) :
    ((init_cache_size index blocksize assoc : Nat) : Int)
      = assoc * 2 ^ index.toNat * (32 * blocksize + 33 - index - 2 * blocksize) := by
  unfold init_cache_size
  rw [init_line_size_eq index blocksize hi hi30 hb hb32]
  have hP1 : (1 : Int) ≤ 2 ^ index.toNat := one_le_pow₀ (by norm_num)
  have hP2 : (2 : Int) ^ index.toNat ≤ 2 ^ 30 :=
    pow_le_pow_right₀ (by norm_num) (by omega)
  have hshift : (((1 <<< index.toNat : Nat)) : Int) = 2 ^ index.toNat := by
    rw [Nat.shiftLeft_eq]; push_cast; ring
  rw [hshift]
  generalize (2 : Int) ^ index.toNat = P at *
  have hL : 3 ≤ 32 * blocksize + 33 - index - 2 * blocksize := by omega
  generalize 32 * blocksize + 33 - index - 2 * blocksize = L at *
  have haP : 0 ≤ assoc * P := mul_nonneg ha (by omega)
  have haPL : assoc * P ≤ assoc * P * L := le_mul_of_one_le_right haP (by omega)
  rw [toInt32_of_range P (by omega) (by norm_num at hP2; omega)]
  rw [toInt32_of_range (assoc * P) (by omega) (by norm_num at hsize; omega)]
  have hnn : 0 ≤ assoc * P * L := mul_nonneg haP (by omega)
  rw [toInt32_of_range (assoc * P * L) (by omega) (by norm_num at hsize; omega)]
  rw [toUInt64_of_range _ hnn (by norm_num at hsize; omega)]
  exact Int.toNat_of_nonneg hnn

theorem sweep_inputs_sizes :
    ∀ c ∈ sweep_inputs, init_cache_size c.1 c.2.1 c.2.2 ≤ MAX_CACHE_SIZE := by
  decide

/-- C8: for non-negative `index`, `blocksize` and `assoc` whose size computation
does not overflow an `int`, `iplc_sim_init` exits exactly when
`assoc * 2^index * line_size > 10240`, with
`line_size = 32*blocksize + 33 - index - ceil(blocksize*4/2)`; otherwise it
returns a state whose cache has `2^index` sets of `assoc` invalid lines of age 0
and whose five pipeline slots are zero.  Each of the 18 configurations of the
sweep is accepted. -/
theorem init_exits_iff_too_big (s0 : State) (heap : Nat → Nat → Int) :
    (∀ index blocksize assoc : Int, 0 ≤ index → 0 ≤ blocksize → 0 ≤ assoc →
      index ≤ 30 → 32 * blocksize + 33 < 2 ^ 31 →
      assoc * 2 ^ index.toNat
          * (32 * blocksize + 33 - index - ⌈(((blocksize * 4 : Int) : ℚ)) / 2⌉) < 2 ^ 31 →
      (iplc_sim_init s0 heap index blocksize assoc = none ↔
          assoc * 2 ^ index.toNat
            * (32 * blocksize + 33 - index - ⌈(((blocksize * 4 : Int) : ℚ)) / 2⌉) > 10240)
        ∧ (¬ (assoc * 2 ^ index.toNat
            * (32 * blocksize + 33 - index - ⌈(((blocksize * 4 : Int) : ℚ)) / 2⌉) > 10240) →
          ∃ s, iplc_sim_init s0 heap index blocksize assoc = some s
            ∧ s.cache_index = index.toNat ∧ s.cache_assoc = assoc.toNat
            ∧ ((s.cache_blockoffsetbits : Nat) : Int) = ⌈(((blocksize * 4 : Int) : ℚ)) / 2⌉
            ∧ s.cache.length = 2 ^ index.toNat
            ∧ (∀ k, k < s.cache.length → cache_set s k = fresh_set (heap k) assoc.toNat)
            ∧ s.pipeline = { FETCH := zero_slot, DECODE := zero_slot, ALU := zero_slot,
                             MEM := zero_slot, WRITEBACK := zero_slot }))
    ∧ ∀ c ∈ sweep_inputs, ∃ s, iplc_sim_init s0 heap c.1 c.2.1 c.2.2 = some s := by
  constructor
  · intro index blocksize assoc hi hb ha hi30 hb32 hsize
    rw [ceil_half_four] at hsize ⊢
    have hsz := init_cache_size_eq index blocksize assoc hi hb ha hi30 hb32 hsize
    have hiff : init_cache_size index blocksize assoc > MAX_CACHE_SIZE ↔
        assoc * 2 ^ index.toNat * (32 * blocksize + 33 - index - 2 * blocksize) > 10240 := by
      rw [← hsz]
      unfold MAX_CACHE_SIZE
      constructor
      · intro h; exact_mod_cast h
      · intro h; exact_mod_cast h
    constructor
    · unfold iplc_sim_init
      constructor
      · intro h
        by_contra hc
        rw [if_neg (fun h2 => hc (hiff.mp h2))] at h
        exact absurd h (by simp)
      · intro h
        rw [if_pos (hiff.mpr h)]
    · intro hle
      have hno : ¬ init_cache_size index blocksize assoc > MAX_CACHE_SIZE :=
        fun h => hle (hiff.mp h)
      have hsome : ∃ s, iplc_sim_init s0 heap index blocksize assoc = some s := by
        unfold iplc_sim_init
        rw [if_neg hno]
        exact ⟨_, rfl⟩
      obtain ⟨s, hs⟩ := hsome
      obtain ⟨h1, h2, h3, h4, h5⟩ := init_cache s0 s heap index blocksize assoc hs
      refine ⟨s, hs, h2, h1, ?_, h4, h5, ?_⟩
      · rw [h3, init_blockoffsetbits_eq blocksize hb hb32]
        exact Int.toNat_of_nonneg (by omega)
      · unfold iplc_sim_init at hs
        rw [if_neg hno] at hs
        injection hs with hs
        subst hs
        rfl
  · intro c hc
    have hle := sweep_inputs_sizes c hc
    unfold iplc_sim_init
    rw [if_neg (by omega)]
    exact ⟨_, rfl⟩

/-! ## The hazard detector -/

theorem push_retire_pipeline (s : State) :
    (push_retire s).pipeline = s.pipeline
      ∧ (push_retire s).branch_predict_taken = s.branch_predict_taken := by
  unfold push_retire
  split <;> exact ⟨rfl, rfl⟩

theorem push_branch_pipeline (s : State) :
    (push_branch s).1.pipeline = s.pipeline := by
  unfold push_branch
  split_ifs <;> rfl

theorem push_branch_stall (s : State) :
    (push_branch s).2
      = if s.pipeline.DECODE.itype = instruction_type.BRANCH
            ∧ ¬ (s.pipeline.FETCH.instruction_address
                    ≠ (s.pipeline.DECODE.instruction_address + 4) % U32
                  ↔ s.branch_predict_taken ≠ 0)
        then 1 else 0 := by
  unfold push_branch branch_taken
  by_cases hb : s.pipeline.DECODE.itype = instruction_type.BRANCH
  · by_cases hp : s.branch_predict_taken = 0
    · by_cases ht : s.pipeline.FETCH.instruction_address
          = (s.pipeline.DECODE.instruction_address + 4) % U32
      · simp [hb, hp, ht]
      · simp [hb, hp, ht]
    · by_cases ht : s.pipeline.FETCH.instruction_address
          = (s.pipeline.DECODE.instruction_address + 4) % U32
      · simp [hb, hp, ht]
      · simp [hb, hp, ht]
  · simp [hb]

theorem push_hazards_stall (t : State) :
    (push_hazards t).2
      = (if t.pipeline.DECODE.itype = instruction_type.BRANCH
            ∧ ¬ (t.pipeline.FETCH.instruction_address
                    ≠ (t.pipeline.DECODE.instruction_address + 4) % U32
                  ↔ t.branch_predict_taken ≠ 0)
          then 1 else 0)
        + (if t.pipeline.MEM.itype = instruction_type.LW
            ∧ t.pipeline.ALU.itype = instruction_type.RTYPE
            ∧ (t.pipeline.ALU.rtype.reg1 = t.pipeline.MEM.lw.dest_reg
                ∨ t.pipeline.ALU.rtype.reg2_or_constant = t.pipeline.MEM.lw.dest_reg)
          then 1 else 0)
        + (if t.pipeline.MEM.itype = instruction_type.SW
            ∧ t.pipeline.ALU.itype = instruction_type.RTYPE
            ∧ t.pipeline.ALU.rtype.dest_reg = t.pipeline.MEM.sw.base_reg
          then 1 else 0) := by
  unfold push_hazards
  simp only [push_sw, push_lw, push_branch_pipeline, push_branch_stall]
  by_cases hm : t.pipeline.MEM.itype = instruction_type.LW
  · have hm2 : t.pipeline.MEM.itype ≠ instruction_type.SW := by rw [hm]; decide
    by_cases ha : t.pipeline.ALU.itype = instruction_type.RTYPE
    · by_cases hr : t.pipeline.ALU.rtype.reg1 = t.pipeline.MEM.lw.dest_reg
          ∨ t.pipeline.ALU.rtype.reg2_or_constant = t.pipeline.MEM.lw.dest_reg
      · simp [hm, ha, hr]
      · simp [hm, ha, hr]
    · simp [hm, ha]
  · by_cases hm2 : t.pipeline.MEM.itype = instruction_type.SW
    · by_cases ha : t.pipeline.ALU.itype = instruction_type.RTYPE
      · by_cases hr : t.pipeline.ALU.rtype.dest_reg = t.pipeline.MEM.sw.base_reg
        · simp [hm2, ha, hr]
        · simp [hm2, ha, hr]
      · simp [hm2, ha]
    · simp [hm, hm2]

theorem push_hazards_pipeline (s : State) :
    (push_hazards s).1.pipeline = s.pipeline
      ∧ (push_hazards s).1.branch_predict_taken = s.branch_predict_taken := by
  show (push_branch s).1.pipeline = _ ∧ (push_branch s).1.branch_predict_taken = _
  unfold push_branch
  split_ifs <;> exact ⟨rfl, rfl⟩

/-- The stall that a call computes is 0 when DECODE does not hold a BRANCH and
either ALU does not hold an RTYPE or MEM holds neither a LW nor a SW. -/
theorem push_stall_zero (s : State)
    (hd : s.pipeline.DECODE.itype ≠ instruction_type.BRANCH)
    (ha : s.pipeline.ALU.itype ≠ instruction_type.RTYPE
      ∨ (s.pipeline.MEM.itype ≠ instruction_type.LW
          ∧ s.pipeline.MEM.itype ≠ instruction_type.SW)) :
    (push_hazards (push_retire s)).2 = 0 := by
  rw [push_hazards_stall, (push_retire_pipeline s).1]
  rw [if_neg (fun h => hd h.1)]
  rcases ha with ha | ha
  · rw [if_neg (fun h => ha h.2.1), if_neg (fun h => ha h.2.1)]
  · rw [if_neg (fun h => ha.1 h.1), if_neg (fun h => ha.2 h.1)]

/-- The stall that a call computes is not 0 only when DECODE holds a BRANCH, or
ALU holds an RTYPE and MEM a LW or a SW. -/
theorem push_stall_cases (s : State) (h : (push_hazards (push_retire s)).2 ≠ 0) :
    s.pipeline.DECODE.itype = instruction_type.BRANCH
      ∨ (s.pipeline.ALU.itype = instruction_type.RTYPE
          ∧ (s.pipeline.MEM.itype = instruction_type.LW
              ∨ s.pipeline.MEM.itype = instruction_type.SW)) := by
  by_contra hc
  push_neg at hc
  obtain ⟨hd, ha⟩ := hc
  apply h
  apply push_stall_zero s hd
  by_cases hr : s.pipeline.ALU.itype = instruction_type.RTYPE
  · exact Or.inr (ha hr)
  · exact Or.inl hr

/-- The pipeline after steps 1 to 7 of one call. -/
theorem push_step_pipeline (s : State) :
    (push_shift (push_hazards (push_retire s)).1).pipeline
      = { WRITEBACK := s.pipeline.MEM, MEM := s.pipeline.ALU, ALU := s.pipeline.DECODE,
          DECODE := s.pipeline.FETCH, FETCH := zero_slot } := by
  show ({ WRITEBACK := (push_hazards (push_retire s)).1.pipeline.MEM,
          MEM := (push_hazards (push_retire s)).1.pipeline.ALU,
          ALU := (push_hazards (push_retire s)).1.pipeline.DECODE,
          DECODE := (push_hazards (push_retire s)).1.pipeline.FETCH,
          FETCH := zero_slot } : pipeline_bank) = _
  rw [(push_hazards_pipeline _).1, (push_retire_pipeline s).1]

theorem push_fuel_succ (n : Nat) (s : State) :
    push_fuel (n + 1) s
      = if (push_hazards (push_retire s)).2 ≠ 0 then
          push_fuel n (push_shift (push_hazards (push_retire s)).1)
        else some (push_shift (push_hazards (push_retire s)).1) := rfl

/-- After a call that stalled and whose nested call stalled too, the next nested
call computes the stall 0. -/
theorem push_third_call_no_stall (s : State)
    (h1 : (push_hazards (push_retire (push_shift (push_hazards (push_retire s)).1))).2 ≠ 0) :
    (push_hazards (push_retire (push_shift (push_hazards (push_retire
      (push_shift (push_hazards (push_retire s)).1))).1))).2 = 0 := by
  have hp1 := push_step_pipeline s
  have hp2 := push_step_pipeline (push_shift (push_hazards (push_retire s)).1)
  have hc := push_stall_cases _ h1
  rw [hp1] at hc
  rw [hp1] at hp2
  apply push_stall_zero
  · rw [hp2]
    show zero_slot.itype ≠ instruction_type.BRANCH
    decide
  · rw [hp2]
    rcases hc with hc | hc
    · left
      show s.pipeline.FETCH.itype ≠ instruction_type.RTYPE
      have hc2 : s.pipeline.FETCH.itype = instruction_type.BRANCH := hc
      rw [hc2]; decide
    · right
      show s.pipeline.DECODE.itype ≠ instruction_type.LW
        ∧ s.pipeline.DECODE.itype ≠ instruction_type.SW
      have hc2 : s.pipeline.DECODE.itype = instruction_type.RTYPE := hc.1
      rw [hc2]; exact ⟨by decide, by decide⟩

/-- Termination of `iplc_sim_push_pipeline_stage`: from every state the
recursion is at most three calls deep, so every bound from 3 on gives the same
result, the value of `iplc_sim_push_pipeline_stage`. -/
theorem push_fuel_enough (s : State) (n : Nat) (hn : 3 ≤ n) :
    push_fuel n s = some (iplc_sim_push_pipeline_stage s) := by
  have hex : ∃ t, ∀ m, 3 ≤ m → push_fuel m s = some t := by
    by_cases h0 : (push_hazards (push_retire s)).2 ≠ 0
    · by_cases h1 : (push_hazards (push_retire
          (push_shift (push_hazards (push_retire s)).1))).2 ≠ 0
      · have h2 := push_third_call_no_stall s h1
        refine ⟨push_shift (push_hazards (push_retire (push_shift (push_hazards (push_retire
          (push_shift (push_hazards (push_retire s)).1))).1))).1, ?_⟩
        intro m hm
        obtain ⟨k, rfl⟩ : ∃ k, m = k + 1 + 1 + 1 := ⟨m - 3, by omega⟩
        rw [push_fuel_succ, if_pos h0, push_fuel_succ, if_pos h1, push_fuel_succ,
          if_neg (fun h => h h2)]
      · refine ⟨push_shift (push_hazards (push_retire
          (push_shift (push_hazards (push_retire s)).1))).1, ?_⟩
        intro m hm
        obtain ⟨k, rfl⟩ : ∃ k, m = k + 1 + 1 := ⟨m - 2, by omega⟩
        rw [push_fuel_succ, if_pos h0, push_fuel_succ, if_neg h1]
    · refine ⟨push_shift (push_hazards (push_retire s)).1, ?_⟩
      intro m hm
      obtain ⟨k, rfl⟩ : ∃ k, m = k + 1 := ⟨m - 1, by omega⟩
      rw [push_fuel_succ, if_neg h0]
  obtain ⟨t, ht⟩ := hex
  have h3 : iplc_sim_push_pipeline_stage s = t := by
    unfold iplc_sim_push_pipeline_stage
    rw [ht 3 (le_refl _)]
    rfl
  rw [h3]
  exact ht n hn

/-- C9: the stall count that steps 2 to 4 of `iplc_sim_push_pipeline_stage`
produce is the number of the conditions that hold among (a) DECODE holds a
BRANCH whose outcome differs from the configured prediction, (b) MEM holds a LW
and ALU an RTYPE whose `reg1` or `reg2_or_constant` is the `dest_reg` of the LW,
(c) MEM holds a SW and ALU an RTYPE whose `dest_reg` is the `base_reg` of the
SW; it is at most 2, and the retirement step before it does not change it. -/
theorem hazard_stall_count (s : State) :
    (push_hazards s).2
        = (if s.pipeline.DECODE.itype = instruction_type.BRANCH
              ∧ ¬ (s.pipeline.FETCH.instruction_address
                      ≠ (s.pipeline.DECODE.instruction_address + 4) % U32
                    ↔ s.branch_predict_taken ≠ 0)
            then 1 else 0)
          + (if s.pipeline.MEM.itype = instruction_type.LW
              ∧ s.pipeline.ALU.itype = instruction_type.RTYPE
              ∧ (s.pipeline.ALU.rtype.reg1 = s.pipeline.MEM.lw.dest_reg
                  ∨ s.pipeline.ALU.rtype.reg2_or_constant = s.pipeline.MEM.lw.dest_reg)
            then 1 else 0)
          + (if s.pipeline.MEM.itype = instruction_type.SW
              ∧ s.pipeline.ALU.itype = instruction_type.RTYPE
              ∧ s.pipeline.ALU.rtype.dest_reg = s.pipeline.MEM.sw.base_reg
            then 1 else 0)
      ∧ (push_hazards s).2 ≤ 2
      ∧ (push_hazards (push_retire s)).2 = (push_hazards s).2 := by
  refine ⟨push_hazards_stall s, ?_, ?_⟩
  · rw [push_hazards_stall s]
    by_cases hm : s.pipeline.MEM.itype = instruction_type.LW
    · have hm2 : ¬ (s.pipeline.MEM.itype = instruction_type.SW
          ∧ s.pipeline.ALU.itype = instruction_type.RTYPE
          ∧ s.pipeline.ALU.rtype.dest_reg = s.pipeline.MEM.sw.base_reg) := by
        rw [hm]; exact fun h => absurd h.1 (by decide)
      rw [if_neg hm2]
      split_ifs <;> omega
    · have hm1 : ¬ (s.pipeline.MEM.itype = instruction_type.LW
          ∧ s.pipeline.ALU.itype = instruction_type.RTYPE
          ∧ (s.pipeline.ALU.rtype.reg1 = s.pipeline.MEM.lw.dest_reg
              ∨ s.pipeline.ALU.rtype.reg2_or_constant = s.pipeline.MEM.lw.dest_reg)) :=
        fun h => hm h.1
      rw [if_neg hm1]
      split_ifs <;> omega
  · rw [push_hazards_stall s, push_hazards_stall (push_retire s),
      (push_retire_pipeline s).1, (push_retire_pipeline s).2]

/-- C10: in the branch check of a push, when DECODE holds a BRANCH, `branch_count`
grows by 1 (as an `unsigned int`, that is modulo 2^32), the branch counts as taken
exactly when the address in FETCH is not the address in DECODE plus 4 (modulo
2^32); when that outcome agrees with `branch_predict_taken`,
`correct_branch_predictions` grows by 1 and the branch asks for no stall;
otherwise `correct_branch_predictions` is unchanged and `stall` is set to 1.
When DECODE does not hold a BRANCH, neither counter changes. -/
theorem branch_check_counters (s : State) :
    (s.pipeline.DECODE.itype = instruction_type.BRANCH →
        (push_hazards s).1.branch_count = (s.branch_count + 1) % U32
        ∧ (s.branch_count + 1 < U32 → (push_hazards s).1.branch_count = s.branch_count + 1)
        ∧ (branch_taken s ≠ 0 ↔
            s.pipeline.FETCH.instruction_address
              ≠ (s.pipeline.DECODE.instruction_address + 4) % U32)
        ∧ ((branch_taken s ≠ 0 ↔ s.branch_predict_taken ≠ 0) →
            (push_hazards s).1.correct_branch_predictions
                = (s.correct_branch_predictions + 1) % U32
              ∧ (s.correct_branch_predictions + 1 < U32 →
                  (push_hazards s).1.correct_branch_predictions
                    = s.correct_branch_predictions + 1)
              ∧ (push_branch s).2 = 0)
        ∧ (¬ (branch_taken s ≠ 0 ↔ s.branch_predict_taken ≠ 0) →
            (push_hazards s).1.correct_branch_predictions = s.correct_branch_predictions
              ∧ (push_branch s).2 = 1))
      ∧ (s.pipeline.DECODE.itype ≠ instruction_type.BRANCH →
          (push_hazards s).1.branch_count = s.branch_count
            ∧ (push_hazards s).1.correct_branch_predictions = s.correct_branch_predictions
            ∧ (push_branch s).2 = 0) := by
  have htaken : branch_taken s ≠ 0 ↔
      s.pipeline.FETCH.instruction_address
        ≠ (s.pipeline.DECODE.instruction_address + 4) % U32 := by
    unfold branch_taken
    split <;> simp_all
  have hst : (push_hazards s).1 = (push_branch s).1 := rfl
  rw [hst]
  constructor
  · intro hb
    unfold push_branch
    rw [if_pos hb]
    by_cases hp : s.branch_predict_taken ≠ 0
    · by_cases ht : branch_taken s ≠ 0
      · rw [if_pos hp, if_pos ht]
        refine ⟨rfl, fun h => Nat.mod_eq_of_lt h, htaken, ?_, ?_⟩
        · intro _
          exact ⟨rfl, fun h => Nat.mod_eq_of_lt h, rfl⟩
        · intro h
          exact absurd ⟨fun _ => hp, fun _ => ht⟩ h
      · rw [if_pos hp, if_neg ht]
        refine ⟨rfl, fun h => Nat.mod_eq_of_lt h, htaken, ?_, ?_⟩
        · intro h
          exact absurd (h.mpr hp) ht
        · intro _
          exact ⟨rfl, rfl⟩
    · by_cases ht : branch_taken s ≠ 0
      · rw [if_neg hp, if_neg (fun h => h ht)]
        refine ⟨rfl, fun h => Nat.mod_eq_of_lt h, htaken, ?_, ?_⟩
        · intro h
          exact absurd (h.mp ht) hp
        · intro _
          exact ⟨rfl, rfl⟩
      · rw [if_neg hp, if_pos ht]
        refine ⟨rfl, fun h => Nat.mod_eq_of_lt h, htaken, ?_, ?_⟩
        · intro _
          exact ⟨rfl, fun h => Nat.mod_eq_of_lt h, rfl⟩
        · intro h
          exact absurd ⟨fun h2 => absurd h2 ht, fun h2 => absurd h2 hp⟩ h
  · intro hb
    unfold push_branch
    rw [if_neg hb]
    exact ⟨rfl, rfl, rfl⟩

/-! ## Instances of the theorems on sample states -/

/-- C2 (instance): on `sample_half`, the lookup of address 56 returns 1 and the
counters move from 1 access, 0 hits to 2 accesses, 1 hit. -/
theorem trap_address_result_and_counters_witness :
    (iplc_sim_trap_address sample_half 56).1 = 1
      ∧ (iplc_sim_trap_address sample_half 56).2.cache_hit = sample_half.cache_hit + 1
      ∧ (iplc_sim_trap_address sample_half 56).2.cache_access = 2 :=
  have h := trap_address_result_and_counters sample_half 56
  ⟨by decide, (h.2.2.2.1 (by decide)).1, h.2.2.1⟩

/-- C3 (instance): in set 0 of `sample_full` (ages 2 and 1) the replaced line is
line 0, and it receives the new tag 9. -/
theorem replace_on_miss_evicts_first_oldest_witness :
    target_of sample_full 0 = 0
      ∧ tag_at (cache_set (iplc_sim_LRU_replace_on_miss sample_full 0 9) 0)
          (target_of sample_full 0) = 9 :=
  have h := replace_on_miss_evicts_first_oldest sample_full 0 9
    (by decide) (by decide) (by decide) (by decide) (by decide)
  ⟨by decide, h.2.2.2.1⟩

/-- C4 (instance): on `sample_full`, the lookup of address 40 hits line 1 of set
0, whose age is 1 afterwards, less than the age of line 0. -/
theorem trap_address_ages_witness :
    accessed_line sample_full 40 = 1
      ∧ age_at (cache_set (iplc_sim_trap_address sample_full 40).2
          (trap_index sample_full 40)) (accessed_line sample_full 40) = 1
      ∧ age_at (cache_set (iplc_sim_trap_address sample_full 40).2
            (trap_index sample_full 40)) (accessed_line sample_full 40)
          < age_at (cache_set (iplc_sim_trap_address sample_full 40).2
              (trap_index sample_full 40)) 0 :=
  have h := trap_address_ages sample_full 40 (by decide) (by decide) (by decide)
  ⟨by decide, h.2.2.1, h.2.2.2.2.2.2 (by decide) 0 (by decide) (by decide) (by decide)⟩

/-- C5 (instance): in set 0 of `sample_half` the first invalid line is line 1, and
it receives the new tag 9. -/
theorem replace_on_miss_fills_first_invalid_witness :
    target_of sample_half 0 = 1
      ∧ tag_at (cache_set (iplc_sim_LRU_replace_on_miss sample_half 0 9) 0)
          (target_of sample_half 0) = 9 :=
  have h := replace_on_miss_fills_first_invalid sample_half 0 9
    (by decide) (by decide) ⟨1, by decide, by decide⟩
  ⟨by decide, h.2.2.2.1⟩

/-- C6 (instance): after `iplc_sim_init` with `index = 1`, `blocksize = 1`,
`assoc = 2` and the lookups of 56, 40, 56 and 8, the cache still has 2 sets. -/
theorem cache_invariant_witness :
    iplc_sim_init initial_state zero_heap 1 1 2 = some sample_init
      ∧ (run_trap sample_init [56, 40, 56, 8]).cache.length = 2 ^ (1 : Int).toNat :=
  ⟨by decide,
   (cache_invariant initial_state sample_init zero_heap 1 1 2 (by decide) [56, 40, 56, 8]).1⟩

/-- C8 (instance): `index = 2`, `blocksize = 1`, `assoc = 1` gives the size
`1 * 4 * 61 = 244`, and `iplc_sim_init` does not exit. -/
theorem init_exits_iff_too_big_witness :
    ¬ (iplc_sim_init initial_state zero_heap 2 1 1 = none) :=
  have h := (init_exits_iff_too_big initial_state zero_heap).1 2 1 1
    (by decide) (by decide) (by decide) (by decide) (by decide)
    (by rw [ceil_half_four]; decide)
  fun hn => absurd (h.1.mp hn) (by rw [ceil_half_four]; decide)

/-- C10 (instance): on `sample_branch` (sequential successor, prediction not
taken) the branch check counts one branch and one correct prediction. -/
theorem branch_check_counters_witness :
    (push_hazards sample_branch).1.branch_count = 1
      ∧ (push_hazards sample_branch).1.correct_branch_predictions = 1 :=
  have h := (branch_check_counters sample_branch).1 (by decide)
  ⟨h.2.1 (by decide), (h.2.2.2.1 (by decide)).2.1 (by decide)⟩

/-! ## One call of the pipeline function, round by round -/

theorem push_retire_fields (s : State) :
    (push_retire s).pipeline_cycles = s.pipeline_cycles
      ∧ (push_retire s).instruction_address = s.instruction_address
      ∧ (push_retire s).inst_stats = s.inst_stats
      ∧ (push_retire s).cache = s.cache
      ∧ (push_retire s).cache_access = s.cache_access
      ∧ (push_retire s).cache_miss = s.cache_miss
      ∧ (push_retire s).cache_hit = s.cache_hit := by
  unfold push_retire
  split <;> exact ⟨rfl, rfl, rfl, rfl, rfl, rfl, rfl⟩

theorem push_hazards_fields (s : State) :
    (push_hazards s).1.pipeline_cycles = s.pipeline_cycles
      ∧ (push_hazards s).1.instruction_address = s.instruction_address
      ∧ (push_hazards s).1.instruction_count = s.instruction_count
      ∧ (push_hazards s).1.inst_stats = s.inst_stats
      ∧ (push_hazards s).1.cache = s.cache
      ∧ (push_hazards s).1.cache_access = s.cache_access
      ∧ (push_hazards s).1.cache_miss = s.cache_miss
      ∧ (push_hazards s).1.cache_hit = s.cache_hit := by
  show (push_branch s).1.pipeline_cycles = _ ∧ (push_branch s).1.instruction_address = _
    ∧ (push_branch s).1.instruction_count = _ ∧ (push_branch s).1.inst_stats = _
    ∧ (push_branch s).1.cache = _ ∧ (push_branch s).1.cache_access = _
    ∧ (push_branch s).1.cache_miss = _ ∧ (push_branch s).1.cache_hit = _
  unfold push_branch
  split_ifs <;> exact ⟨rfl, rfl, rfl, rfl, rfl, rfl, rfl, rfl⟩

/-- What one round does to the fields other than the branch counters. -/
theorem push_round_fields (s : State) :
    (push_round s).pipeline_cycles = (s.pipeline_cycles + 1) % U32
      ∧ (push_round s).pipeline
          = { WRITEBACK := s.pipeline.MEM, MEM := s.pipeline.ALU, ALU := s.pipeline.DECODE,
              DECODE := s.pipeline.FETCH, FETCH := zero_slot }
      ∧ (push_round s).instruction_count
          = (if s.pipeline.WRITEBACK.instruction_address ≠ 0 then
              (s.instruction_count + 1) % U32 else s.instruction_count)
      ∧ (push_round s).instruction_address = s.instruction_address
      ∧ (push_round s).inst_stats = s.inst_stats
      ∧ (push_round s).branch_predict_taken = s.branch_predict_taken := by
  refine ⟨?_, push_step_pipeline s, ?_, ?_, ?_, ?_⟩
  · show ((push_hazards (push_retire s)).1.pipeline_cycles + 1) % U32 = _
    rw [(push_hazards_fields _).1, (push_retire_fields s).1]
  · show (push_hazards (push_retire s)).1.instruction_count = _
    rw [(push_hazards_fields _).2.2.1]
    unfold push_retire
    split <;> rfl
  · show (push_hazards (push_retire s)).1.instruction_address = _
    rw [(push_hazards_fields _).2.1, (push_retire_fields s).2.1]
  · show (push_hazards (push_retire s)).1.inst_stats = _
    rw [(push_hazards_fields _).2.2.2.1, (push_retire_fields s).2.2.1]
  · show (push_hazards (push_retire s)).1.branch_predict_taken = _
    rw [(push_hazards_pipeline _).2, (push_retire_pipeline s).2]

/-- The function in terms of its rounds: without a stall the call is one round,
with a stall it is one round followed by one nested call on the state after the
round. -/
theorem push_unfold (s : State) :
    iplc_sim_push_pipeline_stage s
      = if push_stall s ≠ 0 then iplc_sim_push_pipeline_stage (push_round s)
        else push_round s := by
  have h4 := push_fuel_enough s 4 (by decide)
  rw [push_fuel_succ] at h4
  by_cases h : push_stall s ≠ 0
  · have h' : (push_hazards (push_retire s)).2 ≠ 0 := h
    rw [if_pos h'] at h4
    rw [if_pos h]
    have h3 := push_fuel_enough (push_shift (push_hazards (push_retire s)).1) 3 (le_refl _)
    rw [h3] at h4
    exact (Option.some.inj h4).symm
  · have h' : ¬ (push_hazards (push_retire s)).2 ≠ 0 := h
    rw [if_neg h'] at h4
    rw [if_neg h]
    exact (Option.some.inj h4).symm

/-- After two stalled rounds the third round does not stall. -/
theorem push_stall_third (s : State) (h1 : push_stall (push_round s) ≠ 0) :
    push_stall (push_round (push_round s)) = 0 :=
  push_third_call_no_stall s h1

/-- A call is one, two or three rounds. -/
theorem push_rounds (s : State) :
    (push_stall s = 0 ∧ iplc_sim_push_pipeline_stage s = push_round s)
      ∨ (push_stall s ≠ 0 ∧ push_stall (push_round s) = 0
          ∧ iplc_sim_push_pipeline_stage s = push_round (push_round s))
      ∨ (push_stall s ≠ 0 ∧ push_stall (push_round s) ≠ 0
          ∧ iplc_sim_push_pipeline_stage s = push_round (push_round (push_round s))) := by
  by_cases h0 : push_stall s ≠ 0
  · by_cases h1 : push_stall (push_round s) ≠ 0
    · right; right
      refine ⟨h0, h1, ?_⟩
      have h2 := push_stall_third s h1
      rw [push_unfold s, if_pos h0, push_unfold (push_round s), if_pos h1,
        push_unfold (push_round (push_round s)), if_neg (fun h => h h2)]
    · right; left
      refine ⟨h0, not_not.mp h1, ?_⟩
      rw [push_unfold s, if_pos h0, push_unfold (push_round s), if_neg h1]
  · left
    refine ⟨not_not.mp h0, ?_⟩
    rw [push_unfold s, if_neg h0]

/-- A property that every round keeps is kept by a call. -/
theorem push_keeps (P : State → Prop) (hP : ∀ s, P s → P (push_round s)) (s : State)
    (h : P s) : P (iplc_sim_push_pipeline_stage s) := by
  rcases push_rounds s with ⟨_, h1⟩ | ⟨_, _, h1⟩ | ⟨_, _, h1⟩
  · rw [h1]; exact hP s h
  · rw [h1]; exact hP _ (hP s h)
  · rw [h1]; exact hP _ (hP _ (hP s h))

theorem push_fetch_cleared (s : State) :
    (iplc_sim_push_pipeline_stage s).pipeline.FETCH = zero_slot := by
  rcases push_rounds s with ⟨_, h1⟩ | ⟨_, _, h1⟩ | ⟨_, _, h1⟩ <;>
    rw [h1, (push_round_fields _).2.1]

theorem push_instruction_address (s : State) :
    (iplc_sim_push_pipeline_stage s).instruction_address = s.instruction_address :=
  push_keeps (fun t => t.instruction_address = s.instruction_address)
    (fun t ht => by
      show (push_round t).instruction_address = s.instruction_address
      rw [(push_round_fields t).2.2.2.1]; exact ht) s rfl

theorem push_inst_stats (s : State) :
    (iplc_sim_push_pipeline_stage s).inst_stats = s.inst_stats :=
  push_keeps (fun t => t.inst_stats = s.inst_stats)
    (fun t ht => by
      show (push_round t).inst_stats = s.inst_stats
      rw [(push_round_fields t).2.2.2.2.1]; exact ht) s rfl

theorem u32_succ_mod (a : Nat) : (a % U32 + 1) % U32 = (a + 1) % U32 := by
  unfold U32; omega

/-! ## Cycles of one call -/

/-- C11 (counterexample): on `sample_stall_two` the hazard detector yields the
stall count 2 (a mispredicted branch and a load-use hazard), and the call
advances `pipeline_cycles` from 4 to 6, by 2 and not by 1 + 2: the nested call
is made once and finds no stall. -/
theorem stall_two_advances_two :
    push_stall sample_stall_two = 2
      ∧ sample_stall_two.pipeline_cycles = 4
      ∧ (iplc_sim_push_pipeline_stage sample_stall_two).pipeline_cycles = 6 := by
  decide

/-- C11 (amended): a call whose hazard detector yields the stall count 0 is one
round and advances `pipeline_cycles` by 1; a call whose stall count is not 0
(1 or 2) makes one nested call on the state after its round, and the nested call
runs retirement and hazard detection again: the advance is 2 when the nested
call finds no stall and 3 when it finds one (all modulo 2^32). -/
theorem push_cycles_by_rounds (s : State) :
    (push_stall s = 0 →
        iplc_sim_push_pipeline_stage s = push_round s
          ∧ (iplc_sim_push_pipeline_stage s).pipeline_cycles = (s.pipeline_cycles + 1) % U32)
      ∧ (push_stall s ≠ 0 →
          iplc_sim_push_pipeline_stage s = iplc_sim_push_pipeline_stage (push_round s)
            ∧ (push_stall (push_round s) = 0 →
                (iplc_sim_push_pipeline_stage s).pipeline_cycles
                  = (s.pipeline_cycles + 2) % U32)
            ∧ (push_stall (push_round s) ≠ 0 →
                (iplc_sim_push_pipeline_stage s).pipeline_cycles
                  = (s.pipeline_cycles + 3) % U32)) := by
  have hc : ∀ t : State, (push_round t).pipeline_cycles = (t.pipeline_cycles + 1) % U32 :=
    fun t => (push_round_fields t).1
  constructor
  · intro h0
    have h1 : iplc_sim_push_pipeline_stage s = push_round s := by
      rw [push_unfold, if_neg (fun h => h h0)]
    exact ⟨h1, by rw [h1, hc]⟩
  · intro h0
    refine ⟨by rw [push_unfold s, if_pos h0], ?_, ?_⟩
    · intro h1
      rw [push_unfold s, if_pos h0, push_unfold (push_round s), if_neg (fun h => h h1),
        hc, hc]
      unfold U32; omega
    · intro h1
      have h2 := push_stall_third s h1
      rw [push_unfold s, if_pos h0, push_unfold (push_round s), if_pos h1,
        push_unfold (push_round (push_round s)), if_neg (fun h => h h2),
        hc, hc, hc]
      unfold U32; omega

/-- C11 (instance): on `sample_stall_two` the stall count is not 0 and the nested
call finds no stall, so the call advances `pipeline_cycles` by 2. -/
theorem push_cycles_by_rounds_witness :
    push_stall sample_stall_two ≠ 0
      ∧ (iplc_sim_push_pipeline_stage sample_stall_two).pipeline_cycles
          = (sample_stall_two.pipeline_cycles + 2) % U32 :=
  ⟨by decide, ((push_cycles_by_rounds sample_stall_two).2 (by decide)).2.1 (by decide)⟩

/-! ## The miss loop -/

/-- The miss loop from the value `j + 9 - n` of its variable makes `n` calls,
each on the state the call before it left, whatever bound from `n` on is given. -/
theorem burn_loop_calls (j : Int) (n fuel : Nat) (i : Int) (s : State)
    (hfuel : n ≤ fuel) (hi : i = j + 9 - n) :
    burn_loop j fuel i s
      = List.iterate iplc_sim_push_pipeline_stage (iplc_sim_push_pipeline_stage s) n := by
  induction n generalizing fuel i s with
  | zero =>
    cases fuel with
    | zero => rfl
    | succ fuel =>
      unfold burn_loop
      have hcond : ¬ (i < j + (CACHE_MISS_DELAY : Int) - 1) := by
        unfold CACHE_MISS_DELAY; push_cast; omega
      rw [if_neg hcond]
      rfl
  | succ n ih =>
    cases fuel with
    | zero => omega
    | succ fuel =>
      unfold burn_loop
      have hcond : i < j + (CACHE_MISS_DELAY : Int) - 1 := by
        unfold CACHE_MISS_DELAY; push_cast; omega
      rw [if_pos hcond, ih fuel (i + 1) _ (by omega) (by push_cast at hi ⊢; omega)]
      rfl

theorem miss_burn_trace_eq (s : State) :
    miss_burn_trace s
      = List.iterate iplc_sim_push_pipeline_stage (iplc_sim_push_pipeline_stage s) 9 :=
  burn_loop_calls _ 9 CACHE_MISS_DELAY _ s (by decide) (by push_cast; omega)

set_option maxRecDepth 100000

/-- C13 (failing input): first configuration of the sweep (`index = 7`,
`blocksize = 1`, `assoc = 1`, prediction not taken), trace line `beq` at
`0x400140` followed by a line at `0x400340`.  The lookup of `0x400340` misses
with `pipeline_cycles = 10`, and the miss loop leaves `pipeline_cycles = 20`: it
advances the cycles by 10, not by `CACHE_MISS_DELAY - 1 = 9`, because its second
call finds the BRANCH in DECODE mispredicted and makes a nested call. -/
theorem miss_burn_adds_stall_cycle :
    ((run_pa_start initial_state zero_heap 0).map
        (fun s => iplc_sim_parse_instruction s 4194624 (process_call.branch (-1) (-1)))).map
      (fun s =>
        ((iplc_sim_trap_address { s with instruction_address := 4195136 } 4195136).1,
         (iplc_sim_trap_address { s with instruction_address := 4195136 } 4195136).2.pipeline_cycles,
         (miss_burn
           (iplc_sim_trap_address { s with instruction_address := 4195136 } 4195136).2).pipeline_cycles,
         (miss_burn_trace
           (iplc_sim_trap_address { s with instruction_address := 4195136 } 4195136).2).map
             (fun t => t.pipeline_cycles)))
      = some (0, 10, 20, [11, 13, 14, 15, 16, 17, 18, 19, 20]) := by
  decide

/-- C16 (failing input): the first configuration of the sweep runs the trace of
the one line `syscall` at `0x400000` and is drained; the start of the second
configuration (`index = 6`, `blocksize = 1`, `assoc = 2`) then leaves
`cache_access = 1`, `cache_miss = 1`, `pipeline_cycles = 15` and
`instruction_count = 1`: `iplc_sim_init` rebuilds the cache and clears the
pipeline, but no counter is reset. -/
theorem sweep_start_keeps_counters :
    (((run_pa_start initial_state zero_heap 0).map
        (fun s => iplc_sim_finalize (run_trace s [(4194304, process_call.syscall)]))).bind
        (fun s => run_pa_start s zero_heap 1)).map
      (fun s => ((s.cache_access, s.cache_miss, s.cache_hit),
                 (s.pipeline_cycles, s.instruction_count),
                 (s.cache_index, s.cache_assoc, s.pipeline)))
      = some ((1, 1, 0), (15, 1), (6, 2, empty_bank)) := by
  decide

/-- C17 (failing input): the first configuration of the sweep runs the trace
`add $1, $2, $3` at `0x400000`, `lw $8` at `0x400004` and is drained; every
counter of `inst_stats` is still 0, although one RTYPE and one LW were
dispatched: no function of the program writes `inst_stats`. -/
theorem inst_stats_never_counted :
    (run_pa_start initial_state zero_heap 0).map
      (fun s => (iplc_sim_finalize (run_trace s
        [(4194304, process_call.rtype "add" 1 2 3),
         (4194308, process_call.lw 8 (-1) 268500992)])).inst_stats)
      = some { rtype := 0, lw := 0, sw := 0, branch := 0, jump := 0, syscall := 0, nop := 0 } := by
  decide

/-- C18 (failing input): the first configuration of the sweep runs a trace of
two, respectively three, `syscall` lines at the same address `0x400000`.  With
two lines there is 1 miss in 2 accesses and the recorded miss rate is 0, not
1/2; with three lines there are 17 cycles for 3 instructions and the recorded
CPI is 5, not 17/3. -/
theorem run_pa_truncates_quotients :
    (run_pa_start initial_state zero_heap 0).map
        (fun s =>
          let t := iplc_sim_finalize (run_trace s
            [(4194304, process_call.syscall), (4194304, process_call.syscall)])
          (t.cache_miss, t.cache_access, run_pa_cmr t))
        = some (1, 2, 0)
      ∧ (run_pa_start initial_state zero_heap 0).map
        (fun s =>
          let t := iplc_sim_finalize (run_trace s
            [(4194304, process_call.syscall), (4194304, process_call.syscall),
             (4194304, process_call.syscall)])
          (t.pipeline_cycles, t.instruction_count, run_pa_cpi t))
        = some (17, 3, 5) := by
  decide

/-! ## The drain loop -/

theorem cleared_upto_round (k : Nat) (s : State) (h : cleared_upto k s.pipeline) :
    cleared_upto (k + 1) (push_round s).pipeline := by
  rw [(push_round_fields s).2.1]
  obtain ⟨h1, h2, h3, h4, _⟩ := h
  refine ⟨fun _ => rfl, fun hk => h1 (by omega), fun hk => h2 (by omega),
    fun hk => h3 (by omega), fun hk => h4 (by omega)⟩

theorem cleared_upto_mono (k m : Nat) (p : pipeline_bank) (hkm : m ≤ k)
    (h : cleared_upto k p) : cleared_upto m p := by
  obtain ⟨h1, h2, h3, h4, h5⟩ := h
  exact ⟨fun hk => h1 (by omega), fun hk => h2 (by omega), fun hk => h3 (by omega),
    fun hk => h4 (by omega), fun hk => h5 (by omega)⟩

/-- A call clears at least one more slot, counted from FETCH. -/
theorem cleared_upto_push (k : Nat) (s : State) (h : cleared_upto k s.pipeline) :
    cleared_upto (k + 1) (iplc_sim_push_pipeline_stage s).pipeline := by
  rcases push_rounds s with ⟨_, h1⟩ | ⟨_, _, h1⟩ | ⟨_, _, h1⟩
  · rw [h1]; exact cleared_upto_round k s h
  · rw [h1]
    exact cleared_upto_mono (k + 2) (k + 1) _ (by omega)
      (cleared_upto_round (k + 1) _ (cleared_upto_round k s h))
  · rw [h1]
    exact cleared_upto_mono (k + 3) (k + 1) _ (by omega)
      (cleared_upto_round (k + 2) _ (cleared_upto_round (k + 1) _ (cleared_upto_round k s h)))

theorem cleared_upto_five (s : State) (h : cleared_upto 5 s.pipeline) :
    s.pipeline = empty_bank ∧ ¬ drain_cond s := by
  obtain ⟨h1, h2, h3, h4, h5⟩ := h
  have hp : s.pipeline = empty_bank := by
    cases hs : s.pipeline with
    | mk f d a m w =>
      rw [hs] at h1 h2 h3 h4 h5
      simp only [] at h1 h2 h3 h4 h5
      rw [h1 (by omega), h2 (by omega), h3 (by omega), h4 (by omega), h5 (by omega)]
      rfl
  refine ⟨hp, ?_⟩
  unfold drain_cond
  rw [hp]
  decide

/-- From a state whose first `k` slots are cleared, every bound `fuel` with
`5 ≤ k + fuel` ends the drain loop, after at most `5 - k` calls, in a state
whose five slots have kind `NOP`. -/
theorem finalize_loop_ends (fuel k : Nat) (s : State) (h : cleared_upto k s.pipeline)
    (hk : 5 ≤ k + fuel) :
    ∃ tr, finalize_loop fuel s = some tr ∧ tr.length ≤ 5 - k
      ∧ ¬ drain_cond (tr.getLastD s) := by
  induction fuel generalizing k s with
  | zero =>
    have h5 := cleared_upto_five s (cleared_upto_mono k 5 _ (by omega) h)
    refine ⟨[], ?_, by simp, h5.2⟩
    unfold finalize_loop
    rw [if_neg h5.2]
  | succ fuel ih =>
    by_cases hd : drain_cond s
    · have hk5 : k < 5 := by
        by_contra hc
        exact (cleared_upto_five s (cleared_upto_mono k 5 _ (by omega) h)).2 hd
      obtain ⟨rest, h1, h2, h3⟩ :=
        ih (k + 1) (iplc_sim_push_pipeline_stage s) (cleared_upto_push k s h) (by omega)
      refine ⟨iplc_sim_push_pipeline_stage s :: rest, ?_, ?_, ?_⟩
      · unfold finalize_loop
        rw [if_pos hd, h1]
        rfl
      · simp only [List.length_cons]; omega
      · rw [List.getLastD_cons]; exact h3
    · refine ⟨[], ?_, by simp, hd⟩
      unfold finalize_loop
      rw [if_neg hd]

/-- A larger bound gives the same result of the drain loop. -/
theorem finalize_loop_succ (fuel : Nat) (s : State) (tr : List State)
    (h : finalize_loop fuel s = some tr) : finalize_loop (fuel + 1) s = some tr := by
  induction fuel generalizing s tr with
  | zero =>
    unfold finalize_loop at h
    split at h
    · exact absurd h (by simp)
    · rename_i hd
      unfold finalize_loop
      rw [if_neg hd]
      exact h
  | succ fuel ih =>
    unfold finalize_loop at h
    split at h
    · rename_i hd
      cases hr : finalize_loop fuel (iplc_sim_push_pipeline_stage s) with
      | none => rw [hr] at h; exact absurd h (by simp)
      | some rest =>
        rw [hr] at h
        have h2 := ih _ rest hr
        unfold finalize_loop
        rw [if_pos hd, h2]
        exact h
    · rename_i hd
      unfold finalize_loop
      rw [if_neg hd]
      exact h

theorem finalize_loop_mono (fuel fuel2 : Nat) (s : State) (tr : List State)
    (h : finalize_loop fuel s = some tr) (hle : fuel ≤ fuel2) :
    finalize_loop fuel2 s = some tr := by
  induction fuel2 with
  | zero =>
    have : fuel = 0 := by omega
    subst this; exact h
  | succ n ih =>
    by_cases hn : fuel ≤ n
    · exact finalize_loop_succ n s tr (ih hn)
    · have : fuel = n + 1 := by omega
      subst this; exact h

/-- The drain from an arbitrary state: the trace of the calls, shared by helper
lemmas. -/
theorem finalize_trace (s : State) :
    ∃ tr, (∀ fuel, 5 ≤ fuel → finalize_loop fuel s = some tr) ∧ tr.length ≤ 5
      ∧ iplc_sim_finalize s = tr.getLastD s ∧ ¬ drain_cond (iplc_sim_finalize s) := by
  have h0 : cleared_upto 0 s.pipeline :=
    ⟨fun h => by omega, fun h => by omega, fun h => by omega, fun h => by omega,
      fun h => by omega⟩
  obtain ⟨tr, h1, h2, h3⟩ := finalize_loop_ends 5 0 s h0 (by omega)
  have hfin : iplc_sim_finalize s = tr.getLastD s := by
    unfold iplc_sim_finalize
    rw [h1]
    rfl
  refine ⟨tr, fun fuel hf => finalize_loop_mono 5 fuel s tr h1 hf, by omega, hfin, ?_⟩
  rw [hfin]; exact h3

/-- C14: from every state the drain loop of `iplc_sim_finalize` ends after at
most 5 calls of `iplc_sim_push_pipeline_stage` made by the loop (every bound
from 5 on gives the same calls), and in the state it leaves the five slots
FETCH, DECODE, ALU, MEM and WRITEBACK have kind `NOP`. -/
theorem drain_ends_within_five (s : State) :
    ∃ tr, (∀ fuel, 5 ≤ fuel → finalize_loop fuel s = some tr) ∧ tr.length ≤ 5
      ∧ iplc_sim_finalize s = tr.getLastD s
      ∧ (iplc_sim_finalize s).pipeline.FETCH.itype = instruction_type.NOP
      ∧ (iplc_sim_finalize s).pipeline.DECODE.itype = instruction_type.NOP
      ∧ (iplc_sim_finalize s).pipeline.ALU.itype = instruction_type.NOP
      ∧ (iplc_sim_finalize s).pipeline.MEM.itype = instruction_type.NOP
      ∧ (iplc_sim_finalize s).pipeline.WRITEBACK.itype = instruction_type.NOP := by
  obtain ⟨tr, h1, h2, h3, h4⟩ := finalize_trace s
  unfold drain_cond at h4
  push_neg at h4
  exact ⟨tr, h1, h2, h3, h4.1, h4.2.1, h4.2.2.1, h4.2.2.2.1, h4.2.2.2.2⟩

/-! ## Retirement counting -/

/-- A property that every call keeps is kept by the drain. -/
theorem finalize_keeps (P : State → Prop)
    (hP : ∀ s, P s → P (iplc_sim_push_pipeline_stage s)) (s : State) (h : P s) :
    P (iplc_sim_finalize s) := by
  have key : ∀ fuel (u : State) (tr : List State),
      finalize_loop fuel u = some tr → P u → P (tr.getLastD u) := by
    intro fuel
    induction fuel with
    | zero =>
      intro u tr hl hu
      unfold finalize_loop at hl
      split at hl
      · exact absurd hl (by simp)
      · have : tr = [] := (Option.some.inj hl).symm
        subst this; exact hu
    | succ fuel ih =>
      intro u tr hl hu
      unfold finalize_loop at hl
      split at hl
      · cases hr : finalize_loop fuel (iplc_sim_push_pipeline_stage u) with
        | none => rw [hr] at hl; exact absurd hl (by simp)
        | some rest =>
          rw [hr] at hl
          have : tr = iplc_sim_push_pipeline_stage u :: rest := (Option.some.inj hl).symm
          subst this
          rw [List.getLastD_cons]
          exact ih _ rest hr (hP u hu)
      · have : tr = [] := (Option.some.inj hl).symm
        subst this; exact hu
  obtain ⟨tr, h1, _, h3, _⟩ := finalize_trace s
  rw [h3]
  exact key 5 s tr (h1 5 (le_refl _)) h

/-- One round keeps the sum of the retirement counter and of the number of
instructions in flight, modulo 2^32, and keeps the counter below 2^32. -/
theorem push_round_in_flight (s : State) :
    ((push_round s).instruction_count + in_flight (push_round s).pipeline) % U32
        = (s.instruction_count + in_flight s.pipeline) % U32
      ∧ (s.instruction_count < U32 → (push_round s).instruction_count < U32) := by
  obtain ⟨_, hp, hc, _⟩ := push_round_fields s
  rw [hp, hc]
  have hz : slot_counts zero_slot = 0 := rfl
  unfold in_flight
  simp only [hz]
  by_cases hw : s.pipeline.WRITEBACK.instruction_address ≠ 0
  · have hw1 : slot_counts s.pipeline.WRITEBACK = 1 := by
      unfold slot_counts; rw [if_pos hw]
    rw [if_pos hw, hw1]
    unfold U32
    constructor
    · omega
    · intro _; omega
  · have hw0 : slot_counts s.pipeline.WRITEBACK = 0 := by
      unfold slot_counts; rw [if_neg hw]
    rw [if_neg hw, hw0]
    constructor
    · simp only [Nat.zero_add, Nat.add_zero]
    · intro h; exact h

theorem push_in_flight (s : State) :
    ((iplc_sim_push_pipeline_stage s).instruction_count
          + in_flight (iplc_sim_push_pipeline_stage s).pipeline) % U32
        = (s.instruction_count + in_flight s.pipeline) % U32
      ∧ (s.instruction_count < U32 →
          (iplc_sim_push_pipeline_stage s).instruction_count < U32) :=
  push_keeps
    (fun t => (t.instruction_count + in_flight t.pipeline) % U32
        = (s.instruction_count + in_flight s.pipeline) % U32
      ∧ (s.instruction_count < U32 → t.instruction_count < U32))
    (fun t ht => by
      show ((push_round t).instruction_count + in_flight (push_round t).pipeline) % U32
          = (s.instruction_count + in_flight s.pipeline) % U32
        ∧ (s.instruction_count < U32 → (push_round t).instruction_count < U32)
      obtain ⟨h1, h2⟩ := push_round_in_flight t
      exact ⟨by rw [h1]; exact ht.1, fun h => h2 (ht.2 h)⟩)
    s ⟨rfl, fun h => h⟩

/-- One round keeps `no_nop_in_flight`. -/
theorem push_round_no_nop (s : State) (h : no_nop_in_flight s.pipeline) :
    no_nop_in_flight (push_round s).pipeline := by
  rw [(push_round_fields s).2.1]
  obtain ⟨h1, h2, h3, h4, _⟩ := h
  exact ⟨fun h0 => absurd rfl h0, h1, h2, h3, h4⟩

/-- What a `process_*` call leaves: the state after one call of
`iplc_sim_push_pipeline_stage`, with the kind of the call and the global
`instruction_address` in FETCH. -/
theorem dispatch_fields (s : State) (c : process_call) :
    (dispatch s c).pipeline.FETCH.itype = c.kind
      ∧ (dispatch s c).pipeline.FETCH.instruction_address = s.instruction_address
      ∧ (dispatch s c).pipeline.DECODE = (iplc_sim_push_pipeline_stage s).pipeline.DECODE
      ∧ (dispatch s c).pipeline.ALU = (iplc_sim_push_pipeline_stage s).pipeline.ALU
      ∧ (dispatch s c).pipeline.MEM = (iplc_sim_push_pipeline_stage s).pipeline.MEM
      ∧ (dispatch s c).pipeline.WRITEBACK
          = (iplc_sim_push_pipeline_stage s).pipeline.WRITEBACK
      ∧ (dispatch s c).instruction_count = (iplc_sim_push_pipeline_stage s).instruction_count
      ∧ (dispatch s c).pipeline_cycles = (iplc_sim_push_pipeline_stage s).pipeline_cycles
      ∧ (dispatch s c).inst_stats = s.inst_stats := by
  have ha := push_instruction_address s
  have hs := push_inst_stats s
  cases c <;>
    simp only [dispatch, iplc_sim_process_pipeline_rtype, iplc_sim_process_pipeline_lw,
      iplc_sim_process_pipeline_sw, iplc_sim_process_pipeline_branch,
      iplc_sim_process_pipeline_jump, iplc_sim_process_pipeline_syscall,
      iplc_sim_process_pipeline_nop, process_call.kind] <;>
    generalize iplc_sim_push_pipeline_stage s = s1 at ha hs ⊢ <;>
    exact ⟨trivial, ha, trivial, trivial, trivial, trivial, trivial, trivial, hs⟩

/-- A `process_*` call at address `a` adds the instruction to those in flight
when `a` is not 0. -/
theorem dispatch_in_flight (s : State) (a : Nat) (c : process_call) :
    ((dispatch { s with instruction_address := a } c).instruction_count
          + in_flight (dispatch { s with instruction_address := a } c).pipeline) % U32
        = (s.instruction_count + in_flight s.pipeline + (if a ≠ 0 then 1 else 0)) % U32
      ∧ (s.instruction_count < U32 →
          (dispatch { s with instruction_address := a } c).instruction_count < U32) := by
  obtain ⟨_, h2, h3, h4, h5, h6, h7, _⟩ := dispatch_fields { s with instruction_address := a } c
  have hf := push_fetch_cleared { s with instruction_address := a }
  obtain ⟨hi, hlt⟩ := push_in_flight { s with instruction_address := a }
  have hsc : slot_counts (dispatch { s with instruction_address := a } c).pipeline.FETCH
      = if a ≠ 0 then 1 else 0 := by
    unfold slot_counts; rw [h2]
  have hz : slot_counts (iplc_sim_push_pipeline_stage
      { s with instruction_address := a }).pipeline.FETCH = 0 := by
    rw [hf]; rfl
  constructor
  · unfold in_flight at hi ⊢
    rw [hsc, h3, h4, h5, h6, h7]
    rw [hz] at hi
    have hi2 : ((iplc_sim_push_pipeline_stage { s with instruction_address := a }).instruction_count
        + (0 + slot_counts (iplc_sim_push_pipeline_stage
              { s with instruction_address := a }).pipeline.DECODE
            + slot_counts (iplc_sim_push_pipeline_stage
              { s with instruction_address := a }).pipeline.ALU
            + slot_counts (iplc_sim_push_pipeline_stage
              { s with instruction_address := a }).pipeline.MEM
            + slot_counts (iplc_sim_push_pipeline_stage
              { s with instruction_address := a }).pipeline.WRITEBACK)) % U32
        = (s.instruction_count + (slot_counts s.pipeline.FETCH + slot_counts s.pipeline.DECODE
            + slot_counts s.pipeline.ALU + slot_counts s.pipeline.MEM
            + slot_counts s.pipeline.WRITEBACK)) % U32 := hi
    unfold U32 at hi2 ⊢
    omega
  · intro h
    rw [h7]
    exact hlt h

theorem run_calls_cons (s : State) (l : Nat × process_call) (rest : List (Nat × process_call)) :
    run_calls s (l :: rest)
      = run_calls (dispatch { s with instruction_address := l.1 } l.2) rest := rfl

theorem inserted_nonzero_cons (l : Nat × process_call) (rest : List (Nat × process_call)) :
    inserted_nonzero (l :: rest) = (if l.1 ≠ 0 then 1 else 0) + inserted_nonzero rest := by
  unfold inserted_nonzero
  by_cases h : l.1 ≠ 0
  · rw [List.filter_cons_of_pos (by simpa using h), if_pos h, List.length_cons]; omega
  · rw [List.filter_cons_of_neg (by simpa using h), if_neg h]; omega

/-- Along a list of `process_*` calls the retirement counter plus the number of
instructions in flight grows by the number of calls at a nonzero address. -/
theorem run_calls_in_flight (calls : List (Nat × process_call)) (s : State) :
    ((run_calls s calls).instruction_count + in_flight (run_calls s calls).pipeline) % U32
        = (s.instruction_count + in_flight s.pipeline + inserted_nonzero calls) % U32
      ∧ (s.instruction_count < U32 → (run_calls s calls).instruction_count < U32) := by
  induction calls generalizing s with
  | nil => exact ⟨rfl, fun h => h⟩
  | cons l rest ih =>
    rw [run_calls_cons, inserted_nonzero_cons]
    obtain ⟨h1, h2⟩ := ih (dispatch { s with instruction_address := l.1 } l.2)
    obtain ⟨h3, h4⟩ := dispatch_in_flight s l.1 l.2
    refine ⟨?_, fun h => h2 (h4 h)⟩
    rw [h1]
    unfold U32 at h3 ⊢
    omega

theorem push_no_nop (s : State) (h : no_nop_in_flight s.pipeline) :
    no_nop_in_flight (iplc_sim_push_pipeline_stage s).pipeline :=
  push_keeps (fun t => no_nop_in_flight t.pipeline) (fun t ht => push_round_no_nop t ht) s h

theorem dispatch_no_nop (s : State) (a : Nat) (c : process_call)
    (h : no_nop_in_flight s.pipeline) (hc : c = process_call.nop → a = 0) :
    no_nop_in_flight (dispatch { s with instruction_address := a } c).pipeline := by
  obtain ⟨h1, h2, h3, h4, h5, h6, _⟩ := dispatch_fields { s with instruction_address := a } c
  have hp := push_no_nop { s with instruction_address := a } h
  unfold no_nop_in_flight at hp ⊢
  rw [h1, h2, h3, h4, h5, h6]
  refine ⟨?_, hp.2.1, hp.2.2.1, hp.2.2.2.1, hp.2.2.2.2⟩
  intro ha hk
  apply ha
  apply hc
  cases c <;> first | rfl | (simp [process_call.kind] at hk)

theorem run_calls_no_nop (calls : List (Nat × process_call)) (s : State)
    (h : no_nop_in_flight s.pipeline)
    (hc : ∀ l ∈ calls, l.2 = process_call.nop → l.1 = 0) :
    no_nop_in_flight (run_calls s calls).pipeline := by
  induction calls generalizing s with
  | nil => exact h
  | cons l rest ih =>
    rw [run_calls_cons]
    exact ih _ (dispatch_no_nop s l.1 l.2 h (hc l (List.mem_cons_self _ _)))
      (fun l2 hl2 => hc l2 (List.mem_cons_of_mem _ hl2))

/-- C15 (counterexample): from the initial state, the one call `nop` at address
`0x400000`, respectively the one call `syscall` at address 0, followed by
`iplc_sim_finalize` leaves `instruction_count = 0`, although one instruction was
inserted into FETCH: the drain loop does not run for a `NOP` kind, and an
instruction at address 0 is never counted. -/
theorem retirement_misses_nop_and_zero :
    (iplc_sim_finalize (run_calls initial_state [(4194304, process_call.nop)])).instruction_count
        = 0
      ∧ (run_calls initial_state [(4194304, process_call.nop)]).pipeline.FETCH.instruction_address
        = 4194304
      ∧ (iplc_sim_finalize (run_calls initial_state [(0, process_call.syscall)])).instruction_count
        = 0
      ∧ (run_calls initial_state [(0, process_call.syscall)]).pipeline.FETCH.itype
        = instruction_type.SYSCALL := by
  decide

/-- C15 (amended): after a list of `process_*` calls on a state with an empty
pipeline and `iplc_sim_finalize`, `instruction_count` has grown (modulo 2^32) by
the number of calls at a nonzero address minus the number of such instructions
still in the pipeline: every instruction with a nonzero address that has left
WRITEBACK was counted once, an instruction at address 0 is never counted.  The
five slots then have kind `NOP`, and when no `nop` call was made at a nonzero
address nothing is left in flight, so `instruction_count` has grown by exactly
the number of calls at a nonzero address. -/
theorem retirement_count (s : State) (calls : List (Nat × process_call))
    (hempty : s.pipeline = empty_bank) (hlt : s.instruction_count < U32) :
    ((iplc_sim_finalize (run_calls s calls)).instruction_count
          + in_flight (iplc_sim_finalize (run_calls s calls)).pipeline) % U32
        = (s.instruction_count + inserted_nonzero calls) % U32
      ∧ ¬ drain_cond (iplc_sim_finalize (run_calls s calls))
      ∧ ((∀ l ∈ calls, l.2 = process_call.nop → l.1 = 0) →
          in_flight (iplc_sim_finalize (run_calls s calls)).pipeline = 0
            ∧ (iplc_sim_finalize (run_calls s calls)).instruction_count
              = (s.instruction_count + inserted_nonzero calls) % U32) := by
  obtain ⟨h1, h2⟩ := run_calls_in_flight calls s
  have h0 : in_flight s.pipeline = 0 := by rw [hempty]; rfl
  rw [h0, Nat.add_zero] at h1
  have hfin := finalize_keeps
    (fun t => (t.instruction_count + in_flight t.pipeline) % U32
        = (s.instruction_count + inserted_nonzero calls) % U32 ∧ t.instruction_count < U32)
    (fun t ht => by
      obtain ⟨h3, h4⟩ := push_in_flight t
      exact ⟨by rw [h3]; exact ht.1, h4 ht.2⟩)
    (run_calls s calls) ⟨h1, h2 hlt⟩
  obtain ⟨_, _, _, _, hdrain⟩ := finalize_trace (run_calls s calls)
  refine ⟨hfin.1, hdrain, ?_⟩
  intro hc
  have hnn0 : no_nop_in_flight s.pipeline := by
    rw [hempty]
    exact ⟨fun h => absurd rfl h, fun h => absurd rfl h, fun h => absurd rfl h,
      fun h => absurd rfl h, fun h => absurd rfl h⟩
  have hnn := finalize_keeps (fun t => no_nop_in_flight t.pipeline)
    (fun t ht => push_no_nop t ht) (run_calls s calls) (run_calls_no_nop calls s hnn0 hc)
  have hd := hdrain
  unfold drain_cond at hd
  push_neg at hd
  obtain ⟨d1, d2, d3, d4, d5⟩ := hd
  obtain ⟨n1, n2, n3, n4, n5⟩ := hnn
  have hz : in_flight (iplc_sim_finalize (run_calls s calls)).pipeline = 0 := by
    unfold in_flight slot_counts
    rw [if_neg (fun h => n1 h d1), if_neg (fun h => n2 h d2), if_neg (fun h => n3 h d3),
      if_neg (fun h => n4 h d4), if_neg (fun h => n5 h d5)]
  refine ⟨hz, ?_⟩
  have h5 := hfin.1
  have h6 := hfin.2
  rw [hz, Nat.add_zero, Nat.mod_eq_of_lt h6] at h5
  exact h5

/-! ## The lookup in terms of the accessed set -/

theorem trap_address_config (s : State) (address : Nat) :
    (iplc_sim_trap_address s address).2.cache_index = s.cache_index
      ∧ (iplc_sim_trap_address s address).2.cache_blockoffsetbits = s.cache_blockoffsetbits := by
  cases h : trap_loop (cache_set s (trap_index s address)) (trap_tag s address) s.cache_assoc 0 with
  | some a => rw [trap_address_hit s address a h]; exact ⟨rfl, rfl⟩
  | none => rw [trap_address_miss s address h]; exact ⟨rfl, rfl⟩

/-- A lookup in terms of the set it accesses: the returned value, the set
afterwards and the three cache counters. -/
theorem trap_address_on_set (s : State) (address : Nat)
    (hidx : trap_index s address < s.cache.length) :
    (iplc_sim_trap_address s address).1
        = lookup_hit (cache_set s (trap_index s address)) (trap_tag s address) s.cache_assoc
      ∧ cache_set (iplc_sim_trap_address s address).2 (trap_index s address)
        = lookup_set (cache_set s (trap_index s address)) (trap_tag s address) s.cache_assoc
      ∧ (iplc_sim_trap_address s address).2.cache_access = s.cache_access + 1
      ∧ (iplc_sim_trap_address s address).2.cache_hit
        = s.cache_hit
          + lookup_hit (cache_set s (trap_index s address)) (trap_tag s address) s.cache_assoc
      ∧ (iplc_sim_trap_address s address).2.cache_miss
        = s.cache_miss + 1
          - lookup_hit (cache_set s (trap_index s address)) (trap_tag s address) s.cache_assoc := by
  cases h : trap_loop (cache_set s (trap_index s address)) (trap_tag s address) s.cache_assoc 0 with
  | some a =>
    have hh : lookup_hit (cache_set s (trap_index s address)) (trap_tag s address) s.cache_assoc
        = 1 := by unfold lookup_hit; rw [h]
    have hl : lookup_set (cache_set s (trap_index s address)) (trap_tag s address) s.cache_assoc
        = update_loop s.cache_assoc 0
            { (cache_set s (trap_index s address)) with
              age := (cache_set s (trap_index s address)).age.set a 0 } := by
      unfold lookup_set; rw [h]
    rw [hh, hl, cache_set_trap_hit s address a _ h, if_pos ⟨rfl, hidx⟩,
      trap_address_hit s address a h]
    refine ⟨rfl, rfl, rfl, rfl, ?_⟩
    show s.cache_miss = s.cache_miss + 1 - 1
    omega
  | none =>
    have hh : lookup_hit (cache_set s (trap_index s address)) (trap_tag s address) s.cache_assoc
        = 0 := by unfold lookup_hit; rw [h]
    have hl : lookup_set (cache_set s (trap_index s address)) (trap_tag s address) s.cache_assoc
        = update_loop s.cache_assoc 0
            { valid_bit := (cache_set s (trap_index s address)).valid_bit.set
                (target_of s (trap_index s address)) 1,
              tag := (cache_set s (trap_index s address)).tag.set
                (target_of s (trap_index s address)) (trap_tag s address),
              age := (cache_set s (trap_index s address)).age.set
                (target_of s (trap_index s address)) 0 } := by
      unfold lookup_set; rw [h]; rfl
    rw [hh, hl, cache_set_trap_miss s address _ h, if_pos ⟨rfl, hidx⟩,
      trap_address_miss s address h]
    refine ⟨rfl, rfl, rfl, ?_, ?_⟩
    · show s.cache_hit = s.cache_hit + 0
      omega
    · show s.cache_miss + 1 = s.cache_miss + 1 - 0
      omega

/-! ## The direct-mapped scenario -/

theorem init_counters (s0 s : State) (heap : Nat → Nat → Int) (index blocksize assoc : Int)
    (h : iplc_sim_init s0 heap index blocksize assoc = some s) :
    s.cache_access = s0.cache_access ∧ s.cache_miss = s0.cache_miss
      ∧ s.cache_hit = s0.cache_hit ∧ s.pipeline_cycles = s0.pipeline_cycles
      ∧ s.instruction_count = s0.instruction_count ∧ s.branch_count = s0.branch_count
      ∧ s.correct_branch_predictions = s0.correct_branch_predictions
      ∧ s.inst_stats = s0.inst_stats ∧ s.pipeline = empty_bank := by
  unfold iplc_sim_init at h
  split at h
  · exact absurd h (by simp)
  · have hs := (Option.some.inj h).symm
    subst hs
    exact ⟨rfl, rfl, rfl, rfl, rfl, rfl, rfl, rfl, rfl⟩

theorem lookup_fresh_one (x tag : Int) :
    lookup_hit { valid_bit := [0], tag := [x], age := [0] } tag 1 = 0
      ∧ lookup_set { valid_bit := [0], tag := [x], age := [0] } tag 1
        = { valid_bit := [1], tag := [tag], age := [1] } := by
  constructor
  · simp [lookup_hit, trap_loop, valid_at]
  · simp [lookup_set, trap_loop, valid_at, replace_loop, update_loop, age_at]

/-- C19: in the configuration `index = 2`, `blocksize = 1`, `assoc = 1`, from the
cache that `iplc_sim_init` builds on zeroed cache counters, the decoder gives
address `0x00` the index 0 and the tag 0 and address `0x10` the index 0 and the
tag 1; the lookups of `0x00`, `0x10`, `0x00` yield `cache_access = 3`; had the
two indices differed there would be 2 misses and the third lookup a hit; as they
are the same there are 3 misses (and no hit: the third lookup returns 0). -/
theorem direct_mapped_scenario (s0 s : State) (heap : Nat → Nat → Int)
    (hinit : iplc_sim_init s0 heap 2 1 1 = some s)
    (hz : s0.cache_access = 0 ∧ s0.cache_miss = 0 ∧ s0.cache_hit = 0) :
    trap_index s 0 = 0 ∧ trap_tag s 0 = 0 ∧ trap_index s 16 = 0 ∧ trap_tag s 16 = 1
      ∧ (run_trap s [0, 16, 0]).cache_access = 3
      ∧ (trap_index s 0 ≠ trap_index s 16 →
          (run_trap s [0, 16, 0]).cache_miss = 2
            ∧ (iplc_sim_trap_address (run_trap s [0, 16]) 0).1 = 1)
      ∧ (trap_index s 0 = trap_index s 16 →
          (run_trap s [0, 16, 0]).cache_miss = 3
            ∧ (run_trap s [0, 16, 0]).cache_hit = 0
            ∧ (iplc_sim_trap_address (run_trap s [0, 16]) 0).1 = 0) := by
  obtain ⟨hz1, hz2, hz3⟩ := hz
  obtain ⟨ha, hi, hb, hlen, hsets⟩ := init_cache s0 s heap 2 1 1 hinit
  obtain ⟨hc1, hc2, hc3, _⟩ := init_counters s0 s heap 2 1 1 hinit
  have hb2 : s.cache_blockoffsetbits = 2 := by rw [hb]; decide
  have hi2 : s.cache_index = 2 := by rw [hi]; decide
  have ha1 : s.cache_assoc = 1 := by rw [ha]; decide
  have hlen4 : s.cache.length = 4 := by rw [hlen]; decide
  -- the decoder in this configuration
  have hdec : ∀ u : State, u.cache_index = 2 → u.cache_blockoffsetbits = 2 →
      trap_index u 0 = 0 ∧ trap_tag u 0 = 0 ∧ trap_index u 16 = 0 ∧ trap_tag u 16 = 1 := by
    intro u h1 h2
    unfold trap_index trap_tag
    rw [h1, h2]
    decide
  obtain ⟨d1, d2, d3, d4⟩ := hdec s hi2 hb2
  -- first lookup
  have hset0 : cache_set s 0 = { valid_bit := [0], tag := [heap 0 0], age := [0] } := by
    rw [hsets 0 (by omega)]; rfl
  have t1 := trap_address_on_set s 0 (by rw [d1]; omega)
  rw [d1, d2, ha1, hset0, (lookup_fresh_one _ _).1, (lookup_fresh_one _ _).2] at t1
  obtain ⟨_, t1s, t1a, t1h, t1m⟩ := t1
  have c1 := trap_address_config s 0
  have l1 := trap_address_length s 0
  have a1 := trap_address_assoc s 0
  -- second lookup
  obtain ⟨e1, e2, e3, e4⟩ := hdec (iplc_sim_trap_address s 0).2
    (by rw [c1.1]; exact hi2) (by rw [c1.2]; exact hb2)
  have t2 := trap_address_on_set (iplc_sim_trap_address s 0).2 16 (by rw [e3, l1]; omega)
  rw [e3, e4, a1, ha1, t1s] at t2
  have hl2 : lookup_hit { valid_bit := [1], tag := [0], age := [1] } 1 1 = 0
      ∧ lookup_set { valid_bit := [1], tag := [0], age := [1] } 1 1
        = { valid_bit := [1], tag := [1], age := [1] } := by decide
  rw [hl2.1, hl2.2] at t2
  obtain ⟨_, t2s, t2a, t2h, t2m⟩ := t2
  have c2 := trap_address_config (iplc_sim_trap_address s 0).2 16
  have l2 := trap_address_length (iplc_sim_trap_address s 0).2 16
  have a2 := trap_address_assoc (iplc_sim_trap_address s 0).2 16
  -- third lookup
  obtain ⟨f1, f2, f3, f4⟩ := hdec (iplc_sim_trap_address (iplc_sim_trap_address s 0).2 16).2
    (by rw [c2.1, c1.1]; exact hi2) (by rw [c2.2, c1.2]; exact hb2)
  have t3 := trap_address_on_set (iplc_sim_trap_address (iplc_sim_trap_address s 0).2 16).2 0
    (by rw [f1, l2, l1]; omega)
  rw [f1, f2, a2, a1, ha1, t2s] at t3
  have hl3 : lookup_hit { valid_bit := [1], tag := [1], age := [1] } 0 1 = 0
      ∧ lookup_set { valid_bit := [1], tag := [1], age := [1] } 0 1
        = { valid_bit := [1], tag := [0], age := [1] } := by decide
  rw [hl3.1, hl3.2] at t3
  obtain ⟨t3r, _, t3a, t3h, t3m⟩ := t3
  have hrun : run_trap s [0, 16, 0]
      = (iplc_sim_trap_address (iplc_sim_trap_address (iplc_sim_trap_address s 0).2 16).2 0).2 :=
    rfl
  have hrun2 : run_trap s [0, 16] = (iplc_sim_trap_address (iplc_sim_trap_address s 0).2 16).2 :=
    rfl
  refine ⟨d1, d2, d3, d4, ?_, ?_, ?_⟩
  · rw [hrun, t3a, t2a, t1a, hc1, hz1]; rfl
  · intro hne
    rw [d1, d3] at hne
    exact absurd rfl hne
  · intro _
    refine ⟨?_, ?_, ?_⟩
    · rw [hrun, t3m, t2m, t1m, hc2, hz2]; rfl
    · rw [hrun, t3h, t2h, t1h, hc3, hz3]; rfl
    · rw [hrun2]; exact t3r

/-! ## Stepping the pipeline on known contents -/

/-- The stall of a call in terms of the pipeline it starts from. -/
theorem push_stall_formula (t : State) :
    push_stall t
      = (if t.pipeline.DECODE.itype = instruction_type.BRANCH
            ∧ ¬ (t.pipeline.FETCH.instruction_address
                    ≠ (t.pipeline.DECODE.instruction_address + 4) % U32
                  ↔ t.branch_predict_taken ≠ 0)
          then 1 else 0)
        + (if t.pipeline.MEM.itype = instruction_type.LW
            ∧ t.pipeline.ALU.itype = instruction_type.RTYPE
            ∧ (t.pipeline.ALU.rtype.reg1 = t.pipeline.MEM.lw.dest_reg
                ∨ t.pipeline.ALU.rtype.reg2_or_constant = t.pipeline.MEM.lw.dest_reg)
          then 1 else 0)
        + (if t.pipeline.MEM.itype = instruction_type.SW
            ∧ t.pipeline.ALU.itype = instruction_type.RTYPE
            ∧ t.pipeline.ALU.rtype.dest_reg = t.pipeline.MEM.sw.base_reg
          then 1 else 0) := by
  unfold push_stall
  rw [push_hazards_stall, (push_retire_pipeline t).1, (push_retire_pipeline t).2]

/-- A call without a stall is one round: one shift and one cycle. -/
theorem push_no_stall (t : State) (h : push_stall t = 0) :
    (iplc_sim_push_pipeline_stage t).pipeline
        = { WRITEBACK := t.pipeline.MEM, MEM := t.pipeline.ALU, ALU := t.pipeline.DECODE,
            DECODE := t.pipeline.FETCH, FETCH := zero_slot }
      ∧ (iplc_sim_push_pipeline_stage t).pipeline_cycles = (t.pipeline_cycles + 1) % U32 := by
  rw [push_unfold, if_neg (fun hn => hn h)]
  exact ⟨(push_round_fields t).2.1, (push_round_fields t).1⟩

/-- A call with a stall whose nested call has none is two rounds. -/
theorem push_one_stall (t : State) (h : push_stall t ≠ 0) (h1 : push_stall (push_round t) = 0) :
    (iplc_sim_push_pipeline_stage t).pipeline
        = { WRITEBACK := t.pipeline.ALU, MEM := t.pipeline.DECODE, ALU := t.pipeline.FETCH,
            DECODE := zero_slot, FETCH := zero_slot }
      ∧ (iplc_sim_push_pipeline_stage t).pipeline_cycles = (t.pipeline_cycles + 2) % U32 := by
  rw [push_unfold, if_pos h, push_unfold, if_neg (fun hn => hn h1)]
  constructor
  · rw [(push_round_fields _).2.1, (push_round_fields t).2.1]
  · rw [(push_round_fields _).1, (push_round_fields t).1]
    unfold U32; omega

theorem finalize_loop_step (fuel : Nat) (s : State) :
    finalize_loop (fuel + 1) s
      = if drain_cond s then
          (finalize_loop fuel (iplc_sim_push_pipeline_stage s)).map
            (fun rest => iplc_sim_push_pipeline_stage s :: rest)
        else some [] := rfl

/-- The drain in terms of its loop: while some slot has a kind other than `NOP`,
one call and the drain of the state it leaves. -/
theorem finalize_unfold (s : State) :
    iplc_sim_finalize s
      = if drain_cond s then iplc_sim_finalize (iplc_sim_push_pipeline_stage s) else s := by
  obtain ⟨tr, h1, _, h3, _⟩ := finalize_trace s
  by_cases hd : drain_cond s
  · rw [if_pos hd]
    obtain ⟨tr2, g1, _, g3, _⟩ := finalize_trace (iplc_sim_push_pipeline_stage s)
    have h6 := h1 6 (by omega)
    have hunf : finalize_loop 6 s
        = (finalize_loop 5 (iplc_sim_push_pipeline_stage s)).map
            (fun rest => iplc_sim_push_pipeline_stage s :: rest) :=
      (finalize_loop_step 5 s).trans (if_pos hd)
    rw [hunf, g1 5 (le_refl _)] at h6
    have htr : tr = iplc_sim_push_pipeline_stage s :: tr2 := (Option.some.inj h6).symm
    rw [h3, g3, htr, List.getLastD_cons]
  · rw [if_neg hd, h3]
    have h5 := h1 5 (le_refl _)
    have : finalize_loop 5 s = some [] := (finalize_loop_step 4 s).trans (if_neg hd)
    rw [this] at h5
    rw [← Option.some.inj h5]
    rfl

/-- What `iplc_sim_process_pipeline_lw` leaves. -/
theorem process_lw_fields (s : State) (dest_reg base_reg : Int) (data_address : Nat) :
    (iplc_sim_process_pipeline_lw s dest_reg base_reg data_address).pipeline
        = { (iplc_sim_push_pipeline_stage s).pipeline with
            FETCH := lw_slot s.instruction_address dest_reg base_reg data_address }
      ∧ (iplc_sim_process_pipeline_lw s dest_reg base_reg data_address).pipeline_cycles
        = (iplc_sim_push_pipeline_stage s).pipeline_cycles
      ∧ (iplc_sim_process_pipeline_lw s dest_reg base_reg data_address).branch_predict_taken
        = (iplc_sim_push_pipeline_stage s).branch_predict_taken := by
  have hf := push_fetch_cleared s
  have ha := push_instruction_address s
  unfold iplc_sim_process_pipeline_lw lw_slot
  simp only []
  generalize iplc_sim_push_pipeline_stage s = s1 at hf ha ⊢
  rw [hf, ha]
  refine ⟨?_, ?_, ?_⟩ <;> trivial

/-- What `iplc_sim_process_pipeline_rtype` leaves. -/
theorem process_rtype_fields (s : State) (instruction : String)
    (dest_reg reg1 reg2_or_constant : Int) :
    (iplc_sim_process_pipeline_rtype s instruction dest_reg reg1 reg2_or_constant).pipeline
        = { (iplc_sim_push_pipeline_stage s).pipeline with
            FETCH := rtype_slot s.instruction_address instruction dest_reg reg1
              reg2_or_constant }
      ∧ (iplc_sim_process_pipeline_rtype s instruction dest_reg reg1
            reg2_or_constant).pipeline_cycles
        = (iplc_sim_push_pipeline_stage s).pipeline_cycles := by
  have hf := push_fetch_cleared s
  have ha := push_instruction_address s
  unfold iplc_sim_process_pipeline_rtype rtype_slot
  simp only []
  generalize iplc_sim_push_pipeline_stage s = s1 at hf ha ⊢
  rw [hf, ha]
  refine ⟨?_, ?_⟩ <;> trivial

/-! ## The load-use scenario -/

/-- C20 (counterexample): from the initial state, `lw $8` at `0x400000` followed
by `add $9, $8, $10` (which reads `$8`) and drained costs 7 cycles; the same two
instructions with `add $9, $11, $10` (no dependency) and drained cost 7 cycles
too: no extra cycle is charged. -/
theorem load_use_no_extra_cycle :
    (iplc_sim_finalize
        (lw_then_rtype initial_state 4194304 4194308 8 (-1) 268500992 "add" 9 8 10)).pipeline_cycles
        = 7
      ∧ (iplc_sim_finalize
        (lw_then_rtype initial_state 4194304 4194308 8 (-1) 268500992 "add" 9 11 10)).pipeline_cycles
        = 7 := by
  decide

theorem lw_slot_kind (a : Nat) (dest base : Int) (da : Nat) :
    (lw_slot a dest base da).itype = instruction_type.LW
      ∧ (lw_slot a dest base da).lw.dest_reg = dest := ⟨rfl, rfl⟩

theorem rtype_slot_kind (a : Nat) (ins : String) (d r1 r2 : Int) :
    (rtype_slot a ins d r1 r2).itype = instruction_type.RTYPE
      ∧ (rtype_slot a ins d r1 r2).rtype.reg1 = r1
      ∧ (rtype_slot a ins d r1 r2).rtype.reg2_or_constant = r2 := ⟨rfl, rfl, rfl⟩

/-- The stall of a call on a pipeline without a BRANCH in DECODE and without a SW
in MEM is the load-use term alone. -/
theorem push_stall_load_use (t : State)
    (hd : t.pipeline.DECODE.itype ≠ instruction_type.BRANCH)
    (hm : t.pipeline.MEM.itype ≠ instruction_type.SW) :
    push_stall t
      = if t.pipeline.MEM.itype = instruction_type.LW
            ∧ t.pipeline.ALU.itype = instruction_type.RTYPE
            ∧ (t.pipeline.ALU.rtype.reg1 = t.pipeline.MEM.lw.dest_reg
                ∨ t.pipeline.ALU.rtype.reg2_or_constant = t.pipeline.MEM.lw.dest_reg)
        then 1 else 0 := by
  have h1 : ¬ (t.pipeline.DECODE.itype = instruction_type.BRANCH
      ∧ ¬ (t.pipeline.FETCH.instruction_address
              ≠ (t.pipeline.DECODE.instruction_address + 4) % U32
            ↔ t.branch_predict_taken ≠ 0)) := fun h => hd h.1
  have h3 : ¬ (t.pipeline.MEM.itype = instruction_type.SW
      ∧ t.pipeline.ALU.itype = instruction_type.RTYPE
      ∧ t.pipeline.ALU.rtype.dest_reg = t.pipeline.MEM.sw.base_reg) := fun h => hm h.1
  rw [push_stall_formula, if_neg h1, if_neg h3, Nat.zero_add, Nat.add_zero]

/-- The stall of a call is 0 when DECODE holds no BRANCH and MEM holds neither a
LW nor a SW. -/
theorem push_stall_quiet (t : State)
    (hd : t.pipeline.DECODE.itype ≠ instruction_type.BRANCH)
    (hl : t.pipeline.MEM.itype ≠ instruction_type.LW)
    (hm : t.pipeline.MEM.itype ≠ instruction_type.SW) :
    push_stall t = 0 := by
  rw [push_stall_load_use t hd hm, if_neg (fun h => hl h.1)]

/-- The kinds in a bank whose slots are LW, RTYPE or cleared. -/
theorem slot_kinds (a1 a2 : Nat) (dest base : Int) (da : Nat) (ins : String) (d r1 r2 : Int) :
    zero_slot.itype ≠ instruction_type.BRANCH ∧ zero_slot.itype ≠ instruction_type.LW
      ∧ zero_slot.itype ≠ instruction_type.SW
      ∧ (lw_slot a1 dest base da).itype ≠ instruction_type.BRANCH
      ∧ (lw_slot a1 dest base da).itype ≠ instruction_type.SW
      ∧ (lw_slot a1 dest base da).itype ≠ instruction_type.NOP
      ∧ (rtype_slot a2 ins d r1 r2).itype ≠ instruction_type.BRANCH
      ∧ (rtype_slot a2 ins d r1 r2).itype ≠ instruction_type.LW
      ∧ (rtype_slot a2 ins d r1 r2).itype ≠ instruction_type.SW
      ∧ (rtype_slot a2 ins d r1 r2).itype ≠ instruction_type.NOP := by
  refine ⟨?_, ?_, ?_, ?_, ?_, ?_, ?_, ?_, ?_, ?_⟩ <;>
    (intro h; exact absurd h (by simp [zero_slot, lw_slot, rtype_slot]))

/-- C20 (amended): from a state with an empty pipeline, a LW followed by an RTYPE
and drained by `iplc_sim_finalize` costs 7 cycles (modulo 2^32) whether or not
the RTYPE reads the `dest_reg` of the LW.  The two `process_*` calls and the first
two calls of the drain find no stall; the third call of the drain finds the
RTYPE already in ALU and the LW in MEM, and its stall is 1 exactly when `reg1` or
`reg2_or_constant` of the RTYPE is the `dest_reg` of the LW. -/
theorem load_use_drain (s : State) (a1 a2 : Nat) (dest base : Int) (da : Nat) (ins : String)
    (d r1 r2 : Int) (hempty : s.pipeline = empty_bank) :
    (iplc_sim_finalize (lw_then_rtype s a1 a2 dest base da ins d r1 r2)).pipeline_cycles
        = (s.pipeline_cycles + 7) % U32
      ∧ (lw_then_rtype s a1 a2 dest base da ins d r1 r2).pipeline
        = { FETCH := rtype_slot a2 ins d r1 r2, DECODE := lw_slot a1 dest base da,
            ALU := zero_slot, MEM := zero_slot, WRITEBACK := zero_slot }
      ∧ (lw_then_rtype s a1 a2 dest base da ins d r1 r2).pipeline_cycles
        = (s.pipeline_cycles + 2) % U32
      ∧ push_stall (lw_then_rtype s a1 a2 dest base da ins d r1 r2) = 0
      ∧ push_stall (iplc_sim_push_pipeline_stage
          (lw_then_rtype s a1 a2 dest base da ins d r1 r2)) = 0
      ∧ (iplc_sim_push_pipeline_stage (iplc_sim_push_pipeline_stage
          (lw_then_rtype s a1 a2 dest base da ins d r1 r2))).pipeline
        = { FETCH := zero_slot, DECODE := zero_slot, ALU := rtype_slot a2 ins d r1 r2,
            MEM := lw_slot a1 dest base da, WRITEBACK := zero_slot }
      ∧ push_stall (iplc_sim_push_pipeline_stage (iplc_sim_push_pipeline_stage
          (lw_then_rtype s a1 a2 dest base da ins d r1 r2)))
        = if r1 = dest ∨ r2 = dest then 1 else 0 := by
  obtain ⟨z1, z2, z3, l1, l2, l3, k1, k2, k3, k4⟩ := slot_kinds a1 a2 dest base da ins d r1 r2
  -- the call for the LW
  have hu0 : ({ s with instruction_address := a1 } : State).pipeline = empty_bank := hempty
  have hu0c : ({ s with instruction_address := a1 } : State).pipeline_cycles
      = s.pipeline_cycles := rfl
  have hu0a : ({ s with instruction_address := a1 } : State).instruction_address = a1 := rfl
  have hunf : lw_then_rtype s a1 a2 dest base da ins d r1 r2
      = iplc_sim_process_pipeline_rtype
          { iplc_sim_process_pipeline_lw { s with instruction_address := a1 } dest base da
            with instruction_address := a2 } ins d r1 r2 := rfl
  rw [hunf]
  generalize ({ s with instruction_address := a1 } : State) = u0 at hu0 hu0c hu0a ⊢
  have q0 : push_stall u0 = 0 :=
    push_stall_quiet u0 (by rw [hu0]; exact z1) (by rw [hu0]; exact z2) (by rw [hu0]; exact z3)
  obtain ⟨p0, c0⟩ := push_no_stall u0 q0
  obtain ⟨pl, cl, _⟩ := process_lw_fields u0 dest base da
  rw [p0, hu0, hu0a] at pl
  rw [c0, hu0c] at cl
  have hp1 : (iplc_sim_process_pipeline_lw u0 dest base da).pipeline
      = { FETCH := lw_slot a1 dest base da, DECODE := zero_slot, ALU := zero_slot,
          MEM := zero_slot, WRITEBACK := zero_slot } := pl
  -- the call for the RTYPE
  have hu1 : ({ iplc_sim_process_pipeline_lw u0 dest base da
      with instruction_address := a2 } : State).pipeline
      = { FETCH := lw_slot a1 dest base da, DECODE := zero_slot, ALU := zero_slot,
          MEM := zero_slot, WRITEBACK := zero_slot } := hp1
  have hu1c : ({ iplc_sim_process_pipeline_lw u0 dest base da
      with instruction_address := a2 } : State).pipeline_cycles
      = (s.pipeline_cycles + 1) % U32 := cl
  have hu1a : ({ iplc_sim_process_pipeline_lw u0 dest base da
      with instruction_address := a2 } : State).instruction_address = a2 := rfl
  generalize ({ iplc_sim_process_pipeline_lw u0 dest base da
      with instruction_address := a2 } : State) = u1 at hu1 hu1c hu1a ⊢
  have q1 : push_stall u1 = 0 :=
    push_stall_quiet u1 (by rw [hu1]; exact z1) (by rw [hu1]; exact z2) (by rw [hu1]; exact z3)
  obtain ⟨p1, c1⟩ := push_no_stall u1 q1
  obtain ⟨pr, cr⟩ := process_rtype_fields u1 ins d r1 r2
  rw [p1, hu1, hu1a] at pr
  rw [c1, hu1c] at cr
  have hp2 : (iplc_sim_process_pipeline_rtype u1 ins d r1 r2).pipeline
      = { FETCH := rtype_slot a2 ins d r1 r2, DECODE := lw_slot a1 dest base da,
          ALU := zero_slot, MEM := zero_slot, WRITEBACK := zero_slot } := pr
  have hc2 : (iplc_sim_process_pipeline_rtype u1 ins d r1 r2).pipeline_cycles
      = (s.pipeline_cycles + 2) % U32 := by
    rw [cr]; unfold U32; omega
  generalize iplc_sim_process_pipeline_rtype u1 ins d r1 r2 = t2 at hp2 hc2 ⊢
  -- first call of the drain
  have q2 : push_stall t2 = 0 :=
    push_stall_quiet t2 (by rw [hp2]; exact l1) (by rw [hp2]; exact z2) (by rw [hp2]; exact z3)
  obtain ⟨p2, c2⟩ := push_no_stall t2 q2
  rw [hp2] at p2
  rw [hc2] at c2
  have d2 : drain_cond t2 := Or.inl (by rw [hp2]; exact k4)
  have hp3 : (iplc_sim_push_pipeline_stage t2).pipeline
      = { FETCH := zero_slot, DECODE := rtype_slot a2 ins d r1 r2,
          ALU := lw_slot a1 dest base da, MEM := zero_slot, WRITEBACK := zero_slot } := p2
  rw [finalize_unfold, if_pos d2]
  generalize iplc_sim_push_pipeline_stage t2 = t3 at hp3 c2 ⊢
  -- second call of the drain
  have q3 : push_stall t3 = 0 :=
    push_stall_quiet t3 (by rw [hp3]; exact k1) (by rw [hp3]; exact z2) (by rw [hp3]; exact z3)
  obtain ⟨p3, c3⟩ := push_no_stall t3 q3
  rw [hp3] at p3
  rw [c2] at c3
  have d3 : drain_cond t3 := Or.inr (Or.inl (by rw [hp3]; exact k4))
  have hp4 : (iplc_sim_push_pipeline_stage t3).pipeline
      = { FETCH := zero_slot, DECODE := zero_slot, ALU := rtype_slot a2 ins d r1 r2,
          MEM := lw_slot a1 dest base da, WRITEBACK := zero_slot } := p3
  rw [finalize_unfold, if_pos d3]
  generalize iplc_sim_push_pipeline_stage t3 = t4 at hp4 c3 ⊢
  -- third call of the drain
  have q4 : push_stall t4 = if r1 = dest ∨ r2 = dest then 1 else 0 := by
    rw [push_stall_load_use t4 (by rw [hp4]; exact z1) (by rw [hp4]; exact l2), hp4]
    by_cases hdep : r1 = dest ∨ r2 = dest
    · rw [if_pos hdep, if_pos ⟨rfl, rfl, hdep⟩]
    · rw [if_neg hdep, if_neg (fun h => hdep h.2.2)]
  have d4 : drain_cond t4 := Or.inr (Or.inr (Or.inl (by rw [hp4]; exact k4)))
  refine ⟨?_, hp2, hc2, q2, q3, hp4, q4⟩
  rw [finalize_unfold, if_pos d4]
  by_cases hdep : r1 = dest ∨ r2 = dest
  · -- the stalled call is two rounds, then one more call empties the bank
    rw [if_pos hdep] at q4
    have q4r : push_stall (push_round t4) = 0 :=
      push_stall_quiet _ (by rw [(push_round_fields t4).2.1, hp4]; exact z1)
        (by rw [(push_round_fields t4).2.1, hp4]; exact k2)
        (by rw [(push_round_fields t4).2.1, hp4]; exact k3)
    obtain ⟨p5, c5⟩ := push_one_stall t4 (by rw [q4]; decide) q4r
    rw [hp4] at p5
    rw [c3] at c5
    have hp5 : (iplc_sim_push_pipeline_stage t4).pipeline
        = { FETCH := zero_slot, DECODE := zero_slot, ALU := zero_slot, MEM := zero_slot,
            WRITEBACK := rtype_slot a2 ins d r1 r2 } := p5
    generalize iplc_sim_push_pipeline_stage t4 = t5 at hp5 c5 ⊢
    have d5 : drain_cond t5 := Or.inr (Or.inr (Or.inr (Or.inr (by rw [hp5]; exact k4))))
    rw [finalize_unfold, if_pos d5]
    have q5 : push_stall t5 = 0 :=
      push_stall_quiet t5 (by rw [hp5]; exact z1) (by rw [hp5]; exact z2)
        (by rw [hp5]; exact z3)
    obtain ⟨p6, c6⟩ := push_no_stall t5 q5
    rw [hp5] at p6
    rw [c5] at c6
    have hp6 : (iplc_sim_push_pipeline_stage t5).pipeline = empty_bank := p6
    have d6 : ¬ drain_cond (iplc_sim_push_pipeline_stage t5) := by
      unfold drain_cond
      rw [hp6]
      decide
    rw [finalize_unfold, if_neg d6, c6]
    unfold U32; omega
  · rw [if_neg hdep] at q4
    obtain ⟨p5, c5⟩ := push_no_stall t4 q4
    rw [hp4] at p5
    rw [c3] at c5
    have hp5 : (iplc_sim_push_pipeline_stage t4).pipeline
        = { FETCH := zero_slot, DECODE := zero_slot, ALU := zero_slot,
            MEM := rtype_slot a2 ins d r1 r2, WRITEBACK := lw_slot a1 dest base da } := p5
    generalize iplc_sim_push_pipeline_stage t4 = t5 at hp5 c5 ⊢
    have d5 : drain_cond t5 := Or.inr (Or.inr (Or.inr (Or.inl (by rw [hp5]; exact k4))))
    rw [finalize_unfold, if_pos d5]
    have q5 : push_stall t5 = 0 :=
      push_stall_quiet t5 (by rw [hp5]; exact z1) (by rw [hp5]; exact k2)
        (by rw [hp5]; exact k3)
    obtain ⟨p6, c6⟩ := push_no_stall t5 q5
    rw [hp5] at p6
    rw [c5] at c6
    have hp6 : (iplc_sim_push_pipeline_stage t5).pipeline
        = { FETCH := zero_slot, DECODE := zero_slot, ALU := zero_slot, MEM := zero_slot,
            WRITEBACK := rtype_slot a2 ins d r1 r2 } := p6
    generalize iplc_sim_push_pipeline_stage t5 = t6 at hp6 c6 ⊢
    have d6 : drain_cond t6 := Or.inr (Or.inr (Or.inr (Or.inr (by rw [hp6]; exact k4))))
    rw [finalize_unfold, if_pos d6]
    have q6 : push_stall t6 = 0 :=
      push_stall_quiet t6 (by rw [hp6]; exact z1) (by rw [hp6]; exact z2)
        (by rw [hp6]; exact z3)
    obtain ⟨p7, c7⟩ := push_no_stall t6 q6
    rw [hp6] at p7
    rw [c6] at c7
    have hp7 : (iplc_sim_push_pipeline_stage t6).pipeline = empty_bank := p7
    have d7 : ¬ drain_cond (iplc_sim_push_pipeline_stage t6) := by
      unfold drain_cond
      rw [hp7]
      decide
    rw [finalize_unfold, if_neg d7, c7]
    unfold U32; omega

/-! ## Instances of the pipeline theorems on sample states -/

/-- C14 (instance): the drain of `sample_stall_two` leaves the kind `NOP` in
FETCH and in WRITEBACK. -/
theorem drain_ends_within_five_witness :
    (iplc_sim_finalize sample_stall_two).pipeline.FETCH.itype = instruction_type.NOP
      ∧ (iplc_sim_finalize sample_stall_two).pipeline.WRITEBACK.itype
        = instruction_type.NOP :=
  (drain_ends_within_five sample_stall_two).elim
    (fun _ h => ⟨h.2.2.2.1, h.2.2.2.2.2.2.2⟩)

/-- C15 (instance): from the initial state, an RTYPE at `0x400000` and a LW at
`0x400004` followed by the drain leave `instruction_count = 2`. -/
theorem retirement_count_witness :
    initial_state.pipeline = empty_bank
      ∧ (iplc_sim_finalize (run_calls initial_state
          [(4194304, process_call.rtype "add" 1 2 3),
           (4194308, process_call.lw 8 (-1) 268500992)])).instruction_count
        = (initial_state.instruction_count
            + inserted_nonzero [(4194304, process_call.rtype "add" 1 2 3),
                                (4194308, process_call.lw 8 (-1) 268500992)]) % U32 :=
  ⟨by decide,
   ((retirement_count initial_state
      [(4194304, process_call.rtype "add" 1 2 3), (4194308, process_call.lw 8 (-1) 268500992)]
      (by decide) (by decide)).2.2 (by decide)).2⟩

/-- C19 (instance): on the initial globals and a zeroed heap the three lookups
yield `cache_access = 3`. -/
theorem direct_mapped_scenario_witness :
    iplc_sim_init initial_state zero_heap 2 1 1 = some sample_direct
      ∧ (run_trap sample_direct [0, 16, 0]).cache_access = 3 :=
  ⟨by decide,
   (direct_mapped_scenario initial_state sample_direct zero_heap (by decide)
      ⟨by decide, by decide, by decide⟩).2.2.2.2.1⟩

/-- C20 (instance): from the initial state, `lw $8` at `0x400000` followed by
`add $9, $8, $10` and drained costs `(0 + 7) mod 2^32` cycles. -/
theorem load_use_drain_witness :
    initial_state.pipeline = empty_bank
      ∧ (iplc_sim_finalize
          (lw_then_rtype initial_state 4194304 4194308 8 (-1) 268500992 "add" 9 8 10)).pipeline_cycles
        = (initial_state.pipeline_cycles + 7) % U32 :=
  ⟨by decide,
   (load_use_drain initial_state 4194304 4194308 8 (-1) 268500992 "add" 9 8 10 (by decide)).1⟩

/-! ## One round: the cache and the branch counters -/

/-- A round changes neither the cache nor its counters nor its configuration. -/
theorem push_round_cache (s : State) :
    (push_round s).cache = s.cache
      ∧ (push_round s).cache_access = s.cache_access
      ∧ (push_round s).cache_miss = s.cache_miss
      ∧ (push_round s).cache_hit = s.cache_hit
      ∧ (push_round s).cache_index = s.cache_index
      ∧ (push_round s).cache_blocksize = s.cache_blocksize
      ∧ (push_round s).cache_blockoffsetbits = s.cache_blockoffsetbits
      ∧ (push_round s).cache_assoc = s.cache_assoc := by
  unfold push_round push_shift push_hazards push_branch push_retire
  split_ifs <;> exact ⟨rfl, rfl, rfl, rfl, rfl, rfl, rfl, rfl⟩

/-- What one round does to the two branch counters. -/
theorem push_round_branch (s : State) :
    (push_round s).branch_count
        = (if s.pipeline.DECODE.itype = instruction_type.BRANCH then
            (s.branch_count + 1) % U32 else s.branch_count)
      ∧ (push_round s).correct_branch_predictions
        = (if s.pipeline.DECODE.itype = instruction_type.BRANCH
              ∧ (s.pipeline.FETCH.instruction_address
                    ≠ (s.pipeline.DECODE.instruction_address + 4) % U32
                  ↔ s.branch_predict_taken ≠ 0)
            then (s.correct_branch_predictions + 1) % U32
            else s.correct_branch_predictions) := by
  unfold push_round push_shift push_hazards push_branch push_retire branch_taken
  split_ifs <;> simp_all

/-! ## A call without a stall -/

/-- C22: from a state in which the hazard detector finds no stall, one call of
`iplc_sim_push_pipeline_stage` leaves WRITEBACK = old MEM, MEM = old ALU,
ALU = old DECODE, DECODE = old FETCH and FETCH = the cleared slot (kind `NOP`,
address 0); the old WRITEBACK is in no slot any more (it is counted as retired
when its address is not 0); `pipeline_cycles` grows by exactly 1 (as an
`unsigned int`, that is modulo 2^32); the cache, its counters and its
configuration are unchanged. -/
theorem push_without_stall_shifts (s : State) (h : push_stall s = 0) :
    (iplc_sim_push_pipeline_stage s).pipeline
        = { WRITEBACK := s.pipeline.MEM, MEM := s.pipeline.ALU, ALU := s.pipeline.DECODE,
            DECODE := s.pipeline.FETCH, FETCH := zero_slot }
      ∧ (iplc_sim_push_pipeline_stage s).pipeline.FETCH.itype = instruction_type.NOP
      ∧ (iplc_sim_push_pipeline_stage s).pipeline.FETCH.instruction_address = 0
      ∧ (iplc_sim_push_pipeline_stage s).pipeline_cycles = (s.pipeline_cycles + 1) % U32
      ∧ (s.pipeline_cycles + 1 < U32 →
          (iplc_sim_push_pipeline_stage s).pipeline_cycles = s.pipeline_cycles + 1)
      ∧ (iplc_sim_push_pipeline_stage s).instruction_count
          = (if s.pipeline.WRITEBACK.instruction_address ≠ 0 then
              (s.instruction_count + 1) % U32 else s.instruction_count)
      ∧ (iplc_sim_push_pipeline_stage s).cache = s.cache
      ∧ (iplc_sim_push_pipeline_stage s).cache_access = s.cache_access
      ∧ (iplc_sim_push_pipeline_stage s).cache_miss = s.cache_miss
      ∧ (iplc_sim_push_pipeline_stage s).cache_hit = s.cache_hit
      ∧ (iplc_sim_push_pipeline_stage s).cache_index = s.cache_index
      ∧ (iplc_sim_push_pipeline_stage s).cache_blocksize = s.cache_blocksize
      ∧ (iplc_sim_push_pipeline_stage s).cache_blockoffsetbits = s.cache_blockoffsetbits
      ∧ (iplc_sim_push_pipeline_stage s).cache_assoc = s.cache_assoc := by
  have hp : iplc_sim_push_pipeline_stage s = push_round s := by
    rw [push_unfold, if_neg (fun hn => hn h)]
  rw [hp]
  obtain ⟨hc, hpipe, hic, _, _, _⟩ := push_round_fields s
  obtain ⟨c1, c2, c3, c4, c5, c6, c7, c8⟩ := push_round_cache s
  refine ⟨hpipe, ?_, ?_, hc, ?_, hic, c1, c2, c3, c4, c5, c6, c7, c8⟩
  · rw [hpipe]; rfl
  · rw [hpipe]; rfl
  · intro hlt
    rw [hc, Nat.mod_eq_of_lt hlt]

/-! ## The insertion of an instruction -/

/-- C23: each `process_*` function leaves the state that one call of
`iplc_sim_push_pipeline_stage` leaves, with FETCH alone written: FETCH is the
cleared slot with the kind of the function, the value of the global
`instruction_address` and the operands given; DECODE, ALU, MEM, WRITEBACK, the
cache, its configuration and every counter are as the call left them. -/
theorem process_inserts_into_fetch (s : State) :
    (∀ (instruction : String) (dest_reg reg1 reg2_or_constant : Int),
        iplc_sim_process_pipeline_rtype s instruction dest_reg reg1 reg2_or_constant
          = with_fetch (iplc_sim_push_pipeline_stage s)
              (rtype_slot s.instruction_address instruction dest_reg reg1 reg2_or_constant))
      ∧ (∀ (dest_reg base_reg : Int) (data_address : Nat),
          iplc_sim_process_pipeline_lw s dest_reg base_reg data_address
            = with_fetch (iplc_sim_push_pipeline_stage s)
                (lw_slot s.instruction_address dest_reg base_reg data_address))
      ∧ (∀ (src_reg base_reg : Int) (data_address : Nat),
          iplc_sim_process_pipeline_sw s src_reg base_reg data_address
            = with_fetch (iplc_sim_push_pipeline_stage s)
                (sw_slot s.instruction_address src_reg base_reg data_address))
      ∧ (∀ (reg1 reg2 : Int),
          iplc_sim_process_pipeline_branch s reg1 reg2
            = with_fetch (iplc_sim_push_pipeline_stage s)
                (branch_slot s.instruction_address reg1 reg2))
      ∧ (∀ (instruction : String),
          iplc_sim_process_pipeline_jump s instruction
            = with_fetch (iplc_sim_push_pipeline_stage s)
                (jump_slot s.instruction_address instruction))
      ∧ iplc_sim_process_pipeline_syscall s
          = with_fetch (iplc_sim_push_pipeline_stage s) (syscall_slot s.instruction_address)
      ∧ iplc_sim_process_pipeline_nop s
          = with_fetch (iplc_sim_push_pipeline_stage s) (nop_slot s.instruction_address)
      ∧ ∀ (t : State) (slot : pipeline_t),
          (with_fetch t slot).pipeline.FETCH = slot
            ∧ (with_fetch t slot).pipeline.DECODE = t.pipeline.DECODE
            ∧ (with_fetch t slot).pipeline.ALU = t.pipeline.ALU
            ∧ (with_fetch t slot).pipeline.MEM = t.pipeline.MEM
            ∧ (with_fetch t slot).pipeline.WRITEBACK = t.pipeline.WRITEBACK
            ∧ (with_fetch t slot).cache = t.cache
            ∧ (with_fetch t slot).cache_index = t.cache_index
            ∧ (with_fetch t slot).cache_blocksize = t.cache_blocksize
            ∧ (with_fetch t slot).cache_blockoffsetbits = t.cache_blockoffsetbits
            ∧ (with_fetch t slot).cache_assoc = t.cache_assoc
            ∧ (with_fetch t slot).cache_access = t.cache_access
            ∧ (with_fetch t slot).cache_miss = t.cache_miss
            ∧ (with_fetch t slot).cache_hit = t.cache_hit
            ∧ (with_fetch t slot).pipeline_cycles = t.pipeline_cycles
            ∧ (with_fetch t slot).instruction_count = t.instruction_count
            ∧ (with_fetch t slot).branch_count = t.branch_count
            ∧ (with_fetch t slot).correct_branch_predictions = t.correct_branch_predictions
            ∧ (with_fetch t slot).branch_predict_taken = t.branch_predict_taken
            ∧ (with_fetch t slot).instruction_address = t.instruction_address
            ∧ (with_fetch t slot).inst_stats = t.inst_stats := by
  have hf := push_fetch_cleared s
  have ha := push_instruction_address s
  refine ⟨?_, ?_, ?_, ?_, ?_, ?_, ?_, ?_⟩
  · intro instruction dest_reg reg1 reg2_or_constant
    unfold iplc_sim_process_pipeline_rtype rtype_slot with_fetch
    simp only []
    generalize iplc_sim_push_pipeline_stage s = s1 at hf ha ⊢
    rw [hf, ha]
  · intro dest_reg base_reg data_address
    unfold iplc_sim_process_pipeline_lw lw_slot with_fetch
    simp only []
    generalize iplc_sim_push_pipeline_stage s = s1 at hf ha ⊢
    rw [hf, ha]
  · intro src_reg base_reg data_address
    unfold iplc_sim_process_pipeline_sw sw_slot with_fetch
    simp only []
    generalize iplc_sim_push_pipeline_stage s = s1 at hf ha ⊢
    rw [hf, ha]
  · intro reg1 reg2
    unfold iplc_sim_process_pipeline_branch branch_slot with_fetch
    simp only []
    generalize iplc_sim_push_pipeline_stage s = s1 at hf ha ⊢
    rw [hf, ha]
  · intro instruction
    unfold iplc_sim_process_pipeline_jump jump_slot with_fetch
    simp only []
    generalize iplc_sim_push_pipeline_stage s = s1 at hf ha ⊢
    rw [hf, ha]
  · unfold iplc_sim_process_pipeline_syscall syscall_slot with_fetch
    simp only []
    generalize iplc_sim_push_pipeline_stage s = s1 at hf ha ⊢
    rw [hf, ha]
  · unfold iplc_sim_process_pipeline_nop nop_slot with_fetch
    simp only []
    generalize iplc_sim_push_pipeline_stage s = s1 at hf ha ⊢
    rw [hf, ha]
  · intro t slot
    exact ⟨rfl, rfl, rfl, rfl, rfl, rfl, rfl, rfl, rfl, rfl, rfl, rfl, rfl, rfl, rfl, rfl,
      rfl, rfl, rfl, rfl⟩

/-! ## The depth of the recursion -/

/-- C26: from every state (whatever `branch_predict_taken` is) a call of
`iplc_sim_push_pipeline_stage` returns: three levels of calls, the top-level
call and at most two nested ones, are enough, because after a call that stalled
and a nested call that stalled the next nested call finds no stall; the call is
one, two or three rounds and advances `pipeline_cycles` by 1, 2 or 3 (as an
`unsigned int`, that is modulo 2^32). -/
theorem push_returns_within_three_rounds (s : State) (n : Nat) :
    push_fuel (n + 3) s = some (iplc_sim_push_pipeline_stage s)
      ∧ (∃ d, 1 ≤ d ∧ d ≤ 3
          ∧ iplc_sim_push_pipeline_stage s = push_round^[d] s
          ∧ (iplc_sim_push_pipeline_stage s).pipeline_cycles = (s.pipeline_cycles + d) % U32
          ∧ (s.pipeline_cycles + 3 < U32 →
              s.pipeline_cycles + 1 ≤ (iplc_sim_push_pipeline_stage s).pipeline_cycles
              ∧ (iplc_sim_push_pipeline_stage s).pipeline_cycles ≤ s.pipeline_cycles + 3))
      ∧ (push_stall s ≠ 0 → push_stall (push_round s) ≠ 0 →
          push_stall (push_round (push_round s)) = 0) := by
  have hc : ∀ t : State, (push_round t).pipeline_cycles = (t.pipeline_cycles + 1) % U32 :=
    fun t => (push_round_fields t).1
  refine ⟨push_fuel_enough s (n + 3) (by omega), ?_, fun _ h1 => push_stall_third s h1⟩
  rcases push_rounds s with ⟨_, h1⟩ | ⟨_, _, h1⟩ | ⟨_, _, h1⟩
  · refine ⟨1, le_refl _, by omega, h1, ?_, ?_⟩
    · rw [h1, hc]
    · intro hlt
      rw [h1, hc]
      unfold U32 at hlt ⊢
      omega
  · refine ⟨2, by omega, by omega, h1, ?_, ?_⟩
    · rw [h1, hc, hc]
      unfold U32; omega
    · intro hlt
      rw [h1, hc, hc]
      unfold U32 at hlt ⊢
      omega
  · refine ⟨3, by omega, le_refl _, h1, ?_, ?_⟩
    · rw [h1, hc, hc, hc]
      unfold U32; omega
    · intro hlt
      rw [h1, hc, hc, hc]
      unfold U32 at hlt ⊢
      omega

/-! ## A taken branch under the prediction not taken -/

/-- C21 (counterexample): in `sample_two_branches` the prediction is not taken,
DECODE holds a BRANCH at `0x400140`, FETCH holds its successor at `0x400148`
(not the address of the branch plus 4), a BRANCH too, and neither ALU nor MEM
holds an instruction, so there is no load-use and no store hazard; the call
advances `pipeline_cycles` from 11 to 14, by 3 and not by 2: the nested call
evaluates the successor against the cleared FETCH and stalls again. -/
theorem successor_branch_costs_third_cycle :
    sample_two_branches.branch_predict_taken = 0
      ∧ sample_two_branches.pipeline.DECODE.itype = instruction_type.BRANCH
      ∧ sample_two_branches.pipeline.DECODE.instruction_address = 4194624
      ∧ sample_two_branches.pipeline.FETCH.itype = instruction_type.BRANCH
      ∧ sample_two_branches.pipeline.FETCH.instruction_address = 4194632
      ∧ sample_two_branches.pipeline.ALU = zero_slot
      ∧ sample_two_branches.pipeline.MEM = zero_slot
      ∧ sample_two_branches.pipeline_cycles = 11
      ∧ (iplc_sim_push_pipeline_stage sample_two_branches).pipeline_cycles = 14 := by
  decide

/-- The stall of the round that follows a round whose DECODE held a BRANCH: the
BRANCH is in ALU now, so only a BRANCH in the new DECODE (the old FETCH),
compared with the cleared FETCH, can stall. -/
theorem push_stall_after_branch (s : State)
    (hb : s.pipeline.DECODE.itype = instruction_type.BRANCH) :
    push_stall (push_round s)
      = (if s.pipeline.FETCH.itype = instruction_type.BRANCH
            ∧ ¬ (0 ≠ (s.pipeline.FETCH.instruction_address + 4) % U32
                  ↔ s.branch_predict_taken ≠ 0)
          then 1 else 0) := by
  rw [push_stall_formula, (push_round_fields s).2.1, (push_round_fields s).2.2.2.2.2]
  have h2 : ¬ (s.pipeline.ALU.itype = instruction_type.LW
      ∧ s.pipeline.DECODE.itype = instruction_type.RTYPE
      ∧ (s.pipeline.DECODE.rtype.reg1 = s.pipeline.ALU.lw.dest_reg
          ∨ s.pipeline.DECODE.rtype.reg2_or_constant = s.pipeline.ALU.lw.dest_reg)) := by
    rw [hb]; exact fun h => absurd h.2.1 (by decide)
  have h3 : ¬ (s.pipeline.ALU.itype = instruction_type.SW
      ∧ s.pipeline.DECODE.itype = instruction_type.RTYPE
      ∧ s.pipeline.DECODE.rtype.dest_reg = s.pipeline.ALU.sw.base_reg) := by
    rw [hb]; exact fun h => absurd h.2.1 (by decide)
  show (if s.pipeline.FETCH.itype = instruction_type.BRANCH
            ∧ ¬ (zero_slot.instruction_address
                    ≠ (s.pipeline.FETCH.instruction_address + 4) % U32
                  ↔ s.branch_predict_taken ≠ 0)
          then 1 else 0)
        + (if s.pipeline.ALU.itype = instruction_type.LW
            ∧ s.pipeline.DECODE.itype = instruction_type.RTYPE
            ∧ (s.pipeline.DECODE.rtype.reg1 = s.pipeline.ALU.lw.dest_reg
                ∨ s.pipeline.DECODE.rtype.reg2_or_constant = s.pipeline.ALU.lw.dest_reg)
          then 1 else 0)
        + (if s.pipeline.ALU.itype = instruction_type.SW
            ∧ s.pipeline.DECODE.itype = instruction_type.RTYPE
            ∧ s.pipeline.DECODE.rtype.dest_reg = s.pipeline.ALU.sw.base_reg
          then 1 else 0) = _
  rw [if_neg h2, if_neg h3, Nat.add_zero, Nat.add_zero]
  rfl

/-- C21 (amended): with the prediction not taken, when DECODE holds a BRANCH and
the address in FETCH is not the address of the branch plus 4, the round that
evaluates the branch counts it in `branch_count`, leaves
`correct_branch_predictions` unchanged and stalls, so the call makes one nested
call (whether or not a load-use or store hazard is present as well).  When the
successor in FETCH is not a BRANCH the call is two rounds: `pipeline_cycles`
advances by 2 and `correct_branch_predictions` is unchanged.  When the successor
is a BRANCH, the nested call evaluates it against the cleared FETCH: if its
address plus 4 is not 0 (modulo 2^32) it is mispredicted as well and
`pipeline_cycles` advances by 3; if its address plus 4 is 0 the advance is 2 and
`correct_branch_predictions` grows by 1. -/
theorem taken_branch_predicted_not_taken (s : State)
    (hp : s.branch_predict_taken = 0)
    (hb : s.pipeline.DECODE.itype = instruction_type.BRANCH)
    (ht : s.pipeline.FETCH.instruction_address
      ≠ (s.pipeline.DECODE.instruction_address + 4) % U32) :
    push_stall s ≠ 0
      ∧ (push_round s).branch_count = (s.branch_count + 1) % U32
      ∧ (push_round s).correct_branch_predictions = s.correct_branch_predictions
      ∧ iplc_sim_push_pipeline_stage s = iplc_sim_push_pipeline_stage (push_round s)
      ∧ (s.pipeline.FETCH.itype ≠ instruction_type.BRANCH →
          iplc_sim_push_pipeline_stage s = push_round (push_round s)
          ∧ (iplc_sim_push_pipeline_stage s).pipeline_cycles = (s.pipeline_cycles + 2) % U32
          ∧ (iplc_sim_push_pipeline_stage s).correct_branch_predictions
              = s.correct_branch_predictions
          ∧ (iplc_sim_push_pipeline_stage s).branch_count = (s.branch_count + 1) % U32)
      ∧ (s.pipeline.FETCH.itype = instruction_type.BRANCH →
          (s.pipeline.FETCH.instruction_address + 4) % U32 ≠ 0 →
          iplc_sim_push_pipeline_stage s = push_round (push_round (push_round s))
          ∧ (iplc_sim_push_pipeline_stage s).pipeline_cycles = (s.pipeline_cycles + 3) % U32
          ∧ (iplc_sim_push_pipeline_stage s).correct_branch_predictions
              = s.correct_branch_predictions
          ∧ (iplc_sim_push_pipeline_stage s).branch_count = (s.branch_count + 2) % U32)
      ∧ (s.pipeline.FETCH.itype = instruction_type.BRANCH →
          (s.pipeline.FETCH.instruction_address + 4) % U32 = 0 →
          iplc_sim_push_pipeline_stage s = push_round (push_round s)
          ∧ (iplc_sim_push_pipeline_stage s).pipeline_cycles = (s.pipeline_cycles + 2) % U32
          ∧ (iplc_sim_push_pipeline_stage s).correct_branch_predictions
              = (s.correct_branch_predictions + 1) % U32
          ∧ (iplc_sim_push_pipeline_stage s).branch_count = (s.branch_count + 2) % U32) := by
  have hc : ∀ t : State, (push_round t).pipeline_cycles = (t.pipeline_cycles + 1) % U32 :=
    fun t => (push_round_fields t).1
  have hnp : ¬ (s.branch_predict_taken ≠ 0) := fun h => h hp
  -- the first round
  have h0 : push_stall s ≠ 0 := by
    rw [push_stall_formula]
    have h1 : s.pipeline.DECODE.itype = instruction_type.BRANCH
        ∧ ¬ (s.pipeline.FETCH.instruction_address
                ≠ (s.pipeline.DECODE.instruction_address + 4) % U32
              ↔ s.branch_predict_taken ≠ 0) := ⟨hb, fun h => hnp (h.mp ht)⟩
    rw [if_pos h1]
    omega
  have hbc1 : (push_round s).branch_count = (s.branch_count + 1) % U32 := by
    rw [(push_round_branch s).1, if_pos hb]
  have hcb1 : (push_round s).correct_branch_predictions = s.correct_branch_predictions := by
    have h1 : ¬ (s.pipeline.DECODE.itype = instruction_type.BRANCH
        ∧ (s.pipeline.FETCH.instruction_address
                ≠ (s.pipeline.DECODE.instruction_address + 4) % U32
              ↔ s.branch_predict_taken ≠ 0)) := fun h => hnp (h.2.mp ht)
    rw [(push_round_branch s).2, if_neg h1]
  have hunf : iplc_sim_push_pipeline_stage s = iplc_sim_push_pipeline_stage (push_round s) := by
    rw [push_unfold s, if_pos h0]
  -- the pipeline and the prediction after the first and the second round
  have hp1 : (push_round s).pipeline
      = { WRITEBACK := s.pipeline.MEM, MEM := s.pipeline.ALU, ALU := s.pipeline.DECODE,
          DECODE := s.pipeline.FETCH, FETCH := zero_slot } := (push_round_fields s).2.1
  have hd1 : (push_round s).pipeline.DECODE = s.pipeline.FETCH := by rw [hp1]
  have hf1 : (push_round s).pipeline.FETCH = zero_slot := by rw [hp1]
  have hpt1 : (push_round s).branch_predict_taken = 0 := by
    rw [(push_round_fields s).2.2.2.2.2, hp]
  have hd2 : (push_round (push_round s)).pipeline.DECODE = zero_slot := by
    rw [(push_round_fields (push_round s)).2.1]
    exact hf1
  have hs1 := push_stall_after_branch s hb
  refine ⟨h0, hbc1, hcb1, hunf, ?_, ?_, ?_⟩
  · intro hk
    have h1 : push_stall (push_round s) = 0 := by
      rw [hs1, if_neg (fun h => hk h.1)]
    have h2 : iplc_sim_push_pipeline_stage s = push_round (push_round s) := by
      rw [hunf, push_unfold (push_round s), if_neg (fun h => h h1)]
    have hk1 : ¬ ((push_round s).pipeline.DECODE.itype = instruction_type.BRANCH) := by
      rw [hd1]; exact hk
    refine ⟨h2, ?_, ?_, ?_⟩
    · rw [h2, hc, hc]
      unfold U32; omega
    · rw [h2, (push_round_branch (push_round s)).2, if_neg (fun h => hk1 h.1), hcb1]
    · rw [h2, (push_round_branch (push_round s)).1, if_neg hk1, hbc1]
  · intro hk hne
    have hk1 : (push_round s).pipeline.DECODE.itype = instruction_type.BRANCH := by
      rw [hd1]; exact hk
    have h1 : push_stall (push_round s) ≠ 0 := by
      have h3 : s.pipeline.FETCH.itype = instruction_type.BRANCH
          ∧ ¬ (0 ≠ (s.pipeline.FETCH.instruction_address + 4) % U32
                ↔ s.branch_predict_taken ≠ 0) := ⟨hk, fun h => hnp (h.mp (Ne.symm hne))⟩
      rw [hs1, if_pos h3]
      omega
    have h2s := push_stall_third s h1
    have h2 : iplc_sim_push_pipeline_stage s = push_round (push_round (push_round s)) := by
      rw [hunf, push_unfold (push_round s), if_pos h1,
        push_unfold (push_round (push_round s)), if_neg (fun h => h h2s)]
    have hk2 : ¬ ((push_round (push_round s)).pipeline.DECODE.itype
        = instruction_type.BRANCH) := by
      rw [hd2]; decide
    have hcb2 : (push_round (push_round s)).correct_branch_predictions
        = s.correct_branch_predictions := by
      have h4 : ¬ ((push_round s).pipeline.DECODE.itype = instruction_type.BRANCH
          ∧ ((push_round s).pipeline.FETCH.instruction_address
                  ≠ ((push_round s).pipeline.DECODE.instruction_address + 4) % U32
                ↔ (push_round s).branch_predict_taken ≠ 0)) := by
        rw [hd1, hf1, hpt1]
        intro h
        exact absurd rfl (h.2.mp (Ne.symm hne))
      rw [(push_round_branch (push_round s)).2, if_neg h4, hcb1]
    have hbc2 : (push_round (push_round s)).branch_count = (s.branch_count + 2) % U32 := by
      rw [(push_round_branch (push_round s)).1, if_pos hk1, hbc1]
      unfold U32; omega
    refine ⟨h2, ?_, ?_, ?_⟩
    · rw [h2, hc, hc, hc]
      unfold U32; omega
    · rw [h2, (push_round_branch (push_round (push_round s))).2,
        if_neg (fun h => hk2 h.1), hcb2]
    · rw [h2, (push_round_branch (push_round (push_round s))).1, if_neg hk2, hbc2]
  · intro hk hz
    have hk1 : (push_round s).pipeline.DECODE.itype = instruction_type.BRANCH := by
      rw [hd1]; exact hk
    have h1 : push_stall (push_round s) = 0 := by
      have h3 : ¬ (s.pipeline.FETCH.itype = instruction_type.BRANCH
          ∧ ¬ (0 ≠ (s.pipeline.FETCH.instruction_address + 4) % U32
                ↔ s.branch_predict_taken ≠ 0)) := by
        intro h
        apply h.2
        constructor
        · intro h5; exact absurd hz.symm h5
        · intro h5; exact absurd h5 hnp
      rw [hs1, if_neg h3]
    have h2 : iplc_sim_push_pipeline_stage s = push_round (push_round s) := by
      rw [hunf, push_unfold (push_round s), if_neg (fun h => h h1)]
    refine ⟨h2, ?_, ?_, ?_⟩
    · rw [h2, hc, hc]
      unfold U32; omega
    · have h4 : (push_round s).pipeline.DECODE.itype = instruction_type.BRANCH
          ∧ ((push_round s).pipeline.FETCH.instruction_address
                  ≠ ((push_round s).pipeline.DECODE.instruction_address + 4) % U32
                ↔ (push_round s).branch_predict_taken ≠ 0) := by
        refine ⟨hk1, ?_⟩
        rw [hd1, hf1, hpt1, hz]
        constructor
        · intro h5; exact absurd rfl h5
        · intro h5; exact absurd rfl h5
      rw [h2, (push_round_branch (push_round s)).2, if_pos h4, hcb1]
    · rw [h2, (push_round_branch (push_round s)).1, if_pos hk1, hbc1]
      unfold U32; omega

/-- C21 (instance): in `sample_two_branches` the successor is a BRANCH at
`0x400148`, and the call advances `pipeline_cycles` by 3. -/
theorem taken_branch_predicted_not_taken_witness :
    sample_two_branches.branch_predict_taken = 0
      ∧ sample_two_branches.pipeline.DECODE.itype = instruction_type.BRANCH
      ∧ (iplc_sim_push_pipeline_stage sample_two_branches).pipeline_cycles
        = (sample_two_branches.pipeline_cycles + 3) % U32 :=
  ⟨by decide, by decide,
   ((taken_branch_predicted_not_taken sample_two_branches (by decide) (by decide)
      (by decide)).2.2.2.2.2.1 (by decide) (by decide)).2.1⟩

/-! ## A branch followed by a fetch miss -/

/-- A lookup changes the cache and its counters only. -/
theorem trap_address_pipeline (s : State) (address : Nat) :
    (iplc_sim_trap_address s address).2.pipeline = s.pipeline
      ∧ (iplc_sim_trap_address s address).2.branch_predict_taken = s.branch_predict_taken
      ∧ (iplc_sim_trap_address s address).2.instruction_address = s.instruction_address
      ∧ (iplc_sim_trap_address s address).2.pipeline_cycles = s.pipeline_cycles
      ∧ (iplc_sim_trap_address s address).2.branch_count = s.branch_count
      ∧ (iplc_sim_trap_address s address).2.correct_branch_predictions
        = s.correct_branch_predictions := by
  cases h : trap_loop (cache_set s (trap_index s address)) (trap_tag s address) s.cache_assoc 0 with
  | some a => rw [trap_address_hit s address a h]; exact ⟨rfl, rfl, rfl, rfl, rfl, rfl⟩
  | none => rw [trap_address_miss s address h]; exact ⟨rfl, rfl, rfl, rfl, rfl, rfl⟩

theorem miss_burn_eq (t : State) : miss_burn t = iplc_sim_push_pipeline_stage^[9] t := by
  unfold miss_burn
  rw [miss_burn_trace_eq]
  rfl

theorem iterate_push_instruction_address (n : Nat) (s : State) :
    (iplc_sim_push_pipeline_stage^[n] s).instruction_address = s.instruction_address := by
  induction n generalizing s with
  | zero => rfl
  | succ n ih =>
    rw [Function.iterate_succ_apply, ih, push_instruction_address]

theorem process_branch_eq (s : State) (reg1 reg2 : Int) :
    iplc_sim_process_pipeline_branch s reg1 reg2
      = with_fetch (iplc_sim_push_pipeline_stage s)
          (branch_slot s.instruction_address reg1 reg2) := by
  have hf := push_fetch_cleared s
  have ha := push_instruction_address s
  unfold iplc_sim_process_pipeline_branch branch_slot with_fetch
  simp only []
  generalize iplc_sim_push_pipeline_stage s = s1 at hf ha ⊢
  rw [hf, ha]

/-- The trace line of a branch at address `b` leaves the BRANCH in FETCH. -/
theorem parse_branch_fetch (s0 : State) (b : Nat) (reg1 reg2 : Int) :
    (iplc_sim_parse_instruction s0 b (process_call.branch reg1 reg2)).pipeline.FETCH
      = branch_slot b reg1 reg2 := by
  have ha : (iplc_sim_trap_address { s0 with instruction_address := b } b).2.instruction_address
      = b := (trap_address_pipeline _ b).2.2.1
  unfold iplc_sim_parse_instruction
  simp only []
  split
  · show (iplc_sim_process_pipeline_branch _ reg1 reg2).pipeline.FETCH = _
    rw [process_branch_eq, miss_burn_eq, iterate_push_instruction_address, ha]
    rfl
  · show (iplc_sim_process_pipeline_branch _ reg1 reg2).pipeline.FETCH = _
    rw [process_branch_eq, ha]
    rfl

/-- C27: after the trace line of a branch at address `b`, when the lookup of
the next trace line (at any address `a`, also `b + 4`) misses, the miss loop
runs before the next instruction is inserted.  With `t` the state after the
lookup and `u` the state after the first round of the loop, the function runs
on `u` during the loop: as the call nested in the first call of the loop when
the first round stalls, as the second call of the loop when it does not.  In
`u` the BRANCH is in DECODE and FETCH is the cleared slot (address 0), so the
branch counts as taken exactly when `b + 4` is not 0 modulo 2^32; with the
prediction not taken the round on `u` then counts the branch in `branch_count`,
leaves `correct_branch_predictions` unchanged and stalls. -/
theorem branch_evaluated_in_miss_burn (s0 : State) (b : Nat) (reg1 reg2 : Int) (a : Nat)
    (c : process_call)
    (hmiss : (iplc_sim_trap_address
      { iplc_sim_parse_instruction s0 b (process_call.branch reg1 reg2) with
        instruction_address := a } a).1 = 0) :
    (iplc_sim_parse_instruction s0 b (process_call.branch reg1 reg2)).pipeline.FETCH
        = branch_slot b reg1 reg2
      ∧ iplc_sim_parse_instruction
          (iplc_sim_parse_instruction s0 b (process_call.branch reg1 reg2)) a c
        = dispatch
            (miss_burn (iplc_sim_trap_address
              { iplc_sim_parse_instruction s0 b (process_call.branch reg1 reg2) with
                instruction_address := a } a).2) c
      ∧ ∀ t, t = (iplc_sim_trap_address
            { iplc_sim_parse_instruction s0 b (process_call.branch reg1 reg2) with
              instruction_address := a } a).2 →
          miss_burn t = iplc_sim_push_pipeline_stage^[9] t
          ∧ (push_stall t ≠ 0 →
              iplc_sim_push_pipeline_stage t = iplc_sim_push_pipeline_stage (push_round t))
          ∧ (push_stall t = 0 →
              iplc_sim_push_pipeline_stage t = push_round t
              ∧ iplc_sim_push_pipeline_stage^[2] t
                = iplc_sim_push_pipeline_stage (push_round t))
          ∧ (push_round t).pipeline.DECODE = branch_slot b reg1 reg2
          ∧ (push_round t).pipeline.DECODE.itype = instruction_type.BRANCH
          ∧ (push_round t).pipeline.DECODE.instruction_address = b
          ∧ (push_round t).pipeline.FETCH = zero_slot
          ∧ (push_round t).pipeline.FETCH.instruction_address = 0
          ∧ (branch_taken (push_round t) ≠ 0 ↔ (b + 4) % U32 ≠ 0)
          ∧ (t.branch_predict_taken = 0 → (b + 4) % U32 ≠ 0 →
              push_stall (push_round t) ≠ 0
              ∧ (push_round (push_round t)).branch_count
                  = ((push_round t).branch_count + 1) % U32
              ∧ (push_round (push_round t)).correct_branch_predictions
                  = (push_round t).correct_branch_predictions) := by
  have hfetch := parse_branch_fetch s0 b reg1 reg2
  refine ⟨hfetch, ?_, ?_⟩
  · unfold iplc_sim_parse_instruction at hmiss ⊢
    simp only [] at hmiss ⊢
    rw [if_pos hmiss]
  · generalize iplc_sim_parse_instruction s0 b (process_call.branch reg1 reg2) = s at hfetch hmiss ⊢
    intro t ht
    have htp : t.pipeline = s.pipeline := by
      rw [ht]; exact (trap_address_pipeline _ a).1
    have hp1 : (push_round t).pipeline
        = { WRITEBACK := t.pipeline.MEM, MEM := t.pipeline.ALU, ALU := t.pipeline.DECODE,
            DECODE := t.pipeline.FETCH, FETCH := zero_slot } := (push_round_fields t).2.1
    have hd : (push_round t).pipeline.DECODE = branch_slot b reg1 reg2 := by
      rw [hp1]
      show t.pipeline.FETCH = _
      rw [htp, hfetch]
    have hf : (push_round t).pipeline.FETCH = zero_slot := by rw [hp1]
    have hpt : (push_round t).branch_predict_taken = t.branch_predict_taken :=
      (push_round_fields t).2.2.2.2.2
    have htaken : branch_taken (push_round t) ≠ 0 ↔ (b + 4) % U32 ≠ 0 := by
      unfold branch_taken
      rw [hd, hf]
      show (if (0 : Nat) ≠ (b + 4) % U32 then 1 else 0) ≠ 0 ↔ _
      constructor
      · intro h hz
        rw [hz] at h
        exact h rfl
      · intro h
        rw [if_pos (Ne.symm h)]
        decide
    refine ⟨miss_burn_eq t, ?_, ?_, hd, by rw [hd]; rfl, by rw [hd]; rfl, hf,
      by rw [hf]; rfl, htaken, ?_⟩
    · intro h0
      rw [push_unfold t, if_pos h0]
    · intro h0
      have h1 : iplc_sim_push_pipeline_stage t = push_round t := by
        rw [push_unfold t, if_neg (fun h => h h0)]
      refine ⟨h1, ?_⟩
      show iplc_sim_push_pipeline_stage (iplc_sim_push_pipeline_stage t) = _
      rw [h1]
    · intro hnt hne
      have hnp : ¬ ((push_round t).branch_predict_taken ≠ 0) := by
        rw [hpt, hnt]; exact fun h => h rfl
      have hkind : (push_round t).pipeline.DECODE.itype = instruction_type.BRANCH := by
        rw [hd]; rfl
      have haddr : (push_round t).pipeline.FETCH.instruction_address
          ≠ ((push_round t).pipeline.DECODE.instruction_address + 4) % U32 := by
        rw [hd, hf]
        exact Ne.symm hne
      refine ⟨?_, ?_, ?_⟩
      · rw [push_stall_formula]
        have h1 : (push_round t).pipeline.DECODE.itype = instruction_type.BRANCH
            ∧ ¬ ((push_round t).pipeline.FETCH.instruction_address
                    ≠ ((push_round t).pipeline.DECODE.instruction_address + 4) % U32
                  ↔ (push_round t).branch_predict_taken ≠ 0) :=
          ⟨hkind, fun h => hnp (h.mp haddr)⟩
        rw [if_pos h1]
        omega
      · rw [(push_round_branch (push_round t)).1, if_pos hkind]
      · have h1 : ¬ ((push_round t).pipeline.DECODE.itype = instruction_type.BRANCH
            ∧ ((push_round t).pipeline.FETCH.instruction_address
                    ≠ ((push_round t).pipeline.DECODE.instruction_address + 4) % U32
                  ↔ (push_round t).branch_predict_taken ≠ 0)) :=
          fun h => hnp (h.2.mp haddr)
        rw [(push_round_branch (push_round t)).2, if_neg h1]

/-! ## A hit on a line of another block -/

/-- C25 (failing input): in the direct-mapped configuration (`index = 2`,
`blocksize = 1`, `assoc = 1`, two block-offset bits), from the empty cache, the
lookup of address `0x00` misses and the lookup of address `0x04` that follows
hits, although `0x04` is in block 1 and `0x00` in block 0: both addresses get
the set index 0 and the tag 0.  The same in the first configuration of the sweep
for the addresses `0x400140` and `0x400144` of two consecutive instructions. -/
theorem hit_on_line_of_other_block :
    (block_of sample_direct 0, block_of sample_direct 4) = (0, 1)
      ∧ (iplc_sim_trap_address sample_direct 0).1 = 0
      ∧ (iplc_sim_trap_address (run_trap sample_direct [0]) 4).1 = 1
      ∧ (block_of sample_sweep_start 4194624, block_of sample_sweep_start 4194628)
          = (1048656, 1048657)
      ∧ (iplc_sim_trap_address sample_sweep_start 4194624).1 = 0
      ∧ (iplc_sim_trap_address (run_trap sample_sweep_start [4194624]) 4194628).1 = 1 := by
  decide

/-! ## The history of a set -/

theorem lookups_since_head (hist : List Int) (t : Int) : lookups_since (t :: hist) t = 1 := by
  unfold lookups_since
  rw [if_pos rfl]

theorem lookups_since_tail (hist : List Int) (t u : Int) (h : u ≠ t) :
    lookups_since (t :: hist) u = lookups_since hist u + 1 := by
  show (if t = u then 1 else lookups_since hist u + 1) = _
  rw [if_neg (fun e => h e.symm)]

theorem lookups_since_pos (hist : List Int) (u : Int) (h : u ∈ hist) :
    1 ≤ lookups_since hist u := by
  cases hist with
  | nil => exact absurd h (List.not_mem_nil u)
  | cons t rest =>
    by_cases e : u = t
    · subst e; rw [lookups_since_head]
    · rw [lookups_since_tail rest t u e]; omega

theorem lookups_since_inj (hist : List Int) (u v : Int) (hu : u ∈ hist) (hv : v ∈ hist)
    (h : lookups_since hist u = lookups_since hist v) : u = v := by
  induction hist with
  | nil => exact absurd hu (List.not_mem_nil u)
  | cons t rest ih =>
    by_cases eu : u = t
    · by_cases ev : v = t
      · rw [eu, ev]
      · have hv2 : v ∈ rest := (List.mem_cons.mp hv).resolve_left ev
        have := lookups_since_pos rest v hv2
        rw [eu, lookups_since_head, lookups_since_tail rest t v ev] at h
        omega
    · have hu2 : u ∈ rest := (List.mem_cons.mp hu).resolve_left eu
      by_cases ev : v = t
      · have := lookups_since_pos rest u hu2
        rw [ev, lookups_since_head, lookups_since_tail rest t u eu] at h
        omega
      · have hv2 : v ∈ rest := (List.mem_cons.mp hv).resolve_left ev
        rw [lookups_since_tail rest t u eu, lookups_since_tail rest t v ev] at h
        exact ih hu2 hv2 (by omega)

/-! ## One lookup keeps the relation between a set and its history -/

theorem lru_inv_hit (assoc : Nat) (c : cache_line_t) (hist : List Int) (t : Int) (a : Nat)
    (hinv : lru_inv assoc c hist) (ht : trap_loop c t assoc 0 = some a) :
    lru_inv assoc (update_loop assoc 0 { c with age := c.age.set a 0 }) (t :: hist) := by
  obtain ⟨hwf, h01, hage, hdup⟩ := hinv
  obtain ⟨_, ha, hva, hta, _⟩ := trap_loop_some c t assoc 0 a ht
  have ha : a < assoc := by omega
  have hv : ∀ i, valid_at (update_loop assoc 0 { c with age := c.age.set a 0 }) i
      = valid_at c i := fun i => by rw [valid_at_update_loop]; rfl
  have htg : ∀ i, tag_at (update_loop assoc 0 { c with age := c.age.set a 0 }) i
      = tag_at c i := fun i => by rw [tag_at_update_loop]; rfl
  obtain ⟨hr1, hr2⟩ := recency_update_lines assoc a c hwf ha hva
  have hwf1 : set_wf assoc ({ c with age := c.age.set a 0 } : cache_line_t) :=
    ⟨hwf.1, hwf.2.1, by show (c.age.set a 0).length = assoc; rw [List.length_set]; exact hwf.2.2⟩
  refine ⟨set_wf_update_loop assoc assoc 0 _ hwf1, ?_, ?_, ?_⟩
  · intro i hi
    rw [hv]; exact h01 i hi
  · intro i hi hvi
    rw [hv] at hvi
    rw [htg]
    by_cases e : i = a
    · subst e
      rw [hr1, hta, lookups_since_head]
      exact ⟨List.mem_cons_self _ _, rfl⟩
    · have hne : tag_at c i ≠ t := by
        intro h
        exact e (hdup i hi a ha hvi hva (by rw [h, hta]))
      obtain ⟨hm, hag⟩ := hage i hi hvi
      rw [(hr2 i hi e).1 hvi, hag, lookups_since_tail hist t _ hne]
      exact ⟨List.mem_cons_of_mem _ hm, by push_cast; rfl⟩
  · intro i hi j hj hvi hvj htag
    rw [hv] at hvi hvj
    rw [htg, htg] at htag
    exact hdup i hi j hj hvi hvj htag

theorem lru_inv_miss (assoc : Nat) (c : cache_line_t) (hist : List Int) (t : Int)
    (hinv : lru_inv assoc c hist) (hassoc : 1 ≤ assoc) (ht : trap_loop c t assoc 0 = none) :
    lru_inv assoc
      (update_loop assoc 0
        { valid_bit := c.valid_bit.set (replace_loop c assoc 0 0 0) 1,
          tag := c.tag.set (replace_loop c assoc 0 0 0) t,
          age := c.age.set (replace_loop c assoc 0 0 0) 0 })
      (t :: hist) := by
  obtain ⟨hwf, h01, hage, hdup⟩ := hinv
  have hnone := trap_loop_none c t assoc 0 ht
  have htl : replace_loop c assoc 0 0 0 < assoc := by
    have h := replace_loop_lt c assoc 0 0 0 (by omega)
    simpa using h
  generalize replace_loop c assoc 0 0 0 = tl at htl ⊢
  have hwf2 : set_wf assoc
      ({ valid_bit := c.valid_bit.set tl 1, tag := c.tag.set tl t, age := c.age } : cache_line_t) :=
    ⟨by show (c.valid_bit.set tl 1).length = assoc; rw [List.length_set]; exact hwf.1,
     by show (c.tag.set tl t).length = assoc; rw [List.length_set]; exact hwf.2.1, hwf.2.2⟩
  have hfill := filled_lines c tl t c.age
  have hvtl : valid_at
      ({ valid_bit := c.valid_bit.set tl 1, tag := c.tag.set tl t, age := c.age } : cache_line_t) tl
      = 1 := by
    rw [(hfill tl).1, if_pos ⟨rfl, by rw [hwf.1]; exact htl⟩]
  obtain ⟨hr1, hr2⟩ := recency_update_lines assoc tl _ hwf2 htl hvtl
  have hv : ∀ i, valid_at (update_loop assoc 0
      { valid_bit := c.valid_bit.set tl 1, tag := c.tag.set tl t, age := c.age.set tl 0 }) i
      = if tl = i then 1 else valid_at c i := by
    intro i
    rw [valid_at_update_loop]
    have := (filled_lines c tl t (c.age.set tl 0) i).1
    rw [this]
    by_cases e : tl = i
    · rw [if_pos ⟨e, by rw [hwf.1]; exact htl⟩, if_pos e]
    · rw [if_neg (fun h => e h.1), if_neg e]
  have htg : ∀ i, tag_at (update_loop assoc 0
      { valid_bit := c.valid_bit.set tl 1, tag := c.tag.set tl t, age := c.age.set tl 0 }) i
      = if tl = i then t else tag_at c i := by
    intro i
    rw [tag_at_update_loop]
    have := (filled_lines c tl t (c.age.set tl 0) i).2
    rw [this]
    by_cases e : tl = i
    · rw [if_pos ⟨e, by rw [hwf.2.1]; exact htl⟩, if_pos e]
    · rw [if_neg (fun h => e h.1), if_neg e]
  have hwf3 : set_wf assoc
      ({ valid_bit := c.valid_bit.set tl 1, tag := c.tag.set tl t,
         age := c.age.set tl 0 } : cache_line_t) :=
    ⟨hwf2.1, hwf2.2.1, by show (c.age.set tl 0).length = assoc; rw [List.length_set]; exact hwf.2.2⟩
  refine ⟨set_wf_update_loop assoc assoc 0 _ hwf3, ?_, ?_, ?_⟩
  · intro i hi
    rw [hv]
    by_cases e : tl = i
    · rw [if_pos e]; exact Or.inr rfl
    · rw [if_neg e]; exact h01 i hi
  · intro i hi hvi
    rw [hv] at hvi
    rw [htg]
    by_cases e : tl = i
    · subst e
      rw [if_pos rfl, lookups_since_head]
      exact ⟨List.mem_cons_self _ _, hr1⟩
    · rw [if_neg e] at hvi ⊢
      have hne : tag_at c i ≠ t := fun h => hnone i (Nat.zero_le _) (by omega) ⟨hvi, h⟩
      obtain ⟨hm, hag⟩ := hage i hi hvi
      have hv2 : valid_at
          ({ valid_bit := c.valid_bit.set tl 1, tag := c.tag.set tl t,
             age := c.age } : cache_line_t) i = 1 := by
        rw [(hfill i).1, if_neg (fun h => e h.1)]; exact hvi
      have hstep := (hr2 i hi (fun h => e h.symm)).1 hv2
      refine ⟨List.mem_cons_of_mem _ hm, ?_⟩
      rw [lookups_since_tail hist t _ hne]
      push_cast
      rw [← hag]
      exact hstep
  · intro i hi j hj hvi hvj htag
    rw [hv] at hvi hvj
    rw [htg, htg] at htag
    by_cases ei : tl = i
    · by_cases ej : tl = j
      · rw [← ei, ← ej]
      · rw [if_pos ei, if_neg ej] at htag
        rw [if_neg ej] at hvj
        exact absurd htag.symm (fun h => hnone j (Nat.zero_le _) (by omega) ⟨hvj, h⟩)
    · by_cases ej : tl = j
      · rw [if_neg ei, if_pos ej] at htag
        rw [if_neg ei] at hvi
        exact absurd htag (fun h => hnone i (Nat.zero_le _) (by omega) ⟨hvi, h⟩)
      · rw [if_neg ei, if_neg ej] at htag
        rw [if_neg ei] at hvi
        rw [if_neg ej] at hvj
        exact hdup i hi j hj hvi hvj htag

theorem lru_inv_lookup (assoc : Nat) (c : cache_line_t) (hist : List Int) (t : Int)
    (hinv : lru_inv assoc c hist) (hassoc : 1 ≤ assoc) :
    lru_inv assoc (lookup_set c t assoc) (t :: hist) := by
  cases h : trap_loop c t assoc 0 with
  | some a =>
    have hl : lookup_set c t assoc = update_loop assoc 0 { c with age := c.age.set a 0 } := by
      unfold lookup_set; rw [h]
    rw [hl]
    exact lru_inv_hit assoc c hist t a hinv h
  | none =>
    have hl : lookup_set c t assoc
        = update_loop assoc 0
            { valid_bit := c.valid_bit.set (replace_loop c assoc 0 0 0) 1,
              tag := c.tag.set (replace_loop c assoc 0 0 0) t,
              age := c.age.set (replace_loop c assoc 0 0 0) 0 } := by
      unfold lookup_set; rw [h]
    rw [hl]
    exact lru_inv_miss assoc c hist t hinv hassoc h

/-! ## The tags of a set after a lookup -/

theorem lookup_hit_iff (c : cache_line_t) (t : Int) (assoc : Nat) :
    (lookup_hit c t assoc = 1 ↔ resident c assoc t)
      ∧ (lookup_hit c t assoc = 0 ↔ ¬ resident c assoc t) := by
  cases h : trap_loop c t assoc 0 with
  | some a =>
    have hh : lookup_hit c t assoc = 1 := by unfold lookup_hit; rw [h]
    obtain ⟨_, ha, hva, hta, _⟩ := trap_loop_some c t assoc 0 a h
    have hr : resident c assoc t := ⟨a, by omega, hva, hta⟩
    rw [hh]
    exact ⟨⟨fun _ => hr, fun _ => rfl⟩, ⟨fun h0 => absurd h0 (by decide), fun hn => absurd hr hn⟩⟩
  | none =>
    have hh : lookup_hit c t assoc = 0 := by unfold lookup_hit; rw [h]
    have hnone := trap_loop_none c t assoc 0 h
    have hr : ¬ resident c assoc t := by
      rintro ⟨i, hi, hvi, hti⟩
      exact hnone i (Nat.zero_le _) (by omega) ⟨hvi, hti⟩
    rw [hh]
    exact ⟨⟨fun h0 => absurd h0 (by decide), fun hn => absurd hn hr⟩, ⟨fun _ => hr, fun _ => rfl⟩⟩

/-- After a hit every line has the valid bit and the tag it had. -/
theorem lookup_set_lines_hit (c : cache_line_t) (t : Int) (assoc a : Nat)
    (h : trap_loop c t assoc 0 = some a) (i : Nat) :
    valid_at (lookup_set c t assoc) i = valid_at c i
      ∧ tag_at (lookup_set c t assoc) i = tag_at c i := by
  have hl : lookup_set c t assoc = update_loop assoc 0 { c with age := c.age.set a 0 } := by
    unfold lookup_set; rw [h]
  rw [hl, valid_at_update_loop, tag_at_update_loop]
  exact ⟨rfl, rfl⟩

/-- After a miss the line that the replacement picked is valid and holds the new
tag; every other line has the valid bit and the tag it had. -/
theorem lookup_set_lines_miss (c : cache_line_t) (t : Int) (assoc : Nat)
    (hwf : set_wf assoc c) (hassoc : 1 ≤ assoc)
    (h : trap_loop c t assoc 0 = none) (i : Nat) :
    valid_at (lookup_set c t assoc) i
        = (if replace_loop c assoc 0 0 0 = i then 1 else valid_at c i)
      ∧ tag_at (lookup_set c t assoc) i
        = (if replace_loop c assoc 0 0 0 = i then t else tag_at c i) := by
  have hl : lookup_set c t assoc
      = update_loop assoc 0
          { valid_bit := c.valid_bit.set (replace_loop c assoc 0 0 0) 1,
            tag := c.tag.set (replace_loop c assoc 0 0 0) t,
            age := c.age.set (replace_loop c assoc 0 0 0) 0 } := by
    unfold lookup_set; rw [h]
  have htl : replace_loop c assoc 0 0 0 < assoc := by
    have h := replace_loop_lt c assoc 0 0 0 (by omega)
    simpa using h
  rw [hl, valid_at_update_loop, tag_at_update_loop]
  generalize replace_loop c assoc 0 0 0 = tl at htl ⊢
  constructor
  · rw [(filled_lines c tl t (c.age.set tl 0) i).1]
    by_cases e : tl = i
    · have e2 : tl = i ∧ tl < c.valid_bit.length := ⟨e, by rw [hwf.1]; exact htl⟩
      rw [if_pos e2, if_pos e]
    · have e2 : ¬ (tl = i ∧ tl < c.valid_bit.length) := fun h => e h.1
      rw [if_neg e2, if_neg e]
  · rw [(filled_lines c tl t (c.age.set tl 0) i).2]
    by_cases e : tl = i
    · have e2 : tl = i ∧ tl < c.tag.length := ⟨e, by rw [hwf.2.1]; exact htl⟩
      rw [if_pos e2, if_pos e]
    · have e2 : ¬ (tl = i ∧ tl < c.tag.length) := fun h => e h.1
      rw [if_neg e2, if_neg e]

/-- In a set that has an invalid line the replacement picks an invalid line. -/
theorem replace_picks_invalid (c : cache_line_t) (assoc : Nat)
    (hinv : ∃ i, i < assoc ∧ valid_at c i = 0) :
    replace_loop c assoc 0 0 0 < assoc ∧ valid_at c (replace_loop c assoc 0 0 0) = 0 := by
  classical
  have hk := Nat.find_spec hinv
  have hmin : ∀ j, j < Nat.find hinv → valid_at c j ≠ 0 := by
    intro j hj h0
    exact Nat.find_min hinv hj ⟨by omega, h0⟩
  have ht : replace_loop c assoc 0 0 0 = Nat.find hinv :=
    replace_loop_first_invalid c assoc 0 (Nat.find hinv) 0 0
      (Nat.zero_le _) (by omega) hk.2 (fun j _ hj => hmin j hj)
  rw [ht]
  exact hk

/-- In a set whose lines are all valid, related to its history, the replacement
picks the line whose tag was looked up the longest ago. -/
theorem replace_picks_oldest (assoc : Nat) (c : cache_line_t) (hist : List Int)
    (hinv : lru_inv assoc c hist) (hassoc : 1 ≤ assoc)
    (hfull : ∀ i, i < assoc → valid_at c i = 1) :
    replace_loop c assoc 0 0 0 < assoc
      ∧ ∀ j, j < assoc → j ≠ replace_loop c assoc 0 0 0 →
          lookups_since hist (tag_at c j)
            < lookups_since hist (tag_at c (replace_loop c assoc 0 0 0)) := by
  obtain ⟨hwf, h01, hage, hdup⟩ := hinv
  have hloop := replace_loop_oldest c assoc 0 0 0 (by omega)
    (fun j _ hj => by rw [hfull j (by omega)]; decide)
    (fun j _ hj => by rw [(hage j (by omega) (hfull j (by omega))).2]; exact Int.natCast_nonneg _)
    (by rw [if_pos rfl]; exact ⟨rfl, rfl⟩)
  simp only [Nat.zero_add] at hloop
  obtain ⟨h1, h2, _⟩ := hloop
  refine ⟨h1, ?_⟩
  intro j hj hne
  have hle := h2 j hj
  obtain ⟨hmj, haj⟩ := hage j hj (hfull j hj)
  obtain ⟨hmt, hat⟩ := hage _ h1 (hfull _ h1)
  rw [haj, hat] at hle
  have hle2 : lookups_since hist (tag_at c j)
      ≤ lookups_since hist (tag_at c (replace_loop c assoc 0 0 0)) := by exact_mod_cast hle
  have hneq : lookups_since hist (tag_at c j)
      ≠ lookups_since hist (tag_at c (replace_loop c assoc 0 0 0)) := by
    intro h
    have htag := lookups_since_inj hist _ _ hmj hmt h
    exact hne (hdup j hj _ h1 (hfull j hj) (hfull _ h1) htag)
  omega

/-- The tags that a set holds after a lookup, in terms of the tags it held. -/
theorem lookup_residents (assoc : Nat) (c : cache_line_t) (hist : List Int) (t : Int)
    (hinv : lru_inv assoc c hist) (hassoc : 1 ≤ assoc) :
    (lookup_hit c t assoc = 1 →
        ∀ u, resident (lookup_set c t assoc) assoc u ↔ resident c assoc u)
      ∧ (lookup_hit c t assoc = 0 → (∃ i, i < assoc ∧ valid_at c i = 0) →
          ∀ u, resident (lookup_set c t assoc) assoc u ↔ (u = t ∨ resident c assoc u))
      ∧ (lookup_hit c t assoc = 0 → (∀ i, i < assoc → valid_at c i = 1) →
          ∀ u, resident (lookup_set c t assoc) assoc u
            ↔ (u = t ∨ (resident c assoc u ∧ u ≠ tag_at c (replace_loop c assoc 0 0 0)))) := by
  cases h : trap_loop c t assoc 0 with
  | some a =>
    have hh : lookup_hit c t assoc = 1 := by unfold lookup_hit; rw [h]
    rw [hh]
    refine ⟨?_, fun h0 => absurd h0 (by decide), fun h0 => absurd h0 (by decide)⟩
    intro _ u
    unfold resident
    constructor
    · rintro ⟨i, hi, hvi, hti⟩
      rw [(lookup_set_lines_hit c t assoc a h i).1] at hvi
      rw [(lookup_set_lines_hit c t assoc a h i).2] at hti
      exact ⟨i, hi, hvi, hti⟩
    · rintro ⟨i, hi, hvi, hti⟩
      refine ⟨i, hi, ?_, ?_⟩
      · rw [(lookup_set_lines_hit c t assoc a h i).1]; exact hvi
      · rw [(lookup_set_lines_hit c t assoc a h i).2]; exact hti
  | none =>
    have hh : lookup_hit c t assoc = 0 := by unfold lookup_hit; rw [h]
    rw [hh]
    have hlines := lookup_set_lines_miss c t assoc hinv.1 hassoc h
    have htl : replace_loop c assoc 0 0 0 < assoc := by
      have h := replace_loop_lt c assoc 0 0 0 (by omega)
      simpa using h
    refine ⟨fun h0 => absurd h0 (by decide), ?_, ?_⟩
    · intro _ hex u
      obtain ⟨_, hv0⟩ := replace_picks_invalid c assoc hex
      unfold resident
      constructor
      · rintro ⟨i, hi, hvi, hti⟩
        rw [(hlines i).1] at hvi
        rw [(hlines i).2] at hti
        by_cases e : replace_loop c assoc 0 0 0 = i
        · rw [if_pos e] at hti
          exact Or.inl hti.symm
        · rw [if_neg e] at hvi hti
          exact Or.inr ⟨i, hi, hvi, hti⟩
      · rintro (hu | ⟨i, hi, hvi, hti⟩)
        · refine ⟨replace_loop c assoc 0 0 0, htl, ?_, ?_⟩
          · rw [(hlines _).1, if_pos rfl]
          · rw [(hlines _).2, if_pos rfl, hu]
        · have e : replace_loop c assoc 0 0 0 ≠ i := by
            intro e
            rw [e] at hv0
            rw [hv0] at hvi
            exact absurd hvi (by decide)
          refine ⟨i, hi, ?_, ?_⟩
          · rw [(hlines i).1, if_neg e]; exact hvi
          · rw [(hlines i).2, if_neg e]; exact hti
    · intro _ hfull u
      unfold resident
      constructor
      · rintro ⟨i, hi, hvi, hti⟩
        rw [(hlines i).1] at hvi
        rw [(hlines i).2] at hti
        by_cases e : replace_loop c assoc 0 0 0 = i
        · rw [if_pos e] at hti
          exact Or.inl hti.symm
        · rw [if_neg e] at hvi hti
          refine Or.inr ⟨⟨i, hi, hvi, hti⟩, ?_⟩
          intro hu
          apply e
          exact (hinv.2.2.2 i hi _ htl hvi (hfull _ htl) (by rw [hti, hu])).symm
      · rintro (hu | ⟨⟨i, hi, hvi, hti⟩, hne⟩)
        · refine ⟨replace_loop c assoc 0 0 0, htl, ?_, ?_⟩
          · rw [(hlines _).1, if_pos rfl]
          · rw [(hlines _).2, if_pos rfl, hu]
        · have e : replace_loop c assoc 0 0 0 ≠ i := by
            intro e
            apply hne
            rw [← hti, e]
          refine ⟨i, hi, ?_, ?_⟩
          · rw [(hlines i).1, if_neg e]; exact hvi
          · rw [(hlines i).2, if_neg e]; exact hti

/-! ## The relation from the cache that the initialisation builds -/

theorem trap_address_other_set (s : State) (address k : Nat)
    (hne : trap_index s address ≠ k) :
    cache_set (iplc_sim_trap_address s address).2 k = cache_set s k := by
  cases h : trap_loop (cache_set s (trap_index s address)) (trap_tag s address) s.cache_assoc 0 with
  | some a => rw [cache_set_trap_hit s address a k h, if_neg (fun e => hne e.1)]
  | none => rw [cache_set_trap_miss s address k h, if_neg (fun e => hne e.1)]

theorem lru_inv_trap (s : State) (address k : Nat) (hist : List Int)
    (hk : k < s.cache.length) (hinv : lru_inv s.cache_assoc (cache_set s k) hist)
    (hassoc : 1 ≤ s.cache_assoc) :
    lru_inv s.cache_assoc (cache_set (iplc_sim_trap_address s address).2 k)
      (if trap_index s address = k then trap_tag s address :: hist else hist) := by
  by_cases e : trap_index s address = k
  · rw [if_pos e]
    subst e
    rw [(trap_address_on_set s address hk).2.1]
    exact lru_inv_lookup _ _ _ _ hinv hassoc
  · rw [if_neg e, trap_address_other_set s address k e]
    exact hinv

theorem set_history_congr (s s2 : State) (k : Nat) (hist : List Int) (addrs : List Nat)
    (h1 : s2.cache_index = s.cache_index)
    (h2 : s2.cache_blockoffsetbits = s.cache_blockoffsetbits) :
    set_history s2 k hist addrs = set_history s k hist addrs := by
  have hi : trap_index s2 = trap_index s := by
    funext a; unfold trap_index; rw [h1, h2]
  have ht : trap_tag s2 = trap_tag s := by
    funext a; unfold trap_tag; rw [h1, h2]
  unfold set_history
  rw [hi, ht]

theorem lru_inv_run (addrs : List Nat) (s : State) (k : Nat) (hist : List Int)
    (hk : k < s.cache.length) (hinv : lru_inv s.cache_assoc (cache_set s k) hist)
    (hassoc : 1 ≤ s.cache_assoc) :
    lru_inv s.cache_assoc (cache_set (run_trap s addrs) k) (set_history s k hist addrs) := by
  induction addrs generalizing s hist with
  | nil => exact hinv
  | cons a rest ih =>
    have hstep := lru_inv_trap s a k hist hk hinv hassoc
    have hlen := trap_address_length s a
    have hass := trap_address_assoc s a
    have hcfg := trap_address_config s a
    have h := ih (iplc_sim_trap_address s a).2
      (if trap_index s a = k then trap_tag s a :: hist else hist)
      (by rw [hlen]; exact hk) (by rw [hass]; exact hstep) (by rw [hass]; exact hassoc)
    rw [hass, set_history_congr s _ k _ rest hcfg.1 hcfg.2] at h
    exact h

theorem lru_inv_fresh (heap : Nat → Int) (assoc : Nat) :
    lru_inv assoc (fresh_set heap assoc) [] := by
  refine ⟨fresh_set_wf heap assoc, fun i _ => Or.inl (fresh_set_valid heap assoc i), ?_, ?_⟩
  · intro i _ hv
    rw [fresh_set_valid] at hv
    exact absurd hv (by decide)
  · intro i _ j _ hv
    rw [fresh_set_valid] at hv
    exact absurd hv (by decide)

theorem run_trap_config (s : State) (addrs : List Nat) :
    (run_trap s addrs).cache_index = s.cache_index
      ∧ (run_trap s addrs).cache_blockoffsetbits = s.cache_blockoffsetbits := by
  induction addrs generalizing s with
  | nil => exact ⟨rfl, rfl⟩
  | cons a rest ih =>
    show (run_trap (iplc_sim_trap_address s a).2 rest).cache_index = _
      ∧ (run_trap (iplc_sim_trap_address s a).2 rest).cache_blockoffsetbits = _
    rw [(ih _).1, (ih _).2]
    exact trap_address_config s a

/-! ## The replacement policy is least recently used -/

/-- C24: from the cache that `iplc_sim_init` builds with associativity at least
1, after the lookups of any list of addresses, in every set `k` (ages are
integers without overflow in the model): the age of a valid line is the number
of lookups of the set since the last lookup of its tag, that lookup included;
two valid lines hold different tags and have different ages, and their ages are
ordered as the last lookups of their tags are; a further lookup that goes to the
set hits exactly when its tag is held by a valid line; a hit changes no tag; a
miss in a set with an invalid line adds the new tag and evicts none; a miss in a
set whose lines are all valid replaces the line picked by the replacement, whose
tag is the one looked up the longest ago among the tags of the set, and keeps
every other tag. -/
theorem age_counters_are_exact_lru (s0 s : State) (heap : Nat → Nat → Int)
    (index blocksize assoc : Int)
    (hinit : iplc_sim_init s0 heap index blocksize assoc = some s) (hassoc : 1 ≤ assoc)
    (addrs : List Nat) (k : Nat) (hk : k < 2 ^ index.toNat) :
    (∀ i, i < assoc.toNat → valid_at (cache_set (run_trap s addrs) k) i = 1 →
        tag_at (cache_set (run_trap s addrs) k) i ∈ set_history s k [] addrs
        ∧ age_at (cache_set (run_trap s addrs) k) i
            = (lookups_since (set_history s k [] addrs)
                (tag_at (cache_set (run_trap s addrs) k) i) : Int))
      ∧ (∀ i, i < assoc.toNat → ∀ j, j < assoc.toNat →
          valid_at (cache_set (run_trap s addrs) k) i = 1 →
          valid_at (cache_set (run_trap s addrs) k) j = 1 → i ≠ j →
          tag_at (cache_set (run_trap s addrs) k) i ≠ tag_at (cache_set (run_trap s addrs) k) j
          ∧ age_at (cache_set (run_trap s addrs) k) i
              ≠ age_at (cache_set (run_trap s addrs) k) j
          ∧ (age_at (cache_set (run_trap s addrs) k) i
                < age_at (cache_set (run_trap s addrs) k) j
              ↔ lookups_since (set_history s k [] addrs)
                    (tag_at (cache_set (run_trap s addrs) k) i)
                  < lookups_since (set_history s k [] addrs)
                      (tag_at (cache_set (run_trap s addrs) k) j)))
      ∧ ∀ a, trap_index s a = k →
          ((iplc_sim_trap_address (run_trap s addrs) a).1 = 1
              ↔ resident (cache_set (run_trap s addrs) k) assoc.toNat (trap_tag s a))
          ∧ ((iplc_sim_trap_address (run_trap s addrs) a).1 = 0
              ↔ ¬ resident (cache_set (run_trap s addrs) k) assoc.toNat (trap_tag s a))
          ∧ ((iplc_sim_trap_address (run_trap s addrs) a).1 = 1 →
              ∀ u, resident (cache_set (iplc_sim_trap_address (run_trap s addrs) a).2 k)
                    assoc.toNat u
                ↔ resident (cache_set (run_trap s addrs) k) assoc.toNat u)
          ∧ ((iplc_sim_trap_address (run_trap s addrs) a).1 = 0 →
              (∃ i, i < assoc.toNat ∧ valid_at (cache_set (run_trap s addrs) k) i = 0) →
              ∀ u, resident (cache_set (iplc_sim_trap_address (run_trap s addrs) a).2 k)
                    assoc.toNat u
                ↔ (u = trap_tag s a
                    ∨ resident (cache_set (run_trap s addrs) k) assoc.toNat u))
          ∧ ((iplc_sim_trap_address (run_trap s addrs) a).1 = 0 →
              (∀ i, i < assoc.toNat → valid_at (cache_set (run_trap s addrs) k) i = 1) →
              target_of (run_trap s addrs) k < assoc.toNat
              ∧ (∀ j, j < assoc.toNat → j ≠ target_of (run_trap s addrs) k →
                  lookups_since (set_history s k [] addrs)
                      (tag_at (cache_set (run_trap s addrs) k) j)
                    < lookups_since (set_history s k [] addrs)
                        (tag_at (cache_set (run_trap s addrs) k)
                          (target_of (run_trap s addrs) k)))
              ∧ ∀ u, resident (cache_set (iplc_sim_trap_address (run_trap s addrs) a).2 k)
                      assoc.toNat u
                  ↔ (u = trap_tag s a
                      ∨ (resident (cache_set (run_trap s addrs) k) assoc.toNat u
                          ∧ u ≠ tag_at (cache_set (run_trap s addrs) k)
                                (target_of (run_trap s addrs) k)))) := by
  obtain ⟨h1, _, _, h4, h5⟩ := init_cache s0 s heap index blocksize assoc hinit
  have hk2 : k < s.cache.length := by rw [h4]; exact hk
  have hassoc2 : 1 ≤ s.cache_assoc := by rw [h1]; omega
  have hinv0 : lru_inv s.cache_assoc (cache_set s k) [] := by
    rw [h5 k hk2, h1]; exact lru_inv_fresh _ _
  have hrun := lru_inv_run addrs s k [] hk2 hinv0 hassoc2
  have hass : (run_trap s addrs).cache_assoc = s.cache_assoc := run_trap_assoc s addrs
  have hlen : (run_trap s addrs).cache.length = s.cache.length := run_trap_length s addrs
  have hcfg := run_trap_config s addrs
  have htarget : target_of (run_trap s addrs) k
      = replace_loop (cache_set (run_trap s addrs) k) s.cache_assoc 0 0 0 := by
    unfold target_of; rw [hass]
  rw [htarget]
  generalize hst : run_trap s addrs = st at hrun hass hlen hcfg ⊢
  rw [← h1]
  generalize s.cache_assoc = n at hrun hass hassoc2 ⊢
  generalize hh : set_history s k [] addrs = hist at hrun ⊢
  obtain ⟨hwf, h01, hage, hdup⟩ := hrun
  have hinv : lru_inv n (cache_set st k) hist := ⟨hwf, h01, hage, hdup⟩
  refine ⟨hage, ?_, ?_⟩
  · intro i hi j hj hvi hvj hne
    obtain ⟨hmi, hai⟩ := hage i hi hvi
    obtain ⟨hmj, haj⟩ := hage j hj hvj
    have htag : tag_at (cache_set st k) i ≠ tag_at (cache_set st k) j :=
      fun h => hne (hdup i hi j hj hvi hvj h)
    have hls : lookups_since hist (tag_at (cache_set st k) i)
        ≠ lookups_since hist (tag_at (cache_set st k) j) :=
      fun h => htag (lookups_since_inj hist _ _ hmi hmj h)
    refine ⟨htag, ?_, ?_⟩
    · rw [hai, haj]
      exact_mod_cast hls
    · rw [hai, haj]
      exact Int.ofNat_lt
  · intro a ha
    have hi2 : trap_index st a = trap_index s a := by
      unfold trap_index; rw [hcfg.1, hcfg.2]
    have ht2 : trap_tag st a = trap_tag s a := by
      unfold trap_tag; rw [hcfg.1, hcfg.2]
    have hidx : trap_index st a < st.cache.length := by
      rw [hi2, ha, hlen]; exact hk2
    obtain ⟨g1, g2, _⟩ := trap_address_on_set st a hidx
    rw [hi2, ha, ht2, hass] at g1 g2
    rw [g1, g2]
    obtain ⟨r1, r2, r3⟩ := lookup_residents n (cache_set st k) hist (trap_tag s a) hinv hassoc2
    refine ⟨(lookup_hit_iff _ _ _).1, (lookup_hit_iff _ _ _).2, r1, r2, ?_⟩
    intro hmiss hfull
    obtain ⟨p1, p2⟩ := replace_picks_oldest n (cache_set st k) hist hinv hassoc2 hfull
    exact ⟨p1, p2, r3 hmiss hfull⟩

/-- C24 (instance): in the configuration `index = 1`, `blocksize = 1`,
`assoc = 2`, after the lookups of the addresses 56, 40, 56 (set 0, tags 7, 5, 7)
both lines of set 0 are valid, the lookup of address 72 (tag 9) misses, and the
line that the replacement picks holds the tag 5, looked up longer ago than the
tag 7 of line 0. -/
theorem age_counters_are_exact_lru_witness :
    iplc_sim_init initial_state zero_heap 1 1 2 = some sample_init
      ∧ tag_at (cache_set (run_trap sample_init [56, 40, 56]) 0)
          (target_of (run_trap sample_init [56, 40, 56]) 0) = 5
      ∧ lookups_since (set_history sample_init 0 [] [56, 40, 56])
            (tag_at (cache_set (run_trap sample_init [56, 40, 56]) 0) 0)
          < lookups_since (set_history sample_init 0 [] [56, 40, 56])
              (tag_at (cache_set (run_trap sample_init [56, 40, 56]) 0)
                (target_of (run_trap sample_init [56, 40, 56]) 0)) :=
  ⟨by decide, by decide,
   (((age_counters_are_exact_lru initial_state sample_init zero_heap 1 1 2 (by decide)
      (by decide) [56, 40, 56] 0 (by decide)).2.2 72 (by decide)).2.2.2.2
      (by decide) (by decide)).2.1 0 (by decide) (by decide)⟩

/-! ## Instances of the last theorems on sample states -/

/-- C22 (instance): in `sample_branch` the prediction is right and no hazard is
present, so the call is one shift and one cycle. -/
theorem push_without_stall_shifts_witness :
    push_stall sample_branch = 0
      ∧ (iplc_sim_push_pipeline_stage sample_branch).pipeline.DECODE
          = sample_branch.pipeline.FETCH
      ∧ (iplc_sim_push_pipeline_stage sample_branch).pipeline_cycles
          = (sample_branch.pipeline_cycles + 1) % U32 :=
  ⟨by decide, by decide, (push_without_stall_shifts sample_branch (by decide)).2.2.2.1⟩

/-- C26 (instance): in `sample_two_branches` the call returns with three levels
of calls, and two levels are not enough. -/
theorem push_returns_within_three_rounds_witness :
    push_fuel 2 sample_two_branches = none
      ∧ push_fuel (0 + 3) sample_two_branches
          = some (iplc_sim_push_pipeline_stage sample_two_branches) :=
  ⟨by decide, (push_returns_within_three_rounds sample_two_branches 0).1⟩

/-- C27 (instance): in the first configuration of the sweep, after the trace
line `beq` at `0x4001fc`, the lookup of the next line at `0x400200`, the address
of the branch plus 4, misses, and the line is dispatched after the miss loop;
at the end of the run the branch is counted and no prediction is counted as
correct. -/
theorem branch_evaluated_in_miss_burn_witness :
    (iplc_sim_trap_address
        { iplc_sim_parse_instruction sample_sweep_start 4194812 (process_call.branch (-1) (-1))
          with instruction_address := 4194816 } 4194816).1 = 0
      ∧ iplc_sim_parse_instruction
          (iplc_sim_parse_instruction sample_sweep_start 4194812 (process_call.branch (-1) (-1)))
          4194816 (process_call.rtype "add" 1 2 3)
        = dispatch
            (miss_burn (iplc_sim_trap_address
              { iplc_sim_parse_instruction sample_sweep_start 4194812
                  (process_call.branch (-1) (-1))
                with instruction_address := 4194816 } 4194816).2)
            (process_call.rtype "add" 1 2 3)
      ∧ (iplc_sim_finalize (run_trace sample_sweep_start
          [(4194812, process_call.branch (-1) (-1)),
           (4194816, process_call.rtype "add" 1 2 3)])).branch_count = 1
      ∧ (iplc_sim_finalize (run_trace sample_sweep_start
          [(4194812, process_call.branch (-1) (-1)),
           (4194816, process_call.rtype "add" 1 2 3)])).correct_branch_predictions = 0 :=
  ⟨by decide,
   (branch_evaluated_in_miss_burn sample_sweep_start 4194812 (-1) (-1) 4194816
      (process_call.rtype "add" 1 2 3) (by decide)).2.1,
   by decide, by decide⟩

/-! ## The executions of the function during the miss loop -/

end IplcSim
